import Mathlib

/-!
# Study scheduler: session allocation and analytics

A shallow embedding of `optimizeSchedule` and `calculateAnalytics`
(backend/server.js lines 85-301 continued in backend/scheduler.js).

Modelling conventions.

* A JavaScript `Date` of the current day is kept as the number of minutes after
  local midnight; `setHours(h, m)` is `h * 60 + m`, `getHours` is `d / 60 % 24`.
* `"HH:MM"` strings arrive already split into an hour below 24 and a minute below 60.
* Priorities are natural numbers, `studyHoursPerDay` is an integer and `breakLength`
  a natural number of minutes.
* JavaScript numbers are exact: `Math.floor (a / b * c)` is the floor of the
  rational value. IEEE rounding of intermediate quotients is not modelled.
  `NaN` is modelled where the source can produce it (`0 / 0` in the quota share).
* Plain objects used as maps are association lists in insertion order with
  own keys only (no inherited properties, no special order for index-like keys).
* `Math.random ()` is an injected stream `rand : Nat → Rand`; the state threads
  the number of draws made so far.
* `daysUntilExam` is an input of each exam (the current date is injected).
* A `while` loop whose bound is not structural takes fuel; `none` means the fuel
  ran out. A thrown `TypeError` is `Except.error Failure.typeError`.
-/

namespace StudyScheduler

/-! ## Data model -/

/-- A course object `{ name, priority }`. -/
structure Course where
  name : String
  priority : Nat
deriving DecidableEq, Repr

/-- The seven keys of the schedule. -/
inductive Day
  | Monday | Tuesday | Wednesday | Thursday | Friday | Saturday | Sunday
deriving DecidableEq, Repr

/-- The array `days` (server.js line 201). -/
def days : List Day :=
  [Day.Monday, Day.Tuesday, Day.Wednesday, Day.Thursday, Day.Friday, Day.Saturday, Day.Sunday]

/-- A time of day `"HH:MM"`: the two numbers of `timeStr.split(':').map(Number)`. -/
structure TimeStr where
  hours : Fin 24
  minutes : Fin 60
deriving DecidableEq, Repr

/-- An entry `{ day, start, end }` of `unavailableTimes`. -/
structure UnavailableTime where
  day : Day
  start : TimeStr
  end_ : TimeStr
deriving DecidableEq, Repr

/-- An entry of `examDates`, with
`daysUntilExam = Math.ceil((examDate - currentDate) / (1000 * 60 * 60 * 24))`. -/
structure ExamDate where
  subject : String
  daysUntilExam : Int
deriving DecidableEq, Repr

/-- The request body `userData` (the unused `name` is left out). -/
structure UserData where
  courses : List Course
  studyHoursPerDay : Int
  breakLength : Nat
  startTime : TimeStr
  endTime : TimeStr
  learningStyle : String
  unavailableTimes : List UnavailableTime
  examDates : List ExamDate
deriving Repr

/-- A study block `{ time, subject, focus }`. The source keeps only the string
`time`; the embedding keeps the two dates it is printed from (see `Session.time`).
`focus` is `none` when `allFocusAreas[randomFocusIndex]` is `undefined`. -/
structure Session where
  start : Nat
  end_ : Nat
  subject : String
  focus : Option String
deriving DecidableEq, Repr

/-- One draw `r = num / den` of `Math.random ()`, a number in `[0, 1)`. -/
structure Rand where
  num : Nat
  den : Nat
  lt : num < den
deriving DecidableEq, Repr

/-- Why a run of the model has no result: a `TypeError` thrown by the source, or
a negative `maxSessionsPerDay`, whose quota arithmetic (infinite scale factors)
is outside the model. -/
inductive Failure
  | typeError
  | negativeBudget
deriving DecidableEq, Repr

deriving instance DecidableEq for Except

/-- The value `Math.floor(r * n)`. -/
def Rand.index (r : Rand) (n : Nat) : Nat := r.num * n / r.den

/-- A number held in `courseSessions` or `courseSessionsRemaining`: an integer
or `NaN`. -/
inductive JSNum
  | nan
  | int (v : Int)
deriving DecidableEq, Repr

/-! ## Time helpers -/

/-- The function `parseTime` (server.js lines 101-106): the date of the current day
at `hours:minutes`, as minutes after midnight. -/
def parseTime (t : TimeStr) : Nat := t.hours.val * 60 + t.minutes.val

/-- The method `Date.getHours`. -/
def getHours (date : Nat) : Nat := date / 60 % 24

/-- The method `Date.getMinutes`. -/
def getMinutes (date : Nat) : Nat := date % 60

/-- Two decimal digits (`hour: '2-digit'`, `minute: '2-digit'`). -/
def twoDigits (n : Nat) : List Char := [Char.ofNat (48 + n / 10 % 10), Char.ofNat (48 + n % 10)]

/-- The function `formatTime` (server.js lines 183-189): zero-padded `HH:MM` on the
24 hour clock, hours running from 00 to 23. -/
def formatTime (date : Nat) : String :=
  String.mk (twoDigits (getHours date) ++ [':'] ++ twoDigits (getMinutes date))

/-- The field `time` of a study block: the template string
`formatTime(sessionStart) - formatTime(sessionEnd)`. -/
def Session.time (s : Session) : String := formatTime s.start ++ " - " ++ formatTime s.end_

/-- The constant `sessionLengthMinutes`. -/
def sessionLengthMinutes : Nat := 90

/-- The value `availableMinutesPerDay` (server.js line 112). -/
def availableMinutesPerDay (u : UserData) : Int :=
  (parseTime u.endTime : Int) - (parseTime u.startTime : Int)

/-- The value `maxSessionsPerDay` (server.js lines 118-121). Integer division by a
positive divisor is the floor. -/
def maxSessionsPerDay (u : UserData) : Int :=
  min (u.studyHoursPerDay * 60 / (sessionLengthMinutes : Int))
    (availableMinutesPerDay u / ((sessionLengthMinutes : Int) + (u.breakLength : Int)))

/-! ## Objects used as maps -/

/-- Property read `obj[k]`; `none` is `undefined`. -/
def objGet {α : Type} : List (String × α) → String → Option α
  | [], _ => none
  | (k', v) :: rest, k => if k' = k then some v else objGet rest k

/-- Property write `obj[k] = v`: an existing key keeps its position. -/
def objSet {α : Type} : List (String × α) → String → α → List (String × α)
  | [], k, v => [(k, v)]
  | (k', v') :: rest, k, v => if k' = k then (k, v) :: rest else (k', v') :: objSet rest k v

/-- The value of `obj[k]` converted to a number: `undefined` becomes `NaN`. -/
def getNum (m : List (String × JSNum)) (k : String) : JSNum :=
  match objGet m k with
  | some v => v
  | none => JSNum.nan

/-- The comparison `x > n`; it is false on `NaN`. -/
def JSNum.gt (x : JSNum) (n : Int) : Bool :=
  match x with
  | JSNum.nan => false
  | JSNum.int v => decide (n < v)

/-- The comparison `x === 0`. -/
def JSNum.isZero (x : JSNum) : Bool :=
  match x with
  | JSNum.nan => false
  | JSNum.int v => decide (v = 0)

/-- The sum `x + y`. -/
def JSNum.add (x y : JSNum) : JSNum :=
  match x, y with
  | JSNum.int a, JSNum.int b => JSNum.int (a + b)
  | _, _ => JSNum.nan

/-- The value left by `x--`. -/
def JSNum.dec (x : JSNum) : JSNum :=
  match x with
  | JSNum.nan => JSNum.nan
  | JSNum.int v => JSNum.int (v - 1)

/-- The value left by `x++`. -/
def JSNum.inc (x : JSNum) : JSNum :=
  match x with
  | JSNum.nan => JSNum.nan
  | JSNum.int v => JSNum.int (v + 1)

/-- The statement `obj[k]--`. -/
def decAt (m : List (String × JSNum)) (k : String) : List (String × JSNum) :=
  objSet m k (getNum m k).dec

/-- The statement `obj[k]++`. -/
def incAt (m : List (String × JSNum)) (k : String) : List (String × JSNum) :=
  objSet m k (getNum m k).inc

/-- The expression `Object.values(obj).reduce((sum, count) => sum + count, 0)`. -/
def sumValues (m : List (String × JSNum)) : JSNum :=
  m.foldl (fun sum kv => sum.add kv.2) (JSNum.int 0)

/-! ## Priorities and exam boosts -/

/-- The call `.sort((a, b) => b.priority - a.priority)`: a stable sort, higher
priority first. -/
def sortByPriority (cs : List Course) : List Course :=
  cs.insertionSort (fun a b => b.priority ≤ a.priority)

/-- The boost stored for an exam `daysUntilExam` days away (server.js lines
135-141); `none` when nothing is stored. -/
def examBoost (daysUntilExam : Int) : Option Nat :=
  if daysUntilExam ≤ 7 then some 3
  else if daysUntilExam ≤ 14 then some 2
  else if daysUntilExam ≤ 30 then some 1
  else none

/-- The object `examPriorities` after the `examDates.forEach` (server.js lines
128-142). -/
def examPriorities (examDates : List ExamDate) : List (String × Nat) :=
  examDates.foldl
    (fun m exam =>
      match examBoost exam.daysUntilExam with
      | some b => objSet m exam.subject b
      | none => m)
    []

/-- The course object after `course.priority += examPriorities[course.name]`, which
runs when `examPriorities[course.name]` is truthy (server.js lines 146-148). -/
def applyBoost (ep : List (String × Nat)) (c : Course) : Course :=
  match objGet ep c.name with
  | some b => if b = 0 then c else { c with priority := c.priority + b }
  | none => c

/-! ### The course objects on the heap

`[...courses]` copies the array, not the objects: `sortedCourses` and the caller
array `courses` hold the same course objects. The heap is the list of these objects,
the object of `courses[i]` at address `i`; an array of courses is a list of
addresses. -/

/-- The object at an address. -/
def deref (heap : List Course) (ref : Nat) : Course :=
  heap.getD ref { name := "", priority := 0 }

/-- The call `.sort((a, b) => b.priority - a.priority)` on an array of addresses. -/
def sortRefs (heap : List Course) (refs : List Nat) : List Nat :=
  refs.insertionSort (fun i j => (deref heap j).priority ≤ (deref heap i).priority)

/-- The body of `sortedCourses.forEach` (server.js lines 145-149) on the object at
address `ref`: the heap after `course.priority += examPriorities[course.name]`. -/
def boostObject (ep : List (String × Nat)) : List Course → Nat → List Course
  | [], _ => []
  | c :: rest, 0 => applyBoost ep c :: rest
  | c :: rest, ref + 1 => c :: boostObject ep rest ref

/-- The heap and the array `sortedCourses` after server.js lines 124-152. -/
def boostedHeap (u : UserData) : List Course × List Nat :=
  let courses := List.range u.courses.length
  let sorted := sortRefs u.courses courses
  let heap := sorted.foldl (boostObject (examPriorities u.examDates)) u.courses
  (heap, sortRefs heap sorted)

/-- The course objects of the array `sortedCourses` after the re-sort (server.js
line 152). -/
def sortedCourses (u : UserData) : List Course :=
  (boostedHeap u).2.map (deref (boostedHeap u).1)

/-- The course objects of the caller array `courses` after server.js line 152:
the array still holds the addresses `0, 1, ...`. -/
def coursesAfter (u : UserData) : List Course :=
  (List.range u.courses.length).map (deref (boostedHeap u).1)

/-! ## Focus areas -/

/-- The lookup `focusAreasByStyle[learningStyle] || []` (server.js lines 164-172). -/
def focusAreasByStyle (learningStyle : String) : List String :=
  if learningStyle = "visual" then
    ["Diagrams & Charts", "Visual Notes", "Mind Maps", "Video Tutorials"]
  else if learningStyle = "auditory" then
    ["Lecture Recordings", "Discussion Groups", "Verbal Repetition", "Podcasts"]
  else if learningStyle = "reading" then
    ["Textbook Reading", "Note-Taking", "Written Summaries", "Practice Questions"]
  else if learningStyle = "kinesthetic" then
    ["Practice Problems", "Lab Work", "Case Studies", "Interactive Simulations"]
  else []

/-- The array `commonFocusAreas` (server.js lines 175-178). -/
def commonFocusAreas : List String :=
  ["Review", "Problem Sets", "Exam Prep", "Concept Mastery", "Reading", "Practice Exams",
    "Project Work"]

/-- The array `allFocusAreas` (server.js line 180). -/
def allFocusAreas (learningStyle : String) : List String :=
  focusAreasByStyle learningStyle ++ commonFocusAreas

/-! ## Unavailable times -/

/-- The entry `unavailableTimesByDay[day]` (server.js lines 155-161) as pairs
`(start, end)`; the empty list when the key is absent. -/
def unavailableTimesByDay (u : UserData) (day : Day) : List (Nat × Nat) :=
  (u.unavailableTimes.filter (fun t => decide (t.day = day))).map
    (fun t => (parseTime t.start, parseTime t.end_))

/-- The function `isTimeSlotAvailable` (server.js lines 192-198) on the ranges
of the day. -/
def isTimeSlotAvailable (ranges : List (Nat × Nat)) (startTime endTime : Nat) : Bool :=
  !(ranges.any (fun unavailable =>
      decide (startTime < unavailable.2) && decide (endTime > unavailable.1)))

/-! ## Session quotas -/

/-- The value `totalPriorityPoints` (server.js line 209). -/
def totalPriorityPoints (sorted : List Course) : Nat :=
  sorted.foldl (fun sum course => sum + course.priority) 0

/-- The value `Math.floor((priority / totalPriorityPoints) * totalSessions)`
(server.js lines 213-214). The total sums the priorities, so a zero total
divides zero by zero. -/
def sessionShare (priority totalPoints totalSessions : Nat) : JSNum :=
  if totalPoints = 0 then JSNum.nan
  else JSNum.int ((priority * totalSessions / totalPoints : Nat) : Int)

/-- The first `sortedCourses.forEach` (server.js lines 212-215). -/
def distributeSessions (sorted : List Course) (totalSessions : Nat) : List (String × JSNum) :=
  sorted.foldl
    (fun cs course =>
      objSet cs course.name (sessionShare course.priority (totalPriorityPoints sorted) totalSessions))
    []

/-- The second `sortedCourses.forEach` (server.js lines 218-222): a quota of 0
becomes 1. -/
def ensureMinimum (sorted : List Course) (cs : List (String × JSNum)) : List (String × JSNum) :=
  sorted.foldl
    (fun cs course => if (getNum cs course.name).isZero then objSet cs course.name (JSNum.int 1) else cs)
    cs

/-- One step of the `for (const course in courseSessions)` loop (server.js lines
229-232) with `scaleFactor = totalSessions / allocatedSessions`. -/
def scaleDown (totalSessions : Nat) (allocated : Int) (q : JSNum) : JSNum :=
  match q with
  | JSNum.nan => JSNum.nan
  | JSNum.int v =>
    if v * (totalSessions : Int) / allocated = 0 then JSNum.int 1
    else JSNum.int (v * (totalSessions : Int) / allocated)

/-- The inner `while (i >= 0 && allocatedSessions > totalSessions)` loop (server.js
lines 243-251) over the names of `sortedCourses[i]`, `i = length - 2` down to 0. -/
def innerPass (totalSessions : Nat) :
    List String → List (String × JSNum) × JSNum → List (String × JSNum) × JSNum
  | [], st => st
  | course :: rest, (cs, allocated) =>
    if allocated.gt totalSessions then
      if (getNum cs course).gt 1 then innerPass totalSessions rest (decAt cs course, allocated.dec)
      else innerPass totalSessions rest (cs, allocated)
    else (cs, allocated)

/-- The outer `while (allocatedSessions > totalSessions)` loop (server.js lines
236-253). Reading `.name` of `sortedCourses[-1]` throws. -/
def correctionLoop (sorted : List Course) (totalSessions : Nat) :
    Nat → List (String × JSNum) × JSNum → Option (Except Failure (List (String × JSNum)))
  | 0, _ => none
  | fuel + 1, (cs, allocated) =>
    if allocated.gt totalSessions then
      match sorted.getLast? with
      | none => some (Except.error Failure.typeError)
      | some lowest =>
        if (getNum cs lowest.name).gt 1 then
          correctionLoop sorted totalSessions fuel (decAt cs lowest.name, allocated.dec)
        else
          correctionLoop sorted totalSessions fuel
            (innerPass totalSessions ((sorted.dropLast.map (fun c => c.name)).reverse)
              (cs, allocated))
    else some (Except.ok cs)

/-- The overflow correction (server.js lines 225-254). -/
def correctOverflow (sorted : List Course) (totalSessions : Nat) (fuel : Nat)
    (cs : List (String × JSNum)) : Option (Except Failure (List (String × JSNum))) :=
  match sumValues cs with
  | JSNum.nan => some (Except.ok cs)
  | JSNum.int allocated =>
    if (totalSessions : Int) < allocated then
      let scaled := cs.map (fun kv => (kv.1, scaleDown totalSessions allocated kv.2))
      correctionLoop sorted totalSessions fuel (scaled, sumValues scaled)
    else some (Except.ok cs)

/-- The object `courseSessions` when the distribution is over (server.js lines
204-254). -/
def courseSessions (sorted : List Course) (totalSessions : Nat) (fuel : Nat) :
    Option (Except Failure (List (String × JSNum))) :=
  correctOverflow sorted totalSessions fuel
    (ensureMinimum sorted (distributeSessions sorted totalSessions))

/-! ## Placement of the sessions -/

/-- The object `reviewSession` (server.js lines 267-271), `15:00 - 16:30`. -/
def reviewSession : Session :=
  { start := 15 * 60, end_ := 16 * 60 + 30, subject := "General Review",
    focus := some "Weekly Summary" }

/-- The variables the `days.forEach` body updates: `courseSessionsRemaining`,
`schedule[day]` and the number of `Math.random ()` calls made so far. -/
structure PlaceState where
  remaining : List (String × JSNum)
  sessions : List Session
  draws : Nat
deriving DecidableEq, Repr

/-- The object `studyBlock` (scheduler.js lines 28-33 and 47-52) for a block
starting at `start`; the end is `sessionLengthMinutes` later. -/
def studyBlock (learningStyle : String) (r : Rand) (start : Nat) (subject : String) : Session :=
  { start := start, end_ := start + sessionLengthMinutes, subject := subject,
    focus := (allFocusAreas learningStyle)[r.index (allFocusAreas learningStyle).length]? }

/-- The search `for (let hour = sessionStartHour + 1; hour < endTimeDate.getHours(); hour++)`
(scheduler.js lines 17-39): the first hour whose block is available. -/
def findAlternative (ranges : List (Nat × Nat)) (sessionStartHour endHour : Nat) : Option Nat :=
  (List.range' (sessionStartHour + 1) (endHour - (sessionStartHour + 1))).find?
    (fun hour => isTimeSlotAvailable ranges (hour * 60) (hour * 60 + sessionLengthMinutes))

/-- The search for `selectedCourse` (server.js lines 282-288). -/
def selectCourse (sorted : List Course) (remaining : List (String × JSNum)) : Option Course :=
  sorted.find? (fun course => (getNum remaining course.name).gt 0)

/-- One iteration of the slot loop (server.js lines 280-300, scheduler.js lines
3-56). -/
def placeSlot (u : UserData) (rand : Nat → Rand) (sorted : List Course) (ranges : List (Nat × Nat))
    (st : PlaceState) (slot : Nat) : PlaceState :=
  match selectCourse sorted st.remaining with
  | none => st
  | some selectedCourse =>
    let remaining := decAt st.remaining selectedCourse.name
    let sessionStartHour := getHours (parseTime u.startTime) + slot * 3
    if getHours (parseTime u.endTime) ≤ sessionStartHour then { st with remaining := remaining }
    else
      let sessionStart := sessionStartHour * 60
      let sessionEnd := sessionStart + sessionLengthMinutes
      if isTimeSlotAvailable ranges sessionStart sessionEnd then
        { remaining := remaining
          sessions := st.sessions ++
            [studyBlock u.learningStyle (rand st.draws) sessionStart selectedCourse.name]
          draws := st.draws + 1 }
      else
        match findAlternative ranges sessionStartHour (getHours (parseTime u.endTime)) with
        | some hour =>
          { remaining := remaining
            sessions := st.sessions ++
              [studyBlock u.learningStyle (rand st.draws) (hour * 60) selectedCourse.name]
            draws := st.draws + 1 }
        | none => { st with remaining := incAt remaining selectedCourse.name }

/-- The value `availableSlots` (server.js line 277) as a loop count: on Sunday
`maxSessionsPerDay - 1`, where `-1` runs the loop as often as `0`. -/
def availableSlots (maxPerDay : Nat) (day : Day) : Nat :=
  if day = Day.Sunday then maxPerDay - 1 else maxPerDay

/-- The comparator of the per-day sort (scheduler.js lines 59-63): the text
before `" - "` in `time` is `formatTime` of the start, and `localeCompare` orders
these strings character by character. -/
def timeLe (a b : Session) : Prop := (formatTime a.start).toList ≤ (formatTime b.start).toList

instance : DecidableRel timeLe := fun a b =>
  inferInstanceAs (Decidable ((formatTime a.start).toList ≤ (formatTime b.start).toList))

/-- The call `schedule[day].sort` (stable). -/
def sortSessions (sessions : List Session) : List Session := sessions.insertionSort timeLe

/-- The Sunday prologue (server.js lines 263-274): a random course loses one unit
and the review session is pushed. Reading `.name` of `undefined` throws. -/
def startDay (u : UserData) (rand : Nat → Rand) (day : Day) (remaining : List (String × JSNum))
    (draws : Nat) : Except Failure PlaceState :=
  if day = Day.Sunday then
    match u.courses[(rand draws).index u.courses.length]? with
    | none => Except.error Failure.typeError
    | some course =>
      Except.ok { remaining := decAt remaining course.name, sessions := [reviewSession],
                  draws := draws + 1 }
  else Except.ok { remaining := remaining, sessions := [], draws := draws }

/-- The body of `days.forEach` (server.js lines 259-300, scheduler.js lines 3-64)
for one day: the state at the end, `sessions` being the sorted `schedule[day]`. -/
def scheduleDay (u : UserData) (rand : Nat → Rand) (sorted : List Course) (maxPerDay : Nat)
    (day : Day) (remaining : List (String × JSNum)) (draws : Nat) : Except Failure PlaceState :=
  match startDay u rand day remaining draws with
  | Except.error e => Except.error e
  | Except.ok st0 =>
    let st := (List.range (availableSlots maxPerDay day)).foldl
      (placeSlot u rand sorted (unavailableTimesByDay u day)) st0
    Except.ok { st with sessions := sortSessions st.sessions }

/-- The loop `days.forEach` over a list of days: the schedule entries in order,
then the final `courseSessionsRemaining` and number of random draws. -/
def scheduleDays (u : UserData) (rand : Nat → Rand) (sorted : List Course) (maxPerDay : Nat) :
    List Day → List (String × JSNum) → Nat →
      Except Failure (List (Day × List Session) × List (String × JSNum) × Nat)
  | [], remaining, draws => Except.ok ([], remaining, draws)
  | day :: rest, remaining, draws =>
    match scheduleDay u rand sorted maxPerDay day remaining draws with
    | Except.error e => Except.error e
    | Except.ok st =>
      match scheduleDays u rand sorted maxPerDay rest st.remaining st.draws with
      | Except.error e => Except.error e
      | Except.ok (schedule, remaining', draws') =>
        Except.ok ((day, st.sessions) :: schedule, remaining', draws')

/-! ## Analytics -/

/-- The object returned by `calculateAnalytics`. -/
structure Analytics where
  totalStudyHours : ℚ
  subjectDistribution : List (String × ℚ)
  recommendations : List String
deriving DecidableEq

/-- What `optimizeSchedule` returns. -/
structure Result where
  schedule : List (Day × List Session)
  analytics : Analytics
deriving DecidableEq

/-- The constant `sessionHours = 1.5`. -/
def sessionHours : ℚ := 3 / 2

/-- The object `subjectDistribution` after the initialisation (scheduler.js lines
81-84). -/
def initDistribution (courses : List Course) : List (String × ℚ) :=
  objSet (courses.foldl (fun m course => objSet m course.name (0 : ℚ)) []) "General Review" 0

/-- The body of `daySchedule.forEach` (scheduler.js lines 88-98) on the pair
`(totalStudyHours, subjectDistribution)`. -/
def addSession (acc : ℚ × List (String × ℚ)) (session : Session) : ℚ × List (String × ℚ) :=
  (acc.1 + sessionHours,
    match objGet acc.2 session.subject with
    | some hours => objSet acc.2 session.subject (hours + sessionHours)
    | none => objSet acc.2 session.subject sessionHours)

/-- The pair `(totalStudyHours, subjectDistribution)` after the walk over
`Object.values(schedule)` (scheduler.js lines 77-99). -/
def tally (schedule : List (Day × List Session)) (courses : List Course) :
    ℚ × List (String × ℚ) :=
  schedule.foldl (fun acc day => day.2.foldl addSession acc) (0, initDistribution courses)

/-- The body of `examDates.forEach` (scheduler.js lines 105-120). -/
def examRecommendation (distribution : List (String × ℚ)) (exam : ExamDate) : List String :=
  if exam.daysUntilExam ≤ 14 then
    let hoursForSubject : ℚ := (objGet distribution exam.subject).getD 0
    if exam.daysUntilExam ≤ 7 ∧ hoursForSubject < 10 then
      ["Consider adding more " ++ exam.subject ++ " sessions before the upcoming exam in " ++
        toString exam.daysUntilExam ++ " days."]
    else if exam.daysUntilExam ≤ 14 ∧ hoursForSubject < 7 then
      ["Increase study time for " ++ exam.subject ++ " as the exam is approaching in " ++
        toString exam.daysUntilExam ++ " days."]
    else []
  else []

/-- The object `coursePriorities` (scheduler.js lines 123-126). -/
def coursePriorities (courses : List Course) : List (String × Nat) :=
  courses.foldl (fun m course => objSet m course.name course.priority) []

/-- The value `highestPriorityCourse` (scheduler.js lines 129-131):
`reduce` without an initial value throws on an empty array. -/
def highestPriorityCourse (cp : List (String × Nat)) : Except Failure String :=
  match cp.map (fun kv => kv.1) with
  | [] => Except.error Failure.typeError
  | first :: keys =>
    Except.ok (keys.foldl
      (fun a b => if (objGet cp a).getD 0 > (objGet cp b).getD 0 then a else b) first)

/-- The array `studyTechniques` (scheduler.js lines 138-144). -/
def studyTechniques : List String :=
  ["Try using spaced repetition for improving retention.",
   "Consider the Pomodoro technique for better focus during study sessions.",
   "Adding active recall through practice tests can improve memory retention.",
   "Review your notes within 24 hours of making them to solidify understanding.",
   "Try teaching the material to someone else to identify knowledge gaps."]

/-- The function `calculateAnalytics` (scheduler.js lines 75-160); `r` is its one
`Math.random ()` draw. -/
def calculateAnalytics (schedule : List (Day × List Session)) (courses : List Course)
    (examDates : List ExamDate) (r : Rand) : Except Failure Analytics :=
  let totals := tally schedule courses
  let examMessages := (examDates.map (examRecommendation totals.2)).flatten
  match highestPriorityCourse (coursePriorities courses) with
  | Except.error e => Except.error e
  | Except.ok highest =>
    let balance :=
      if (objGet totals.2 highest).getD 0 > totals.1 * (3 / 10) then
        ["Your " ++ highest ++ " focus is appropriate given its high priority."]
      else []
    let randomTechniqueIndex := r.index studyTechniques.length
    let first := examMessages ++ balance ++ [studyTechniques.getD randomTechniqueIndex ""]
    let recommendations :=
      if first.length < 3 then
        first ++ [studyTechniques.getD ((randomTechniqueIndex + 1) % studyTechniques.length) ""]
      else first
    Except.ok { totalStudyHours := totals.1, subjectDistribution := totals.2,
                recommendations := recommendations }

/-! ## The entry point -/

/-- The function `optimizeSchedule` (server.js lines 86-301, scheduler.js lines
3-73). `fuel` bounds the iterations of the overflow correction loop. -/
def optimizeSchedule (u : UserData) (rand : Nat → Rand) (fuel : Nat) :
    Option (Except Failure Result) :=
  match maxSessionsPerDay u with
  | Int.negSucc _ => some (Except.error Failure.negativeBudget)
  | Int.ofNat maxPerDay =>
    match courseSessions (sortedCourses u) (maxPerDay * days.length) fuel with
    | none => none
    | some (Except.error e) => some (Except.error e)
    | some (Except.ok cs) =>
      match scheduleDays u rand (sortedCourses u) maxPerDay days cs 0 with
      | Except.error e => some (Except.error e)
      | Except.ok (schedule, _, draws) =>
        match calculateAnalytics schedule (coursesAfter u) u.examDates (rand draws) with
        | Except.error e => some (Except.error e)
        | Except.ok analytics => some (Except.ok { schedule := schedule, analytics := analytics })

/-! ## Notions used in the statements -/

/-- The integer a stored number stands for (`NaN` counts as 0). -/
def JSNum.toInt (x : JSNum) : Int :=
  match x with
  | JSNum.nan => 0
  | JSNum.int v => v

/-- The sum of the stored integers. -/
def intSum (m : List (String × JSNum)) : Int := (m.map (fun kv => kv.2.toInt)).sum

/-- Every key is stored once and every stored number is an integer that is at
least `lo`. -/
def QuotasAtLeast (lo : Int) (m : List (String × JSNum)) : Prop :=
  (m.map Prod.fst).Nodup ∧ ∀ kv ∈ m, ∃ v : Int, kv.2 = JSNum.int v ∧ lo ≤ v

/-- All sessions of a schedule, day after day. -/
def allSessions (schedule : List (Day × List Session)) : List Session :=
  (schedule.map (fun day => day.2)).flatten

/-- The number of sessions of a schedule whose subject is `subject`. -/
def sessionCount (schedule : List (Day × List Session)) (subject : String) : Nat :=
  ((allSessions schedule).filter (fun s => decide (s.subject = subject))).length


/-- A study block the slot loop can push on `day`: it starts on a full hour from
`startTime.getHours ()` up to `endTime.getHours () - 1`, lasts 90 minutes and passed
`isTimeSlotAvailable`. -/
def IsCourseBlock (u : UserData) (day : Day) (s : Session) : Prop :=
  ∃ hour, getHours (parseTime u.startTime) ≤ hour ∧ hour < getHours (parseTime u.endTime) ∧
    s.start = hour * 60 ∧ s.end_ = hour * 60 + 90 ∧
    isTimeSlotAvailable (unavailableTimesByDay u day) (hour * 60) (hour * 60 + 90) = true

/-- Two sessions do not overlap in time. -/
@[reducible] def NoOverlap (a b : Session) : Prop := a.end_ ≤ b.start ∨ b.end_ ≤ a.start

/-- No slot position of `day` is blocked: for every slot whose start hour
`startTime.getHours () + 3 * slot` is before `endTime.getHours ()`, the 90 minutes from
that hour pass `isTimeSlotAvailable`, so no block of the day is moved by probing. -/
def SlotsFree (u : UserData) (day : Day) : Prop :=
  ∀ slot, getHours (parseTime u.startTime) + slot * 3 < getHours (parseTime u.endTime) →
    isTimeSlotAvailable (unavailableTimesByDay u day)
      ((getHours (parseTime u.startTime) + slot * 3) * 60)
      ((getHours (parseTime u.startTime) + slot * 3) * 60 + 90) = true

/-- The sessions a day starts with: the review session on Sunday. -/
def dayPrefix (day : Day) : List Session := if day = Day.Sunday then [reviewSession] else []

instance : IsTotal Session timeLe :=
  ⟨fun a b => le_total (formatTime a.start).toList (formatTime b.start).toList⟩

instance : IsTrans Session timeLe :=
  ⟨fun a b c (h1 : (formatTime a.start).toList ≤ (formatTime b.start).toList)
    (h2 : (formatTime b.start).toList ≤ (formatTime c.start).toList) => le_trans h1 h2⟩


instance : IsTotal Course (fun a b => b.priority ≤ a.priority) :=
  ⟨fun a b => le_total b.priority a.priority⟩

instance : IsTrans Course (fun a b => b.priority ≤ a.priority) :=
  ⟨fun _ _ _ h1 h2 => le_trans h2 h1⟩

/-- A property `K` of `courseSessionsRemaining` and the sessions pushed so far that the
slot loop keeps: it does not depend on the order of the sessions, and when a course of
`sorted` with a positive remaining quota is selected it survives the decrement, with or
without a study block of that course pushed. -/
def SlotInvariant (u : UserData) (sorted : List Course)
    (K : List (String × JSNum) → List Session → Prop) : Prop :=
  (∀ rem l l', l.Perm l' → K rem l → K rem l') ∧
  ∀ rem l sel, sel ∈ sorted → (getNum rem sel.name).gt 0 = true → K rem l →
    K (decAt rem sel.name) l ∧
    ∀ r start, K (decAt rem sel.name) (l ++ [studyBlock u.learningStyle r start sel.name])

/-- The property `K` survives the Sunday prologue: the decrement of a course of the
input and the push of the review session. -/
def ReviewInvariant (u : UserData) (K : List (String × JSNum) → List Session → Prop) : Prop :=
  ∀ rem l c, c ∈ u.courses → K rem l → K (decAt rem c.name) (l ++ [reviewSession])

/-- A study block of the slot loop: `studyBlock` for a course of `sorted`, with some
draw of the random source and some start. -/
def IsStudyBlock (learningStyle : String) (sorted : List Course) (s : Session) : Prop :=
  ∃ c ∈ sorted, ∃ (r : Rand) (start : Nat), s = studyBlock learningStyle r start c.name

/-- The course sessions of a day list: the sessions whose subject is not
`General Review`. -/
def courseSessionsOf (l : List Session) : List Session :=
  l.filter (fun s => decide (s.subject ≠ "General Review"))

/-- The bookkeeping invariant for the key `k` with quota `q`: the remaining quota of
`k` is a number, and the sessions of subject `k` pushed so far plus what remains (if
positive) do not exceed `q`. -/
def WithinQuota (k : String) (q : Int) (rem : List (String × JSNum)) (l : List Session) : Prop :=
  ∃ v : Int, getNum rem k = JSNum.int v ∧
    ((l.filter (fun s => decide (s.subject = k))).length : Int) + max v 0 ≤ q

/-- The quota `courseSessions[course.name]` as an integer. -/
def quotaOf (q : List (String × JSNum)) (c : Course) : Int := (getNum q c.name).toInt

/-- The quotas do not increase along the list: a course that comes earlier has a quota
at least as large as one that comes later. -/
def QuotasMonotone (sorted : List Course) (q : List (String × JSNum)) : Prop :=
  sorted.Pairwise (fun x y => quotaOf q y ≤ quotaOf q x)

/-- Every course of the list has a quota that is a number and at least 1, and the
quotas do not increase along the list. -/
def GoodQuotas (sorted : List Course) (q : List (String × JSNum)) : Prop :=
  (∀ c ∈ sorted, ∃ v : Int, getNum q c.name = JSNum.int v ∧ 1 ≤ v) ∧ QuotasMonotone sorted q

/-- The effect of one visit of the inner correction loop on a quota: one less when it
is above 1. -/
def decrementAboveOne (x : JSNum) : JSNum := if x.gt 1 then x.dec else x
/-! ## Concrete inputs -/

/-- A draw of `0`. -/
def zeroRand : Rand := { num := 0, den := 1, lt := by decide }

/-- The constant random source. -/
def zeroRands : Nat → Rand := fun _ => zeroRand

/-- One course and one study hour per day: `maxSessionsPerDay = 0`, so the one
course is more than `totalSessions = 0`. -/
def singleCourseInput : UserData :=
  { courses := [{ name := "A", priority := 5 }]
    studyHoursPerDay := 1
    breakLength := 10
    startTime := { hours := 9, minutes := 0 }
    endTime := { hours := 17, minutes := 0 }
    learningStyle := "visual"
    unavailableTimes := []
    examDates := [] }

/-- An availability window that ends before it starts. -/
def reversedWindowInput : UserData :=
  { courses := [{ name := "A", priority := 5 }]
    studyHoursPerDay := 3
    breakLength := 10
    startTime := { hours := 17, minutes := 0 }
    endTime := { hours := 9, minutes := 0 }
    learningStyle := "visual"
    unavailableTimes := []
    examDates := [] }

/-- The example of the specification: courses A and B of priority 5, three study
hours between 09:00 and 17:00, breaks of 10 minutes. -/
def specExampleInput : UserData :=
  { courses := [{ name := "A", priority := 5 }, { name := "B", priority := 5 }]
    studyHoursPerDay := 3
    breakLength := 10
    startTime := { hours := 9, minutes := 0 }
    endTime := { hours := 17, minutes := 0 }
    learningStyle := "visual"
    unavailableTimes := []
    examDates := [] }


/-- A one-session schedule. -/
def oneSessionSchedule : List (Day × List Session) :=
  [(Day.Monday, [{ start := 540, end_ := 630, subject := "A", focus := some "Review" }])]

/-- The analytics of `oneSessionSchedule` for the single course A. -/
def oneSessionAnalytics : Analytics :=
  { totalStudyHours := 3 / 2
    subjectDistribution := [("A", 3 / 2), ("General Review", 0)]
    recommendations :=
      ["Your A focus is appropriate given its high priority.",
       "Try using spaced repetition for improving retention.",
       "Consider the Pomodoro technique for better focus during study sessions."] }


/-- The study block of style `visual` drawn with `zeroRand`. -/
def visualBlock (start : Nat) (subject : String) : Session :=
  studyBlock "visual" zeroRand start subject

/-- Monday 14:00 to 16:00 is unavailable and the window 14:00 to 20:00 puts the first
slot of every day at 14:00. -/
def overlapInput : UserData :=
  { courses := [{ name := "A", priority := 5 }]
    studyHoursPerDay := 3
    breakLength := 10
    startTime := { hours := 14, minutes := 0 }
    endTime := { hours := 20, minutes := 0 }
    learningStyle := "visual"
    unavailableTimes :=
      [{ day := Day.Monday, start := { hours := 14, minutes := 0 },
         end_ := { hours := 16, minutes := 0 } }]
    examDates := [] }

/-- What `optimizeSchedule` returns on `overlapInput`. -/
def overlapResult : Result :=
  { schedule :=
      [(Day.Monday, [visualBlock 960 "A", visualBlock 1020 "A"]),
       (Day.Tuesday, [visualBlock 840 "A", visualBlock 1020 "A"]),
       (Day.Wednesday, [visualBlock 840 "A", visualBlock 1020 "A"]),
       (Day.Thursday, [visualBlock 840 "A", visualBlock 1020 "A"]),
       (Day.Friday, [visualBlock 840 "A", visualBlock 1020 "A"]),
       (Day.Saturday, [visualBlock 840 "A", visualBlock 1020 "A"]),
       (Day.Sunday, [visualBlock 840 "A", reviewSession])]
    analytics :=
      { totalStudyHours := 21
        subjectDistribution := [("A", 39 / 2), ("General Review", 3 / 2)]
        recommendations :=
          ["Your A focus is appropriate given its high priority.",
           "Try using spaced repetition for improving retention.",
           "Consider the Pomodoro technique for better focus during study sessions."] } }

/-- Sunday 15:00 to 16:00 is unavailable. -/
def busySundayInput : UserData :=
  { courses := [{ name := "A", priority := 5 }]
    studyHoursPerDay := 3
    breakLength := 10
    startTime := { hours := 9, minutes := 0 }
    endTime := { hours := 17, minutes := 0 }
    learningStyle := "visual"
    unavailableTimes :=
      [{ day := Day.Sunday, start := { hours := 15, minutes := 0 },
         end_ := { hours := 16, minutes := 0 } }]
    examDates := [] }

/-- What `optimizeSchedule` returns on `busySundayInput`. -/
def busySundayResult : Result :=
  { schedule :=
      [(Day.Monday, [visualBlock 540 "A", visualBlock 720 "A"]),
       (Day.Tuesday, [visualBlock 540 "A", visualBlock 720 "A"]),
       (Day.Wednesday, [visualBlock 540 "A", visualBlock 720 "A"]),
       (Day.Thursday, [visualBlock 540 "A", visualBlock 720 "A"]),
       (Day.Friday, [visualBlock 540 "A", visualBlock 720 "A"]),
       (Day.Saturday, [visualBlock 540 "A", visualBlock 720 "A"]),
       (Day.Sunday, [visualBlock 540 "A", reviewSession])]
    analytics := overlapResult.analytics }

/-- A window from 10:30 to 14:00. -/
def halfHourInput : UserData :=
  { courses := [{ name := "A", priority := 5 }]
    studyHoursPerDay := 3
    breakLength := 10
    startTime := { hours := 10, minutes := 30 }
    endTime := { hours := 14, minutes := 0 }
    learningStyle := "visual"
    unavailableTimes := []
    examDates := [] }

/-- What `optimizeSchedule` returns on `halfHourInput`. -/
def halfHourResult : Result :=
  { schedule :=
      [(Day.Monday, [visualBlock 600 "A", visualBlock 780 "A"]),
       (Day.Tuesday, [visualBlock 600 "A", visualBlock 780 "A"]),
       (Day.Wednesday, [visualBlock 600 "A", visualBlock 780 "A"]),
       (Day.Thursday, [visualBlock 600 "A", visualBlock 780 "A"]),
       (Day.Friday, [visualBlock 600 "A", visualBlock 780 "A"]),
       (Day.Saturday, [visualBlock 600 "A", visualBlock 780 "A"]),
       (Day.Sunday, [visualBlock 600 "A", reviewSession])]
    analytics := overlapResult.analytics }

/-- What `optimizeSchedule` returns on `specExampleInput`. -/
def specExampleResult : Result :=
  { schedule :=
      [(Day.Monday, [visualBlock 540 "A", visualBlock 720 "A"]),
       (Day.Tuesday, [visualBlock 540 "A", visualBlock 720 "A"]),
       (Day.Wednesday, [visualBlock 540 "A", visualBlock 720 "A"]),
       (Day.Thursday, [visualBlock 540 "A", visualBlock 720 "B"]),
       (Day.Friday, [visualBlock 540 "B", visualBlock 720 "B"]),
       (Day.Saturday, [visualBlock 540 "B", visualBlock 720 "B"]),
       (Day.Sunday, [visualBlock 540 "B", reviewSession])]
    analytics :=
      { totalStudyHours := 21
        subjectDistribution := [("A", 21 / 2), ("B", 9), ("General Review", 3 / 2)]
        recommendations :=
          ["Your B focus is appropriate given its high priority.",
           "Try using spaced repetition for improving retention.",
           "Consider the Pomodoro technique for better focus during study sessions."] } }

/-- Two courses of priority 0, no exam. -/
def zeroPriorityInput : UserData :=
  { courses := [{ name := "A", priority := 0 }, { name := "B", priority := 0 }]
    studyHoursPerDay := 3
    breakLength := 10
    startTime := { hours := 9, minutes := 0 }
    endTime := { hours := 17, minutes := 0 }
    learningStyle := "visual"
    unavailableTimes := []
    examDates := [] }

/-- What `optimizeSchedule` returns on `zeroPriorityInput`. -/
def zeroPriorityResult : Result :=
  { schedule :=
      [(Day.Monday, []), (Day.Tuesday, []), (Day.Wednesday, []), (Day.Thursday, []),
       (Day.Friday, []), (Day.Saturday, []), (Day.Sunday, [reviewSession])]
    analytics :=
      { totalStudyHours := 3 / 2
        subjectDistribution := [("A", 0), ("B", 0), ("General Review", 3 / 2)]
        recommendations :=
          ["Try using spaced repetition for improving retention.",
           "Consider the Pomodoro technique for better focus during study sessions."] } }

/-- One course, five slots a day (09:00, 12:00, 15:00, 18:00, 21:00) in the window
09:00-17:00, and Monday unavailable 09:00-10:00 and 18:00-19:00. -/
def lateSlotInput : UserData :=
  { courses := [{ name := "A", priority := 5 }]
    studyHoursPerDay := 8
    breakLength := 0
    startTime := { hours := 9, minutes := 0 }
    endTime := { hours := 17, minutes := 0 }
    learningStyle := "visual"
    unavailableTimes :=
      [{ day := Day.Monday
         start := { hours := 9, minutes := 0 }
         end_ := { hours := 10, minutes := 0 } },
       { day := Day.Monday
         start := { hours := 18, minutes := 0 }
         end_ := { hours := 19, minutes := 0 } }]
    examDates := [] }

/-- One course of priority 0 and one study hour per day: `maxSessionsPerDay = 0`. -/
def zeroBudgetInput : UserData :=
  { courses := [{ name := "A", priority := 0 }]
    studyHoursPerDay := 1
    breakLength := 10
    startTime := { hours := 9, minutes := 0 }
    endTime := { hours := 17, minutes := 0 }
    learningStyle := "visual"
    unavailableTimes := []
    examDates := [] }

/-- What `optimizeSchedule` returns on `zeroBudgetInput`. -/
def zeroBudgetResult : Result :=
  { schedule :=
      [(Day.Monday, []), (Day.Tuesday, []), (Day.Wednesday, []), (Day.Thursday, []),
       (Day.Friday, []), (Day.Saturday, []), (Day.Sunday, [reviewSession])]
    analytics :=
      { totalStudyHours := 3 / 2
        subjectDistribution := [("A", 0), ("General Review", 3 / 2)]
        recommendations :=
          ["Try using spaced repetition for improving retention.",
           "Consider the Pomodoro technique for better focus during study sessions."] } }

/-- Six courses for seven sessions (maxSessionsPerDay = 1): the shares 5, 0, 0, 0, 0, 0
become 5, 1, 1, 1, 1, 1, the scale-down gives 3, 1, 1, 1, 1, 1, and the correction loop
takes one more from A. -/
def crowdedInput : UserData :=
  { courses :=
      [{ name := "A", priority := 20 }, { name := "B", priority := 1 },
       { name := "C", priority := 1 }, { name := "D", priority := 1 },
       { name := "E", priority := 1 }, { name := "F", priority := 1 }]
    studyHoursPerDay := 2
    breakLength := 10
    startTime := { hours := 9, minutes := 0 }
    endTime := { hours := 17, minutes := 0 }
    learningStyle := "visual"
    unavailableTimes := []
    examDates := [] }

/-- The final quotas on `crowdedInput`. -/
def crowdedQuotas : List (String × JSNum) :=
  [("A", JSNum.int 2), ("B", JSNum.int 1), ("C", JSNum.int 1), ("D", JSNum.int 1),
   ("E", JSNum.int 1), ("F", JSNum.int 1)]
/-! # Properties -/

/-! ## The integer divisions are the floors of the source -/

theorem sessionShare_eq_floor (priority totalPoints totalSessions : Nat) (h : totalPoints ≠ 0) :
    sessionShare priority totalPoints totalSessions =
      JSNum.int ⌊((priority : ℚ) / (totalPoints : ℚ)) * (totalSessions : ℚ)⌋ := by
  have hfloor := Rat.floor_intCast_div_natCast ((priority * totalSessions : Nat) : Int) totalPoints
  rw [sessionShare, if_neg h]
  congr 1
  rw [div_mul_eq_mul_div]
  push_cast at hfloor ⊢
  rw [hfloor]

theorem scaleDown_eq_floor (totalSessions : Nat) (allocated v : Int) (h : 0 < allocated) :
    scaleDown totalSessions allocated (JSNum.int v) =
      if ⌊(v : ℚ) * ((totalSessions : ℚ) / (allocated : ℚ))⌋ = 0 then JSNum.int 1
      else JSNum.int ⌊(v : ℚ) * ((totalSessions : ℚ) / (allocated : ℚ))⌋ := by
  have hfloor := Rat.floor_intCast_div_natCast (v * (totalSessions : Int)) allocated.toNat
  have hcast : ((allocated.toNat : Int)) = allocated := Int.toNat_of_nonneg (le_of_lt h)
  have hq : ((allocated.toNat : ℕ) : ℚ) = (allocated : ℚ) := by
    rw [← Int.cast_natCast, hcast]
  rw [hq, hcast] at hfloor
  push_cast at hfloor
  rw [← mul_div_assoc, hfloor]
  rfl

theorem index_eq_floor (r : Rand) (n : Nat) :
    r.index n = ⌊((r.num : ℚ) / (r.den : ℚ)) * (n : ℚ)⌋₊ := by
  rw [div_mul_eq_mul_div]
  have := Nat.floor_div_eq_div (α := ℚ) (r.num * n) r.den
  push_cast at this
  rw [this]
  rfl

theorem index_lt (r : Rand) (n : Nat) (hn : 0 < n) : r.index n < n := by
  unfold Rand.index
  have hden : 0 < r.den := Nat.lt_of_le_of_lt (Nat.zero_le _) r.lt
  rw [Nat.div_lt_iff_lt_mul hden]
  exact Nat.mul_lt_mul_of_lt_of_le r.lt (le_refl n) hn |>.trans_le (by rw [Nat.mul_comm])

theorem reviewSession_time : reviewSession.time = "15:00 - 16:30" := by
  decide

/-! ## The course objects: heap and values -/

theorem getElem?_boostObject (ep : List (String × Nat)) (heap : List Course) (i j : Nat) :
    (boostObject ep heap i)[j]? = if j = i then heap[j]?.map (applyBoost ep) else heap[j]? := by
  induction heap generalizing i j with
  | nil => cases i <;> simp [boostObject]
  | cons c rest ih =>
    cases i with
    | zero =>
      cases j with
      | zero => simp [boostObject]
      | succ j => simp [boostObject]
    | succ i =>
      cases j with
      | zero => simp [boostObject]
      | succ j => simp [boostObject, ih]

theorem getElem?_foldl_boostObject (ep : List (String × Nat)) (refs : List Nat)
    (hnd : refs.Nodup) (heap : List Course) (j : Nat) :
    (refs.foldl (boostObject ep) heap)[j]? =
      if j ∈ refs then heap[j]?.map (applyBoost ep) else heap[j]? := by
  induction refs generalizing heap with
  | nil => simp
  | cons i rest ih =>
    rw [List.nodup_cons] at hnd
    rw [List.foldl_cons, ih hnd.2, getElem?_boostObject]
    by_cases hji : j = i
    · subst hji
      simp [hnd.1]
    · simp [hji]

theorem foldl_boostObject_eq_map (ep : List (String × Nat)) (heap : List Course)
    (refs : List Nat) (hperm : refs.Perm (List.range heap.length)) :
    refs.foldl (boostObject ep) heap = heap.map (applyBoost ep) := by
  apply List.ext_getElem?
  intro j
  have hnd : refs.Nodup := hperm.nodup_iff.2 (List.nodup_range _)
  rw [getElem?_foldl_boostObject ep refs hnd, List.getElem?_map]
  by_cases hj : j ∈ refs
  · rw [if_pos hj]
  · rw [if_neg hj]
    have : heap.length ≤ j := by
      by_contra hlt
      exact hj (hperm.mem_iff.2 (List.mem_range.2 (by omega)))
    rw [List.getElem?_eq_none this]
    rfl

theorem map_deref_range (heap : List Course) :
    (List.range heap.length).map (deref heap) = heap := by
  apply List.ext_getElem?
  intro j
  rw [List.getElem?_map]
  by_cases hj : j < heap.length
  · rw [List.getElem?_range hj]
    simp [deref, List.getElem?_eq_getElem hj]
  · rw [List.getElem?_eq_none (by simpa using hj), List.getElem?_eq_none (by omega)]
    rfl

theorem deref_map (f : Course → Course) (heap : List Course) (i : Nat) (hi : i < heap.length) :
    deref (heap.map f) i = f (deref heap i) := by
  simp [deref, List.getElem?_eq_getElem hi]

theorem map_deref_sortRefs (heap : List Course) (refs : List Nat) :
    (sortRefs heap refs).map (deref heap) = sortByPriority (refs.map (deref heap)) := by
  unfold sortRefs sortByPriority
  exact List.map_insertionSort _ (fun a b : Course => b.priority ≤ a.priority) (deref heap) refs
    (fun _ _ _ _ => Iff.rfl)

theorem sortRefs_perm (heap : List Course) (refs : List Nat) : (sortRefs heap refs).Perm refs :=
  List.perm_insertionSort _ refs

theorem boostedHeap_fst (u : UserData) :
    (boostedHeap u).1 = u.courses.map (applyBoost (examPriorities u.examDates)) := by
  unfold boostedHeap
  exact foldl_boostObject_eq_map _ u.courses _ (sortRefs_perm _ _)

theorem coursesAfter_eq (u : UserData) :
    coursesAfter u = u.courses.map (applyBoost (examPriorities u.examDates)) := by
  unfold coursesAfter
  have hlen : u.courses.length = (boostedHeap u).1.length := by
    rw [boostedHeap_fst, List.length_map]
  rw [hlen, map_deref_range, boostedHeap_fst]

theorem sortedCourses_eq (u : UserData) :
    sortedCourses u =
      sortByPriority ((sortByPriority u.courses).map (applyBoost (examPriorities u.examDates))) := by
  unfold sortedCourses
  have h1 := boostedHeap_fst u
  have h2 : (boostedHeap u).2 =
      sortRefs (boostedHeap u).1 (sortRefs u.courses (List.range u.courses.length)) := rfl
  rw [h2, map_deref_sortRefs, h1]
  congr 1
  have hvalid : ∀ i ∈ sortRefs u.courses (List.range u.courses.length), i < u.courses.length :=
    fun i hi => List.mem_range.1 ((sortRefs_perm _ _).mem_iff.1 hi)
  have hmap : (sortRefs u.courses (List.range u.courses.length)).map
      (deref (u.courses.map (applyBoost (examPriorities u.examDates)))) =
      ((sortRefs u.courses (List.range u.courses.length)).map (deref u.courses)).map
        (applyBoost (examPriorities u.examDates)) := by
    rw [List.map_map]
    apply List.map_congr_left
    intro i hi
    exact deref_map _ _ _ (hvalid i hi)
  rw [hmap, map_deref_sortRefs, map_deref_range]

theorem applyBoost_eq (ep : List (String × Nat)) (c : Course) :
    applyBoost ep c = { name := c.name, priority := c.priority + (objGet ep c.name).getD 0 } := by
  unfold applyBoost
  cases hget : objGet ep c.name with
  | none => rfl
  | some b =>
    by_cases hb : b = 0
    · simp [hb]
    · simp [hb]

/-! ## Objects used as maps: basic facts -/

theorem objGet_objSet {α : Type} (m : List (String × α)) (k x : String) (v : α) :
    objGet (objSet m k v) x = if k = x then some v else objGet m x := by
  induction m with
  | nil => simp [objSet, objGet]
  | cons kv rest ih =>
    obtain ⟨k', v'⟩ := kv
    by_cases hk : k' = k
    · subst hk
      by_cases hx : k' = x
      · simp [objSet, objGet, hx]
      · simp [objSet, objGet, hx]
    · by_cases hx : k' = x
      · subst hx
        simp [objSet, objGet, hk, Ne.symm hk]
      · simp [objSet, objGet, hk, hx, ih]

theorem keys_objSet {α : Type} (m : List (String × α)) (k : String) (v : α) :
    (objSet m k v).map Prod.fst =
      if k ∈ m.map Prod.fst then m.map Prod.fst else m.map Prod.fst ++ [k] := by
  induction m with
  | nil => simp [objSet]
  | cons kv rest ih =>
    obtain ⟨k', v'⟩ := kv
    by_cases hk : k' = k
    · subst hk
      simp [objSet]
    · have hk' : ¬ k = k' := fun h => hk h.symm
      by_cases hmem : k ∈ rest.map Prod.fst
      · simp [objSet, hk, hk', ih, hmem]
      · simp [objSet, hk, hk', ih, hmem]

theorem objGet_eq_none_iff {α : Type} (m : List (String × α)) (k : String) :
    objGet m k = none ↔ k ∉ m.map Prod.fst := by
  induction m with
  | nil => simp [objGet]
  | cons kv rest ih =>
    obtain ⟨k', v'⟩ := kv
    by_cases hk : k' = k
    · simp [objGet, hk]
    · have hk' : ¬ k = k' := fun h => hk h.symm
      simp [objGet, hk, hk', ih]

theorem mem_of_objGet {α : Type} (m : List (String × α)) (k : String) (v : α)
    (h : objGet m k = some v) : (k, v) ∈ m := by
  induction m with
  | nil => simp [objGet] at h
  | cons kv rest ih =>
    obtain ⟨k', v'⟩ := kv
    by_cases hk : k' = k
    · simp [objGet, hk] at h
      simp [hk, h]
    · simp [objGet, hk] at h
      exact List.mem_cons_of_mem _ (ih h)

theorem objGet_of_mem {α : Type} (m : List (String × α)) (k : String) (v : α)
    (hnd : (m.map Prod.fst).Nodup) (h : (k, v) ∈ m) : objGet m k = some v := by
  induction m with
  | nil => simp at h
  | cons kv rest ih =>
    obtain ⟨k', v'⟩ := kv
    simp only [List.map_cons, List.nodup_cons] at hnd
    rcases List.mem_cons.1 h with heq | hmem
    · cases heq
      simp [objGet]
    · have hk : k' ≠ k := by
        rintro rfl
        exact hnd.1 (List.mem_map.2 ⟨(k', v), hmem, rfl⟩)
      simp [objGet, hk, ih hnd.2 hmem]

theorem nodup_keys_objSet {α : Type} (m : List (String × α)) (k : String) (v : α)
    (hnd : (m.map Prod.fst).Nodup) : ((objSet m k v).map Prod.fst).Nodup := by
  rw [keys_objSet]
  split
  · exact hnd
  · rename_i hk
    exact List.Nodup.append hnd (List.nodup_singleton k) (by simpa using hk)

theorem mem_objSet {α : Type} (m : List (String × α)) (k : String) (v : α) (kv : String × α)
    (hnd : (m.map Prod.fst).Nodup) (h : kv ∈ objSet m k v) :
    kv = (k, v) ∨ (kv ∈ m ∧ kv.1 ≠ k) := by
  have hnd' := nodup_keys_objSet m k v hnd
  have hget := objGet_of_mem _ kv.1 kv.2 hnd' h
  rw [objGet_objSet] at hget
  by_cases hk : k = kv.1
  · left
    simp only [hk, if_true, Option.some.injEq] at hget
    rw [hk, hget]
  · right
    simp only [hk, if_false] at hget
    exact ⟨mem_of_objGet _ _ _ hget, fun h => hk h.symm⟩

theorem mem_keys_objSet {α : Type} (m : List (String × α)) (k x : String) (v : α) :
    x ∈ (objSet m k v).map Prod.fst ↔ x = k ∨ x ∈ m.map Prod.fst := by
  rw [keys_objSet]
  split
  · rename_i hk
    constructor
    · exact Or.inr
    · rintro (rfl | h)
      · exact hk
      · exact h
  · simp [or_comm]

theorem foldl_add_int (m : List (String × JSNum)) (a : Int)
    (h : ∀ kv ∈ m, ∃ v : Int, kv.2 = JSNum.int v) :
    m.foldl (fun sum kv => sum.add kv.2) (JSNum.int a) = JSNum.int (a + intSum m) := by
  induction m generalizing a with
  | nil => simp [intSum]
  | cons kv rest ih =>
    obtain ⟨v, hv⟩ := h kv (List.mem_cons_self _ _)
    have hrest : ∀ e ∈ rest, ∃ v : Int, e.2 = JSNum.int v :=
      fun e he => h e (List.mem_cons_of_mem _ he)
    have hadd : (JSNum.int a).add kv.2 = JSNum.int (a + v) := by rw [hv]; rfl
    rw [List.foldl_cons, hadd, ih _ hrest]
    simp [intSum, hv, JSNum.toInt, add_assoc]

theorem sumValues_eq (m : List (String × JSNum))
    (h : ∀ kv ∈ m, ∃ v : Int, kv.2 = JSNum.int v) :
    sumValues m = JSNum.int (intSum m) := by
  unfold sumValues
  rw [foldl_add_int m 0 h]
  simp

theorem intSum_objSet (m : List (String × JSNum)) (k : String) (x y : JSNum)
    (h : objGet m k = some x) :
    intSum (objSet m k y) = intSum m - x.toInt + y.toInt := by
  induction m with
  | nil => simp [objGet] at h
  | cons kv rest ih =>
    obtain ⟨k', v'⟩ := kv
    by_cases hk : k' = k
    · simp only [objGet, hk, if_true, Option.some.injEq] at h
      subst h
      simp only [objSet, hk, if_true, intSum, List.map_cons, List.sum_cons]
      ring
    · simp only [objGet, hk, if_false] at h
      have := ih h
      simp only [intSum] at this
      simp only [objSet, hk, if_false, intSum, List.map_cons, List.sum_cons, this]
      ring

theorem intSum_objSet_new (m : List (String × JSNum)) (k : String) (y : JSNum)
    (h : objGet m k = none) :
    intSum (objSet m k y) = intSum m + y.toInt := by
  induction m with
  | nil => simp [objSet, intSum]
  | cons kv rest ih =>
    obtain ⟨k', v'⟩ := kv
    by_cases hk : k' = k
    · simp [objGet, hk] at h
    · simp only [objGet, hk, if_false] at h
      have := ih h
      simp only [intSum] at this
      simp only [objSet, hk, if_false, intSum, List.map_cons, List.sum_cons, this]
      ring

theorem quotasAtLeast_allInt {lo : Int} {m : List (String × JSNum)} (h : QuotasAtLeast lo m) :
    ∀ kv ∈ m, ∃ v : Int, kv.2 = JSNum.int v :=
  fun kv hkv => let ⟨v, hv, _⟩ := h.2 kv hkv; ⟨v, hv⟩

theorem quotasAtLeast_objSet {lo : Int} {m : List (String × JSNum)} (h : QuotasAtLeast lo m)
    (k : String) (v : Int) (hv : lo ≤ v) : QuotasAtLeast lo (objSet m k (JSNum.int v)) := by
  refine ⟨nodup_keys_objSet m k _ h.1, ?_⟩
  intro kv hkv
  rcases mem_objSet m k _ kv h.1 hkv with heq | ⟨hmem, _⟩
  · exact ⟨v, by rw [heq], hv⟩
  · exact h.2 kv hmem

theorem getNum_of_gt {m : List (String × JSNum)} {k : String} {n : Int}
    (h : (getNum m k).gt n = true) : ∃ v : Int, objGet m k = some (JSNum.int v) ∧ n < v := by
  unfold getNum at h
  cases hget : objGet m k with
  | none => simp [hget, JSNum.gt] at h
  | some x =>
    cases x with
    | nan => simp [hget, JSNum.gt] at h
    | int v =>
      simp only [hget, JSNum.gt, decide_eq_true_eq] at h
      exact ⟨v, rfl, h⟩

theorem quotasAtLeast_decAt {m : List (String × JSNum)} (h : QuotasAtLeast 1 m) (k : String)
    (hgt : (getNum m k).gt 1 = true) :
    QuotasAtLeast 1 (decAt m k) ∧ intSum (decAt m k) = intSum m - 1 ∧
      (decAt m k).map Prod.fst = m.map Prod.fst := by
  obtain ⟨v, hget, hv⟩ := getNum_of_gt hgt
  have hdec : decAt m k = objSet m k (JSNum.int (v - 1)) := by
    simp [decAt, getNum, hget, JSNum.dec]
  rw [hdec]
  refine ⟨quotasAtLeast_objSet h k (v - 1) (by omega), ?_, ?_⟩
  · rw [intSum_objSet m k _ _ hget]
    simp [JSNum.toInt]
  · rw [keys_objSet]
    have : k ∈ m.map Prod.fst := by
      by_contra hk
      rw [(objGet_eq_none_iff m k).2 hk] at hget
      cases hget
    simp [this]

/-! ## Quotas: the invariants of the distribution -/

theorem distribute_aux (T S : Nat) (hT : T ≠ 0) (l : List Course) (acc : List (String × JSNum))
    (h : QuotasAtLeast 0 acc) :
    QuotasAtLeast 0
        (l.foldl (fun cs course => objSet cs course.name (sessionShare course.priority T S)) acc) ∧
      ∀ k, k ∈ (l.foldl (fun cs course =>
          objSet cs course.name (sessionShare course.priority T S)) acc).map Prod.fst ↔
        k ∈ acc.map Prod.fst ∨ k ∈ l.map (fun c => c.name) := by
  induction l generalizing acc with
  | nil => simp [h]
  | cons c l ih =>
    have hshare : sessionShare c.priority T S = JSNum.int ((c.priority * S / T : Nat) : Int) := by
      simp [sessionShare, hT]
    have hacc := quotasAtLeast_objSet h c.name ((c.priority * S / T : Nat) : Int)
      (Int.natCast_nonneg _)
    rw [← hshare] at hacc
    obtain ⟨h1, h2⟩ := ih _ hacc
    refine ⟨h1, fun k => ?_⟩
    rw [List.foldl_cons, h2 k, mem_keys_objSet]
    simp only [List.map_cons, List.mem_cons]
    tauto

theorem distributeSessions_inv (sorted : List Course) (S : Nat)
    (hT : 0 < totalPriorityPoints sorted) :
    QuotasAtLeast 0 (distributeSessions sorted S) ∧
      ∀ k, k ∈ (distributeSessions sorted S).map Prod.fst ↔ k ∈ sorted.map (fun c => c.name) := by
  have h0 : QuotasAtLeast 0 ([] : List (String × JSNum)) := ⟨by simp, by simp⟩
  obtain ⟨h1, h2⟩ := distribute_aux (totalPriorityPoints sorted) S (by omega) sorted [] h0
  exact ⟨h1, fun k => by simpa using h2 k⟩

theorem ensure_aux (l : List Course) (acc : List (String × JSNum)) (h : QuotasAtLeast 0 acc) :
    QuotasAtLeast 0 (l.foldl (fun cs course =>
        if (getNum cs course.name).isZero then objSet cs course.name (JSNum.int 1) else cs) acc) ∧
      (l.foldl (fun cs course =>
        if (getNum cs course.name).isZero then objSet cs course.name (JSNum.int 1) else cs)
          acc).map Prod.fst = acc.map Prod.fst ∧
      ∀ kv ∈ l.foldl (fun cs course =>
        if (getNum cs course.name).isZero then objSet cs course.name (JSNum.int 1) else cs) acc,
        kv.2 = JSNum.int 0 → kv ∈ acc ∧ kv.1 ∉ l.map (fun c => c.name) := by
  induction l generalizing acc with
  | nil => exact ⟨h, rfl, fun kv hkv _ => ⟨hkv, by simp⟩⟩
  | cons c l ih =>
    rw [List.foldl_cons]
    by_cases hz : (getNum acc c.name).isZero = true
    · rw [if_pos hz]
      have hacc := quotasAtLeast_objSet h c.name 1 (by norm_num)
      obtain ⟨h1, h2, h3⟩ := ih _ hacc
      have hkey : c.name ∈ acc.map Prod.fst := by
        by_contra hk
        have := (objGet_eq_none_iff acc c.name).2 hk
        simp [getNum, this, JSNum.isZero] at hz
      refine ⟨h1, ?_, ?_⟩
      · rw [h2, keys_objSet, if_pos hkey]
      · intro kv hkv hzero
        obtain ⟨hmem, hnot⟩ := h3 kv hkv hzero
        rcases mem_objSet acc c.name _ kv h.1 hmem with heq | ⟨hin, hne⟩
        · rw [heq] at hzero
          simp at hzero
        · refine ⟨hin, ?_⟩
          simp only [List.map_cons, List.mem_cons, not_or]
          exact ⟨hne, hnot⟩
    · rw [if_neg hz]
      obtain ⟨h1, h2, h3⟩ := ih _ h
      refine ⟨h1, h2, ?_⟩
      intro kv hkv hzero
      obtain ⟨hmem, hnot⟩ := h3 kv hkv hzero
      refine ⟨hmem, ?_⟩
      simp only [List.map_cons, List.mem_cons, not_or]
      refine ⟨?_, hnot⟩
      intro hname
      have hget : objGet acc c.name = some (JSNum.int 0) := by
        rw [← hname, ← hzero]
        exact objGet_of_mem acc kv.1 kv.2 h.1 hmem
      simp [getNum, hget, JSNum.isZero] at hz

theorem ensureMinimum_inv (sorted : List Course) (cs : List (String × JSNum))
    (h : QuotasAtLeast 0 cs) (hkeys : ∀ k ∈ cs.map Prod.fst, k ∈ sorted.map (fun c => c.name)) :
    QuotasAtLeast 1 (ensureMinimum sorted cs) ∧
      (ensureMinimum sorted cs).map Prod.fst = cs.map Prod.fst := by
  obtain ⟨h1, h2, h3⟩ := ensure_aux sorted cs h
  refine ⟨⟨h1.1, ?_⟩, h2⟩
  intro kv hkv
  obtain ⟨v, hv, hv0⟩ := h1.2 kv hkv
  refine ⟨v, hv, ?_⟩
  by_contra hlt
  have hzero : v = 0 := by omega
  subst hzero
  obtain ⟨_, hnot⟩ := h3 kv hkv hv
  apply hnot
  apply hkeys
  have : kv.1 ∈ (ensureMinimum sorted cs).map Prod.fst := List.mem_map.2 ⟨kv, hkv, rfl⟩
  exact h2 ▸ this

theorem scaleDown_inv (S : Nat) (a : Int) (ha : 0 < a) (cs : List (String × JSNum))
    (h : QuotasAtLeast 0 cs) :
    QuotasAtLeast 1 (cs.map (fun kv => (kv.1, scaleDown S a kv.2))) ∧
      (cs.map (fun kv => (kv.1, scaleDown S a kv.2))).map Prod.fst = cs.map Prod.fst := by
  have hkeys : (cs.map (fun kv => (kv.1, scaleDown S a kv.2))).map Prod.fst = cs.map Prod.fst := by
    rw [List.map_map]
    rfl
  refine ⟨⟨by rw [hkeys]; exact h.1, ?_⟩, hkeys⟩
  intro kv hkv
  obtain ⟨e, he, rfl⟩ := List.mem_map.1 hkv
  obtain ⟨v, hv, hv0⟩ := h.2 e he
  have hnn : 0 ≤ v * (S : Int) / a :=
    Int.ediv_nonneg (mul_nonneg hv0 (Int.natCast_nonneg S)) (le_of_lt ha)
  by_cases hz : v * (S : Int) / a = 0
  · exact ⟨1, by simp [hv, scaleDown, hz], le_refl _⟩
  · exact ⟨v * (S : Int) / a, by simp [hv, scaleDown, hz], by omega⟩

/-! ## Quotas: the correction loop -/

theorem innerPass_inv (S : Nat) (l : List String) (cs : List (String × JSNum)) (a : Int)
    (h : QuotasAtLeast 1 cs) (hsum : intSum cs = a) :
    ∃ cs' a', innerPass S l (cs, JSNum.int a) = (cs', JSNum.int a') ∧ QuotasAtLeast 1 cs' ∧
      intSum cs' = a' ∧ cs'.map Prod.fst = cs.map Prod.fst ∧ a' ≤ a ∧
      (((S : Int) < a ∧ ∃ k ∈ l, (getNum cs k).gt 1 = true) → a' < a) := by
  induction l generalizing cs a with
  | nil => exact ⟨cs, a, rfl, h, hsum, rfl, le_refl _, by simp⟩
  | cons k l ih =>
    by_cases hgt : (JSNum.int a).gt S = true
    · by_cases hk : (getNum cs k).gt 1 = true
      · obtain ⟨hq, hs, hkeys⟩ := quotasAtLeast_decAt h k hk
        obtain ⟨cs', a', heq, hq', hs', hkeys', hle, _⟩ :=
          ih (decAt cs k) (a - 1) hq (by rw [hs, hsum])
        refine ⟨cs', a', ?_, hq', hs', hkeys'.trans hkeys, by omega, fun _ => by omega⟩
        simp only [innerPass, hgt, hk, if_true]
        exact heq
      · obtain ⟨cs', a', heq, hq', hs', hkeys', hle, hstrict⟩ := ih cs a h hsum
        refine ⟨cs', a', ?_, hq', hs', hkeys', hle, ?_⟩
        · simp only [innerPass, hgt, hk, if_true]
          exact heq
        · rintro ⟨hSa, k0, hk0, hk0gt⟩
          apply hstrict
          refine ⟨hSa, k0, ?_, hk0gt⟩
          rcases List.mem_cons.1 hk0 with rfl | hmem
          · exact absurd hk0gt hk
          · exact hmem
    · refine ⟨cs, a, ?_, h, hsum, rfl, le_refl _, ?_⟩
      · simp only [innerPass, hgt]
        rfl
      · rintro ⟨hSa, _⟩
        simp [JSNum.gt, hSa] at hgt

theorem intSum_eq_length (cs : List (String × JSNum))
    (h : ∀ kv ∈ cs, kv.2 = JSNum.int 1) : intSum cs = cs.length := by
  induction cs with
  | nil => simp [intSum]
  | cons kv rest ih =>
    have h1 := h kv (List.mem_cons_self _ _)
    have h2 := ih (fun e he => h e (List.mem_cons_of_mem _ he))
    have h3 : kv.2.toInt = 1 := by rw [h1]; rfl
    simp only [intSum] at h2
    simp only [intSum, List.map_cons, List.sum_cons, h3, h2, List.length_cons]
    push_cast
    ring

theorem exists_quota_gt_one (cs : List (String × JSNum)) (h : QuotasAtLeast 1 cs)
    (hlen : (cs.length : Int) < intSum cs) :
    ∃ k ∈ cs.map Prod.fst, (getNum cs k).gt 1 = true := by
  by_contra hno
  have hall : ∀ kv ∈ cs, kv.2 = JSNum.int 1 := by
    intro kv hkv
    obtain ⟨v, hv, hv1⟩ := h.2 kv hkv
    have hget : objGet cs kv.1 = some (JSNum.int v) := by
      rw [← hv]
      exact objGet_of_mem cs kv.1 kv.2 h.1 hkv
    by_cases hgt : 1 < v
    · exfalso
      apply hno
      exact ⟨kv.1, List.mem_map.2 ⟨kv, hkv, rfl⟩, by simp [getNum, hget, JSNum.gt, hgt]⟩
    · have : v = 1 := by omega
      rw [hv, this]
  rw [intSum_eq_length cs hall] at hlen
  exact lt_irrefl _ hlen

theorem correctionLoop_terminates (sorted : List Course) (S : Nat) (hn : sorted.length ≤ S)
    (d : Nat) (cs : List (String × JSNum)) (a : Int)
    (h : QuotasAtLeast 1 cs) (hsum : intSum cs = a)
    (hkeys : ∀ k ∈ cs.map Prod.fst, k ∈ sorted.map (fun c => c.name))
    (hd : a ≤ S + d) :
    ∃ q, correctionLoop sorted S (d + 1) (cs, JSNum.int a) = some (Except.ok q) := by
  induction d generalizing cs a with
  | zero =>
    refine ⟨cs, ?_⟩
    have : (JSNum.int a).gt S = false := by
      simp only [JSNum.gt, decide_eq_false_iff_not, not_lt]
      simpa using hd
    simp [correctionLoop, this]
  | succ d ih =>
    by_cases hgt : (JSNum.int a).gt S = true
    · have hSa : (S : Int) < a := by simpa [JSNum.gt] using hgt
      have hlen : (cs.length : Int) ≤ sorted.length := by
        have hsub : cs.map Prod.fst ⊆ sorted.map (fun c => c.name) := fun k hk => hkeys k hk
        have := (List.subperm_of_subset h.1 hsub).length_le
        simp only [List.length_map] at this
        exact_mod_cast this
      have hlt : (cs.length : Int) < intSum cs := by
        rw [hsum]
        have : (sorted.length : Int) ≤ S := by exact_mod_cast hn
        omega
      obtain ⟨k0, hk0, hk0gt⟩ := exists_quota_gt_one cs h hlt
      have hk0s := hkeys k0 hk0
      obtain ⟨c0, hc0, hc0name⟩ := List.mem_map.1 hk0s
      have hne : sorted ≠ [] := List.ne_nil_of_mem hc0
      have hlast : sorted.getLast? = some (sorted.getLast hne) := List.getLast?_eq_getLast _ hne
      by_cases hk : (getNum cs (sorted.getLast hne).name).gt 1 = true
      · obtain ⟨hq, hs, hkeys'⟩ := quotasAtLeast_decAt h (sorted.getLast hne).name hk
        obtain ⟨q, hq'⟩ := ih (decAt cs (sorted.getLast hne).name) (a - 1) hq (by rw [hs, hsum])
          (by rw [hkeys']; exact hkeys) (by push_cast at hd ⊢; omega)
        refine ⟨q, ?_⟩
        rw [correctionLoop]
        simp only [hgt, hlast, hk, if_true]
        exact hq'
      · obtain ⟨cs', a', heq, hq', hs', hkeys', hle, hstrict⟩ :=
          innerPass_inv S ((sorted.dropLast.map (fun c => c.name)).reverse) cs a h hsum
        have hmem : k0 ∈ (sorted.dropLast.map (fun c => c.name)).reverse := by
          rw [List.mem_reverse]
          have hsplit := List.dropLast_append_getLast hne
          rw [← hsplit] at hc0
          rcases List.mem_append.1 hc0 with hin | hin
          · exact List.mem_map.2 ⟨c0, hin, hc0name⟩
          · exfalso
            simp only [List.mem_singleton] at hin
            rw [← hc0name, hin] at hk0gt
            exact hk hk0gt
        have hlt' := hstrict ⟨hSa, k0, hmem, hk0gt⟩
        obtain ⟨q, hq''⟩ := ih cs' a' hq' hs' (by rw [hkeys']; exact hkeys)
          (by push_cast at hd ⊢; omega)
        refine ⟨q, ?_⟩
        rw [correctionLoop]
        simp only [hgt, hlast, hk, if_true]
        rw [heq]
        exact hq''
    · refine ⟨cs, ?_⟩
      rw [correctionLoop]
      simp [hgt]

theorem quotasAtLeast_mono {lo hi : Int} (hle : lo ≤ hi) {m : List (String × JSNum)}
    (h : QuotasAtLeast hi m) : QuotasAtLeast lo m :=
  ⟨h.1, fun kv hkv => let ⟨v, hv, hv1⟩ := h.2 kv hkv; ⟨v, hv, le_trans hle hv1⟩⟩

theorem minimum_inv (sorted : List Course) (S : Nat) (hT : 0 < totalPriorityPoints sorted) :
    QuotasAtLeast 1 (ensureMinimum sorted (distributeSessions sorted S)) ∧
      ∀ k, k ∈ (ensureMinimum sorted (distributeSessions sorted S)).map Prod.fst ↔
        k ∈ sorted.map (fun c => c.name) := by
  obtain ⟨h1, h2⟩ := distributeSessions_inv sorted S hT
  obtain ⟨h3, h4⟩ := ensureMinimum_inv sorted _ h1 (fun k hk => (h2 k).1 hk)
  exact ⟨h3, fun k => by rw [h4]; exact h2 k⟩

theorem courseSessions_terminates (sorted : List Course) (S : Nat)
    (hT : 0 < totalPriorityPoints sorted) (hn : sorted.length ≤ S) :
    ∃ fuel q, courseSessions sorted S fuel = some (Except.ok q) := by
  obtain ⟨h1, h2⟩ := minimum_inv sorted S hT
  by_cases hgt : (S : Int) < intSum (ensureMinimum sorted (distributeSessions sorted S))
  · have hpos : 0 < intSum (ensureMinimum sorted (distributeSessions sorted S)) :=
      lt_of_le_of_lt (Int.natCast_nonneg S) hgt
    obtain ⟨h3, h4⟩ := scaleDown_inv S _ hpos _ (quotasAtLeast_mono (by norm_num) h1)
    obtain ⟨q, hq⟩ := correctionLoop_terminates sorted S hn
      (intSum ((ensureMinimum sorted (distributeSessions sorted S)).map
        (fun kv => (kv.1, scaleDown S
          (intSum (ensureMinimum sorted (distributeSessions sorted S))) kv.2)))).toNat
      _ _ h3 rfl (fun k hk => (h2 k).1 (h4 ▸ hk)) (by omega)
    have key : courseSessions sorted S
        ((intSum ((ensureMinimum sorted (distributeSessions sorted S)).map
          (fun kv => (kv.1, scaleDown S
            (intSum (ensureMinimum sorted (distributeSessions sorted S))) kv.2)))).toNat + 1) =
        some (Except.ok q) := by
      unfold courseSessions correctOverflow
      rw [sumValues_eq _ (quotasAtLeast_allInt h1)]
      simp only
      rw [if_pos hgt, sumValues_eq _ (quotasAtLeast_allInt h3)]
      exact hq
    exact ⟨_, q, key⟩
  · have key : courseSessions sorted S 0 =
        some (Except.ok (ensureMinimum sorted (distributeSessions sorted S))) := by
      unfold courseSessions correctOverflow
      rw [sumValues_eq _ (quotasAtLeast_allInt h1)]
      simp only
      rw [if_neg hgt]
    exact ⟨0, _, key⟩

theorem length_le_intSum (cs : List (String × JSNum)) (h : QuotasAtLeast 1 cs) :
    (cs.length : Int) ≤ intSum cs := by
  have key : ∀ l : List (String × JSNum), (∀ kv ∈ l, ∃ v : Int, kv.2 = JSNum.int v ∧ 1 ≤ v) →
      (l.length : Int) ≤ intSum l := by
    intro l
    induction l with
    | nil => intro _; simp [intSum]
    | cons kv rest ih =>
      intro hl
      obtain ⟨v, hv, hv1⟩ := hl kv (List.mem_cons_self _ _)
      have h2 := ih (fun e he => hl e (List.mem_cons_of_mem _ he))
      have h3 : kv.2.toInt = v := by rw [hv]; rfl
      simp only [intSum] at h2
      simp only [intSum, List.map_cons, List.sum_cons, h3, List.length_cons]
      push_cast
      omega
  exact key cs h.2

theorem correctionLoop_diverges (sorted : List Course) (S : Nat) (hne : sorted ≠ []) (fuel : Nat)
    (cs : List (String × JSNum)) (a : Int) (h : QuotasAtLeast 1 cs) (hsum : intSum cs = a)
    (hlen : S < cs.length) :
    correctionLoop sorted S fuel (cs, JSNum.int a) = none := by
  induction fuel generalizing cs a with
  | zero => rfl
  | succ n ih =>
    have hle := length_le_intSum cs h
    have hgt : (JSNum.int a).gt S = true := by
      simp only [JSNum.gt, decide_eq_true_eq]
      have : (S : Int) < (cs.length : Int) := by exact_mod_cast hlen
      omega
    have hlast : sorted.getLast? = some (sorted.getLast hne) := List.getLast?_eq_getLast _ hne
    rw [correctionLoop]
    simp only [hgt, hlast, if_true]
    by_cases hk : (getNum cs (sorted.getLast hne).name).gt 1 = true
    · obtain ⟨hq, hs, hkeys⟩ := quotasAtLeast_decAt h (sorted.getLast hne).name hk
      rw [if_pos hk]
      apply ih _ _ hq (by rw [hs, hsum])
      have := congrArg List.length hkeys
      simp only [List.length_map] at this
      omega
    · obtain ⟨cs', a', heq, hq', hs', hkeys', _, _⟩ :=
        innerPass_inv S ((sorted.dropLast.map (fun c => c.name)).reverse) cs a h hsum
      rw [if_neg hk, heq]
      apply ih _ _ hq' hs'
      have := congrArg List.length hkeys'
      simp only [List.length_map] at this
      omega

/-- With unique course names and a positive priority total, the quota computation
returns for no fuel at all when there are more courses than `totalSessions`. -/
theorem courseSessions_diverges (sorted : List Course) (S : Nat)
    (hT : 0 < totalPriorityPoints sorted) (hnd : (sorted.map (fun c => c.name)).Nodup)
    (hmany : S < sorted.length) (fuel : Nat) :
    courseSessions sorted S fuel = none := by
  obtain ⟨h1, h2⟩ := minimum_inv sorted S hT
  have hne : sorted ≠ [] := by
    intro h
    rw [h] at hmany
    simp at hmany
  have hperm : ((ensureMinimum sorted (distributeSessions sorted S)).map Prod.fst).Perm
      (sorted.map (fun c => c.name)) :=
    (List.perm_ext_iff_of_nodup h1.1 hnd).2 h2
  have hlen : (ensureMinimum sorted (distributeSessions sorted S)).length = sorted.length := by
    have := hperm.length_eq
    simpa using this
  have hle := length_le_intSum _ h1
  have hgt : (S : Int) < intSum (ensureMinimum sorted (distributeSessions sorted S)) := by
    have : (S : Int) < (sorted.length : Int) := by exact_mod_cast hmany
    rw [hlen] at hle
    omega
  have hpos : 0 < intSum (ensureMinimum sorted (distributeSessions sorted S)) :=
    lt_of_le_of_lt (Int.natCast_nonneg S) hgt
  obtain ⟨h3, h4⟩ := scaleDown_inv S _ hpos _ (quotasAtLeast_mono (by norm_num) h1)
  unfold courseSessions correctOverflow
  rw [sumValues_eq _ (quotasAtLeast_allInt h1)]
  simp only
  rw [if_pos hgt, sumValues_eq _ (quotasAtLeast_allInt h3)]
  apply correctionLoop_diverges sorted S hne fuel _ _ h3 rfl
  rw [List.length_map, hlen]
  exact hmany

/-! ## Quotas: equal priorities -/

theorem mem_objSet_weak {α : Type} (m : List (String × α)) (k : String) (v : α) (kv : String × α)
    (h : kv ∈ objSet m k v) : kv = (k, v) ∨ kv ∈ m := by
  induction m with
  | nil => simp [objSet] at h; exact Or.inl h
  | cons e rest ih =>
    obtain ⟨k', v'⟩ := e
    by_cases hk : k' = k
    · simp only [objSet, hk, if_true, List.mem_cons] at h
      rcases h with h | h
      · exact Or.inl h
      · exact Or.inr (List.mem_cons_of_mem _ h)
    · simp only [objSet, hk, if_false, List.mem_cons] at h
      rcases h with h | h
      · exact Or.inr (h ▸ List.mem_cons_self _ _)
      · rcases ih h with h' | h'
        · exact Or.inl h'
        · exact Or.inr (List.mem_cons_of_mem _ h')

theorem sortByPriority_perm (cs : List Course) : (sortByPriority cs).Perm cs :=
  List.perm_insertionSort _ cs

theorem tally_eq_foldl (schedule : List (Day × List Session)) (courses : List Course) :
    tally schedule courses =
      (allSessions schedule).foldl addSession (0, initDistribution courses) := by
  unfold tally allSessions
  generalize ((0 : ℚ), initDistribution courses) = acc
  induction schedule generalizing acc with
  | nil => rfl
  | cons d rest ih =>
    simp only [List.foldl_cons, List.map_cons, List.flatten_cons, List.foldl_append]
    exact ih _

theorem sum_objSet_some (m : List (String × ℚ)) (k : String) (x y : ℚ)
    (h : objGet m k = some x) :
    ((objSet m k y).map Prod.snd).sum = (m.map Prod.snd).sum - x + y := by
  induction m with
  | nil => simp [objGet] at h
  | cons kv rest ih =>
    obtain ⟨k', v'⟩ := kv
    by_cases hk : k' = k
    · simp only [objGet, hk, if_true, Option.some.injEq] at h
      subst h
      simp only [objSet, hk, if_true, List.map_cons, List.sum_cons]
      ring
    · simp only [objGet, hk, if_false] at h
      simp only [objSet, hk, if_false, List.map_cons, List.sum_cons, ih h]
      ring

theorem sum_objSet_none (m : List (String × ℚ)) (k : String) (y : ℚ)
    (h : objGet m k = none) :
    ((objSet m k y).map Prod.snd).sum = (m.map Prod.snd).sum + y := by
  induction m with
  | nil => simp [objSet]
  | cons kv rest ih =>
    obtain ⟨k', v'⟩ := kv
    by_cases hk : k' = k
    · simp [objGet, hk] at h
    · simp only [objGet, hk, if_false] at h
      simp only [objSet, hk, if_false, List.map_cons, List.sum_cons, ih h]
      ring

theorem addSession_fst (acc : ℚ × List (String × ℚ)) (s : Session) :
    (addSession acc s).1 = acc.1 + 3 / 2 := rfl

theorem addSession_sum (acc : ℚ × List (String × ℚ)) (s : Session) :
    ((addSession acc s).2.map Prod.snd).sum = (acc.2.map Prod.snd).sum + 3 / 2 := by
  unfold addSession
  cases hget : objGet acc.2 s.subject with
  | none => simp only [sum_objSet_none _ _ _ hget, sessionHours]
  | some x =>
    simp only [sum_objSet_some _ _ _ _ hget, sessionHours]
    ring

theorem addSession_get (acc : ℚ × List (String × ℚ)) (s : Session) (x : String) :
    objGet (addSession acc s).2 x =
      if s.subject = x then some ((objGet acc.2 x).getD 0 + 3 / 2) else objGet acc.2 x := by
  unfold addSession
  cases hget : objGet acc.2 s.subject with
  | none =>
    simp only [objGet_objSet, sessionHours]
    by_cases hx : s.subject = x
    · subst hx
      simp [hget]
    · simp [hx]
  | some h =>
    simp only [objGet_objSet, sessionHours]
    by_cases hx : s.subject = x
    · subst hx
      simp [hget]
    · simp [hx]

theorem foldl_addSession (l : List Session) (acc : ℚ × List (String × ℚ)) :
    (l.foldl addSession acc).1 = acc.1 + 3 / 2 * (l.length : ℚ) ∧
      (((l.foldl addSession acc).2.map Prod.snd).sum = (acc.2.map Prod.snd).sum + 3 / 2 * (l.length : ℚ)) ∧
      (∀ x, objGet (l.foldl addSession acc).2 x =
        if (l.filter (fun s => decide (s.subject = x))).length = 0 then objGet acc.2 x
        else some ((objGet acc.2 x).getD 0 +
          3 / 2 * ((l.filter (fun s => decide (s.subject = x))).length : ℚ))) := by
  induction l generalizing acc with
  | nil => simp
  | cons s l ih =>
    obtain ⟨h1, h2, h3⟩ := ih (addSession acc s)
    rw [List.foldl_cons]
    refine ⟨?_, ?_, ?_⟩
    · rw [h1, addSession_fst, List.length_cons]
      push_cast
      ring
    · rw [h2, addSession_sum, List.length_cons]
      push_cast
      ring
    · intro x
      rw [h3 x, addSession_get]
      by_cases hx : s.subject = x
      · simp only [hx, if_true, List.filter_cons, decide_True, List.length_cons]
        by_cases hz : (l.filter (fun s => decide (s.subject = x))).length = 0
        · simp [hz]
        · simp only [hz, if_false, Option.getD_some]
          simp only [Nat.succ_ne_zero, if_false, Option.some.injEq]
          push_cast
          ring
      · simp [hx, List.filter_cons]

theorem init_values (courses : List Course) :
    ∀ kv ∈ initDistribution courses, kv.2 = 0 := by
  have key : ∀ (l : List Course) (acc : List (String × ℚ)), (∀ kv ∈ acc, kv.2 = 0) →
      ∀ kv ∈ l.foldl (fun m course => objSet m course.name (0 : ℚ)) acc, kv.2 = 0 := by
    intro l
    induction l with
    | nil => intro acc h; simpa using h
    | cons c l ih =>
      intro acc h
      rw [List.foldl_cons]
      apply ih
      intro kv hkv
      rcases mem_objSet_weak acc c.name _ kv hkv with heq | hmem
      · rw [heq]
      · exact h kv hmem
  intro kv hkv
  unfold initDistribution at hkv
  rcases mem_objSet_weak _ _ _ kv hkv with heq | hmem
  · rw [heq]
  · exact key courses [] (by simp) kv hmem

theorem init_keys (courses : List Course) (x : String) :
    x ∈ (initDistribution courses).map Prod.fst ↔
      x = "General Review" ∨ x ∈ courses.map (fun c => c.name) := by
  have key : ∀ (l : List Course) (acc : List (String × ℚ)),
      x ∈ (l.foldl (fun m course => objSet m course.name (0 : ℚ)) acc).map Prod.fst ↔
        x ∈ acc.map Prod.fst ∨ x ∈ l.map (fun c => c.name) := by
    intro l
    induction l with
    | nil => intro acc; simp
    | cons c l ih =>
      intro acc
      rw [List.foldl_cons, ih, mem_keys_objSet]
      simp only [List.map_cons, List.mem_cons]
      tauto
  unfold initDistribution
  rw [mem_keys_objSet, key]
  simp

theorem init_sum (courses : List Course) : ((initDistribution courses).map Prod.snd).sum = 0 := by
  apply List.sum_eq_zero
  intro v hv
  obtain ⟨kv, hkv, rfl⟩ := List.mem_map.1 hv
  exact init_values courses kv hkv

theorem init_get (courses : List Course) (x : String) :
    (objGet (initDistribution courses) x).getD 0 = 0 := by
  cases hget : objGet (initDistribution courses) x with
  | none => rfl
  | some v => exact init_values courses (x, v) (mem_of_objGet _ _ _ hget)

theorem tally_spec (schedule : List (Day × List Session)) (courses : List Course) :
    (tally schedule courses).1 = 3 / 2 * ((allSessions schedule).length : ℚ) ∧
      ((tally schedule courses).2.map Prod.snd).sum = (tally schedule courses).1 ∧
      (∀ x, x ∈ (tally schedule courses).2.map Prod.fst →
        objGet (tally schedule courses).2 x = some (3 / 2 * (sessionCount schedule x : ℚ))) ∧
      (∀ c ∈ courses, c.name ∈ (tally schedule courses).2.map Prod.fst) ∧
      "General Review" ∈ (tally schedule courses).2.map Prod.fst := by
  rw [tally_eq_foldl]
  obtain ⟨h1, h2, h3⟩ := foldl_addSession (allSessions schedule) (0, initDistribution courses)
  have hget : ∀ x, x ∈ (initDistribution courses).map Prod.fst →
      objGet ((allSessions schedule).foldl addSession (0, initDistribution courses)).2 x =
        some (3 / 2 * (sessionCount schedule x : ℚ)) := by
    intro x hx
    rw [h3 x]
    unfold sessionCount
    by_cases hz : ((allSessions schedule).filter (fun s => decide (s.subject = x))).length = 0
    · rw [if_pos hz, hz]
      cases hg : objGet (initDistribution courses) x with
      | none => exact absurd hx ((objGet_eq_none_iff _ _).1 hg)
      | some v =>
        have := init_values courses (x, v) (mem_of_objGet _ _ _ hg)
        simp only at this
        simp [this]
    · rw [if_neg hz]
      simp only [init_get, zero_add]
  have hkeys : ∀ x, x ∈ ((allSessions schedule).foldl addSession
      (0, initDistribution courses)).2.map Prod.fst ↔
      x ∈ (initDistribution courses).map Prod.fst ∨
        ((allSessions schedule).filter (fun s => decide (s.subject = x))).length ≠ 0 := by
    intro x
    have hx := h3 x
    by_cases hz : ((allSessions schedule).filter (fun s => decide (s.subject = x))).length = 0
    · rw [if_pos hz] at hx
      simp only [hz, ne_eq, not_true_eq_false, or_false]
      constructor
      · intro hmem
        by_contra hnot
        rw [(objGet_eq_none_iff _ _).2 hnot] at hx
        exact (objGet_eq_none_iff _ _).1 hx hmem
      · intro hmem
        by_contra hnot
        rw [(objGet_eq_none_iff _ _).2 hnot] at hx
        exact (objGet_eq_none_iff _ _).1 hx.symm hmem
    · rw [if_neg hz] at hx
      simp only [hz, ne_eq, not_false_eq_true, or_true, iff_true]
      by_contra hnot
      rw [(objGet_eq_none_iff _ _).2 hnot] at hx
      cases hx
  refine ⟨?_, ?_, ?_, ?_, ?_⟩
  · rw [h1]
    simp
  · rw [h2, h1, init_sum]
  · intro x hx
    rw [h3 x]
    unfold sessionCount
    by_cases hz : ((allSessions schedule).filter (fun s => decide (s.subject = x))).length = 0
    · have hx' := ((hkeys x).1 hx).resolve_right (by simpa using hz)
      have := hget x hx'
      rw [h3 x] at this
      unfold sessionCount at this
      exact this
    · rw [if_neg hz]
      simp only [init_get, zero_add]
  · intro c hc
    exact (hkeys c.name).2 (Or.inl ((init_keys courses c.name).2
      (Or.inr (List.mem_map.2 ⟨c, hc, rfl⟩))))
  · exact (hkeys _).2 (Or.inl ((init_keys courses _).2 (Or.inl rfl)))

theorem highestPriorityCourse_ok (courses : List Course) (hne : courses ≠ []) :
    ∃ name, highestPriorityCourse (coursePriorities courses) = Except.ok name := by
  have hkeys : ∀ (l : List Course) (acc : List (String × Nat)) (x : String),
      x ∈ (l.foldl (fun m course => objSet m course.name course.priority) acc).map Prod.fst ↔
        x ∈ acc.map Prod.fst ∨ x ∈ l.map (fun c => c.name) := by
    intro l
    induction l with
    | nil => intro acc x; simp
    | cons c l ih =>
      intro acc x
      rw [List.foldl_cons, ih, mem_keys_objSet]
      simp only [List.map_cons, List.mem_cons]
      tauto
  obtain ⟨c, rest, rfl⟩ := List.exists_cons_of_ne_nil hne
  have hmem : c.name ∈ (coursePriorities (c :: rest)).map Prod.fst :=
    (hkeys (c :: rest) [] c.name).2 (Or.inr (List.mem_cons_self _ _))
  unfold highestPriorityCourse
  cases hk : (coursePriorities (c :: rest)).map (fun kv => kv.1) with
  | nil =>
    have : (coursePriorities (c :: rest)).map Prod.fst = [] := hk
    rw [this] at hmem
    cases hmem
  | cons first keys => exact ⟨_, rfl⟩

theorem calculateAnalytics_ok (schedule : List (Day × List Session)) (courses : List Course)
    (examDates : List ExamDate) (r : Rand) (hne : courses ≠ []) :
    ∃ a, calculateAnalytics schedule courses examDates r = Except.ok a := by
  obtain ⟨name, hname⟩ := highestPriorityCourse_ok courses hne
  unfold calculateAnalytics
  simp only [hname]
  exact ⟨_, rfl⟩

/-! ## Placement: what a day holds -/

theorem getHours_parseTime (t : TimeStr) : getHours (parseTime t) = t.hours.val := by
  unfold getHours parseTime
  have h1 := t.hours.isLt
  have h2 := t.minutes.isLt
  omega

theorem placeSlot_spec (u : UserData) (rand : Nat → Rand) (sorted : List Course) (day : Day)
    (st : PlaceState) (slot : Nat) :
    (placeSlot u rand sorted (unavailableTimesByDay u day) st slot).sessions = st.sessions ∨
      ∃ s, (placeSlot u rand sorted (unavailableTimesByDay u day) st slot).sessions =
          st.sessions ++ [s] ∧ IsCourseBlock u day s ∧
        (isTimeSlotAvailable (unavailableTimesByDay u day)
            ((getHours (parseTime u.startTime) + slot * 3) * 60)
            ((getHours (parseTime u.startTime) + slot * 3) * 60 + 90) = true →
          s.start = (getHours (parseTime u.startTime) + slot * 3) * 60) := by
  unfold placeSlot
  cases hsel : selectCourse sorted st.remaining with
  | none => exact Or.inl rfl
  | some sel =>
    simp only
    by_cases hlate : getHours (parseTime u.endTime) ≤ getHours (parseTime u.startTime) + slot * 3
    · rw [if_pos hlate]
      exact Or.inl rfl
    · rw [if_neg hlate]
      by_cases hav : isTimeSlotAvailable (unavailableTimesByDay u day)
          ((getHours (parseTime u.startTime) + slot * 3) * 60)
          ((getHours (parseTime u.startTime) + slot * 3) * 60 + sessionLengthMinutes) = true
      · rw [if_pos hav]
        refine Or.inr ⟨_, rfl, ⟨getHours (parseTime u.startTime) + slot * 3, by omega, by omega,
          rfl, rfl, hav⟩, fun _ => rfl⟩
      · rw [if_neg hav]
        cases halt : findAlternative (unavailableTimesByDay u day)
            (getHours (parseTime u.startTime) + slot * 3) (getHours (parseTime u.endTime)) with
        | none => exact Or.inl rfl
        | some hour =>
          have hp := List.find?_some halt
          have hm := List.mem_of_find?_eq_some halt
          rw [List.mem_range'_1] at hm
          exact Or.inr ⟨_, rfl, ⟨hour, by omega, by omega, rfl, rfl, hp⟩,
            fun hfree => absurd hfree hav⟩

theorem placeSlot_late (u : UserData) (rand : Nat → Rand) (sorted : List Course) (day : Day)
    (st : PlaceState) (slot : Nat)
    (hlate : getHours (parseTime u.endTime) ≤ getHours (parseTime u.startTime) + slot * 3) :
    (placeSlot u rand sorted (unavailableTimesByDay u day) st slot).sessions = st.sessions := by
  unfold placeSlot
  cases hsel : selectCourse sorted st.remaining with
  | none => rfl
  | some sel =>
    simp only
    rw [if_pos hlate]

theorem slots_spec (u : UserData) (rand : Nat → Rand) (sorted : List Course) (day : Day)
    (n : Nat) (st0 : PlaceState) :
    ∃ blocks,
      ((List.range n).foldl (placeSlot u rand sorted (unavailableTimesByDay u day)) st0).sessions =
        st0.sessions ++ blocks ∧
      (∀ s ∈ blocks, IsCourseBlock u day s) ∧ blocks.length ≤ n ∧
      (SlotsFree u day →
        blocks.Pairwise (fun a b => a.end_ ≤ b.start) ∧
        ∀ s ∈ blocks, s.end_ ≤ (getHours (parseTime u.startTime) + n * 3) * 60) := by
  induction n with
  | zero => exact ⟨[], by simp, by simp, by simp, fun _ => by simp⟩
  | succ n ih =>
    obtain ⟨blocks, hb, hall, hlen, hfree⟩ := ih
    rw [List.range_succ, List.foldl_append, List.foldl_cons, List.foldl_nil]
    rcases placeSlot_spec u rand sorted day
      ((List.range n).foldl (placeSlot u rand sorted (unavailableTimesByDay u day)) st0) n with
      hsame | ⟨s, hs, hblock, hstart⟩
    · refine ⟨blocks, by rw [hsame, hb], hall, by omega, fun hnil => ?_⟩
      obtain ⟨h1, h2⟩ := hfree hnil
      exact ⟨h1, fun s hs => le_trans (h2 s hs) (by omega)⟩
    · refine ⟨blocks ++ [s], by rw [hs, hb, List.append_assoc], ?_, by simp; omega,
        fun hnil => ?_⟩
      · intro x hx
        rcases List.mem_append.1 hx with h | h
        · exact hall x h
        · rw [List.mem_singleton.1 h]
          exact hblock
      · obtain ⟨h1, h2⟩ := hfree hnil
        obtain ⟨hour, hlo, hhi, hst, hen, hav⟩ := hblock
        have hs0 : s.start = (getHours (parseTime u.startTime) + n * 3) * 60 := by
          by_cases hin : getHours (parseTime u.startTime) + n * 3 <
              getHours (parseTime u.endTime)
          · exact hstart (hnil n hin)
          · exfalso
            rcases placeSlot_late u rand sorted day
              ((List.range n).foldl (placeSlot u rand sorted (unavailableTimesByDay u day)) st0)
              n (by omega) with hsame
            rw [hs] at hsame
            simp at hsame
        constructor
        · rw [List.pairwise_append]
          refine ⟨h1, List.pairwise_singleton _ _, ?_⟩
          intro a ha b hb'
          rw [List.mem_singleton.1 hb', hs0]
          exact h2 a ha
        · intro x hx
          rcases List.mem_append.1 hx with h | h
          · exact le_trans (h2 x h) (by omega)
          · rw [List.mem_singleton.1 h]
            omega

theorem scheduleDay_spec (u : UserData) (rand : Nat → Rand) (sorted : List Course)
    (maxPerDay : Nat) (day : Day) (remaining : List (String × JSNum)) (draws : Nat)
    (st : PlaceState)
    (h : scheduleDay u rand sorted maxPerDay day remaining draws = Except.ok st) :
    ∃ blocks, st.sessions = sortSessions (dayPrefix day ++ blocks) ∧
      (∀ s ∈ blocks, IsCourseBlock u day s) ∧ blocks.length ≤ availableSlots maxPerDay day ∧
      (SlotsFree u day → blocks.Pairwise (fun a b => a.end_ ≤ b.start)) := by
  unfold scheduleDay at h
  cases hst0 : startDay u rand day remaining draws with
  | error e => rw [hst0] at h; cases h
  | ok st0 =>
    rw [hst0] at h
    simp only [Except.ok.injEq] at h
    obtain ⟨blocks, hb, hall, hlen, hfree⟩ :=
      slots_spec u rand sorted day (availableSlots maxPerDay day) st0
    have hpre : st0.sessions = dayPrefix day := by
      unfold startDay at hst0
      unfold dayPrefix
      by_cases hday : day = Day.Sunday
      · rw [if_pos hday] at hst0 ⊢
        cases hc : u.courses[(rand draws).index u.courses.length]? with
        | none => rw [hc] at hst0; cases hst0
        | some c =>
          rw [hc] at hst0
          simp only [Except.ok.injEq] at hst0
          rw [← hst0]
      · rw [if_neg hday] at hst0 ⊢
        simp only [Except.ok.injEq] at hst0
        rw [← hst0]
    refine ⟨blocks, ?_, hall, hlen, fun hnil => (hfree hnil).1⟩
    rw [← h, ← hpre, ← hb]

theorem scheduleDays_spec (u : UserData) (rand : Nat → Rand) (sorted : List Course)
    (maxPerDay : Nat) (ds : List Day) (remaining : List (String × JSNum)) (draws : Nat)
    (schedule : List (Day × List Session)) (remaining' : List (String × JSNum)) (draws' : Nat)
    (h : scheduleDays u rand sorted maxPerDay ds remaining draws =
      Except.ok (schedule, remaining', draws')) :
    schedule.map Prod.fst = ds ∧
      ∀ day l, (day, l) ∈ schedule → ∃ rem0 draws0 st,
        scheduleDay u rand sorted maxPerDay day rem0 draws0 = Except.ok st ∧ st.sessions = l := by
  induction ds generalizing remaining draws schedule remaining' draws' with
  | nil =>
    simp only [scheduleDays, Except.ok.injEq, Prod.mk.injEq] at h
    obtain ⟨rfl, _, _⟩ := h
    exact ⟨rfl, fun day l hmem => by cases hmem⟩
  | cons d rest ih =>
    unfold scheduleDays at h
    cases hd : scheduleDay u rand sorted maxPerDay d remaining draws with
    | error e => rw [hd] at h; cases h
    | ok st =>
      rw [hd] at h
      simp only at h
      cases hr : scheduleDays u rand sorted maxPerDay rest st.remaining st.draws with
      | error e => rw [hr] at h; cases h
      | ok res =>
        obtain ⟨sched, rem2, draws2⟩ := res
        rw [hr] at h
        simp only [Except.ok.injEq, Prod.mk.injEq] at h
        obtain ⟨rfl, _, _⟩ := h
        obtain ⟨h1, h2⟩ := ih st.remaining st.draws sched rem2 draws2 hr
        refine ⟨by simp [h1], fun day l hmem => ?_⟩
        rcases List.mem_cons.1 hmem with heq | hin
        · simp only [Prod.mk.injEq] at heq
          obtain ⟨rfl, rfl⟩ := heq
          exact ⟨remaining, draws, st, hd, rfl⟩
        · exact h2 day l hin

theorem optimizeSchedule_days (u : UserData) (rand : Nat → Rand) (fuel : Nat) (r : Result)
    (h : optimizeSchedule u rand fuel = some (Except.ok r)) :
    ∃ maxPerDay : Nat, maxSessionsPerDay u = (maxPerDay : Int) ∧
      r.schedule.map Prod.fst = days ∧
      ∀ day l, (day, l) ∈ r.schedule → ∃ rem0 draws0 st,
        scheduleDay u rand (sortedCourses u) maxPerDay day rem0 draws0 = Except.ok st ∧
          st.sessions = l := by
  unfold optimizeSchedule at h
  cases hmax : maxSessionsPerDay u with
  | negSucc n => rw [hmax] at h; simp at h
  | ofNat maxPerDay =>
    rw [hmax] at h
    simp only at h
    cases hcs : courseSessions (sortedCourses u) (maxPerDay * days.length) fuel with
    | none => rw [hcs] at h; cases h
    | some res =>
      cases res with
      | error e => rw [hcs] at h; simp at h
      | ok cs =>
        rw [hcs] at h
        simp only at h
        cases hsd : scheduleDays u rand (sortedCourses u) maxPerDay days cs 0 with
        | error e => rw [hsd] at h; simp at h
        | ok res2 =>
          obtain ⟨schedule, rem', draws'⟩ := res2
          rw [hsd] at h
          simp only at h
          cases han : calculateAnalytics schedule (coursesAfter u) u.examDates (rand draws') with
          | error e => rw [han] at h; simp at h
          | ok analytics =>
            rw [han] at h
            simp only [Option.some.injEq, Except.ok.injEq] at h
            subst h
            obtain ⟨h1, h2⟩ := scheduleDays_spec u rand (sortedCourses u) maxPerDay days cs 0
              schedule rem' draws' hsd
            exact ⟨maxPerDay, rfl, h1, h2⟩

/-! ## The per-day sort -/

theorem sortSessions_perm (l : List Session) : (sortSessions l).Perm l :=
  List.perm_insertionSort timeLe l

theorem sortSessions_sorted (l : List Session) : (sortSessions l).Sorted timeLe :=
  List.sorted_insertionSort timeLe l

theorem unavailable_nil_iff (u : UserData) (day : Day) :
    unavailableTimesByDay u day = [] ↔ ∀ t ∈ u.unavailableTimes, t.day ≠ day := by
  unfold unavailableTimesByDay
  rw [List.map_eq_nil_iff, List.filter_eq_nil_iff]
  simp

theorem available_spec (u : UserData) (day : Day) (s e : Nat)
    (h : isTimeSlotAvailable (unavailableTimesByDay u day) s e = true) :
    ∀ t ∈ u.unavailableTimes, t.day = day → ¬ (s < parseTime t.end_ ∧ e > parseTime t.start) := by
  intro t ht hday hconf
  unfold isTimeSlotAvailable at h
  rw [Bool.not_eq_true', List.any_eq_false] at h
  have hmem : (parseTime t.start, parseTime t.end_) ∈ unavailableTimesByDay u day := by
    unfold unavailableTimesByDay
    exact List.mem_map.2 ⟨t, List.mem_filter.2 ⟨ht, by simpa using hday⟩, rfl⟩
  have := h _ hmem
  simp only [Bool.and_eq_true, decide_eq_true_eq, not_and] at this
  exact this hconf.1 hconf.2

theorem mem_day_cases (u : UserData) (rand : Nat → Rand) (fuel : Nat) (r : Result)
    (h : optimizeSchedule u rand fuel = some (Except.ok r)) (day : Day) (l : List Session)
    (hmem : (day, l) ∈ r.schedule) :
    ∃ blocks, l.Perm (dayPrefix day ++ blocks) ∧ l.Sorted timeLe ∧
      (∀ s ∈ blocks, IsCourseBlock u day s) ∧
      (SlotsFree u day → blocks.Pairwise (fun a b => a.end_ ≤ b.start)) := by
  obtain ⟨maxPerDay, _, _, hdays⟩ := optimizeSchedule_days u rand fuel r h
  obtain ⟨rem0, draws0, st, hst, rfl⟩ := hdays day l hmem
  obtain ⟨blocks, hb, hall, _, hfree⟩ :=
    scheduleDay_spec u rand (sortedCourses u) maxPerDay day rem0 draws0 st hst
  refine ⟨blocks, ?_, ?_, hall, hfree⟩
  · rw [hb]
    exact sortSessions_perm _
  · rw [hb]
    exact sortSessions_sorted _

theorem mem_dayPrefix {day : Day} {s : Session} (h : s ∈ dayPrefix day) :
    s = reviewSession ∧ day = Day.Sunday := by
  unfold dayPrefix at h
  by_cases hday : day = Day.Sunday
  · rw [if_pos hday] at h
    exact ⟨List.mem_singleton.1 h, hday⟩
  · rw [if_neg hday] at h
    cases h

theorem noOverlap_symm {a b : Session} (h : NoOverlap a b) : NoOverlap b a := Or.symm h

/-! ## Runs on the concrete inputs -/

theorem overlapInput_run :
    optimizeSchedule overlapInput zeroRands 1 = some (Except.ok overlapResult) := by
  decide!

theorem busySundayInput_run :
    optimizeSchedule busySundayInput zeroRands 1 = some (Except.ok busySundayResult) := by
  decide!

theorem halfHourInput_run :
    optimizeSchedule halfHourInput zeroRands 1 = some (Except.ok halfHourResult) := by
  decide!

theorem specExampleInput_run :
    optimizeSchedule specExampleInput zeroRands 1 = some (Except.ok specExampleResult) := by
  decide!

/-! ## When `optimizeSchedule` returns -/

theorem startDay_ok (u : UserData) (rand : Nat → Rand) (day : Day)
    (remaining : List (String × JSNum)) (draws : Nat) (hne : u.courses ≠ []) :
    ∃ st, startDay u rand day remaining draws = Except.ok st := by
  unfold startDay
  by_cases hday : day = Day.Sunday
  · rw [if_pos hday]
    have hlt := index_lt (rand draws) u.courses.length (List.length_pos.2 hne)
    rw [List.getElem?_eq_getElem hlt]
    exact ⟨_, rfl⟩
  · rw [if_neg hday]
    exact ⟨_, rfl⟩

theorem scheduleDay_ok (u : UserData) (rand : Nat → Rand) (sorted : List Course)
    (maxPerDay : Nat) (day : Day) (remaining : List (String × JSNum)) (draws : Nat)
    (hne : u.courses ≠ []) :
    ∃ st, scheduleDay u rand sorted maxPerDay day remaining draws = Except.ok st := by
  obtain ⟨st0, hst0⟩ := startDay_ok u rand day remaining draws hne
  unfold scheduleDay
  rw [hst0]
  exact ⟨_, rfl⟩

theorem scheduleDays_ok (u : UserData) (rand : Nat → Rand) (sorted : List Course)
    (maxPerDay : Nat) (hne : u.courses ≠ []) (ds : List Day)
    (remaining : List (String × JSNum)) (draws : Nat) :
    ∃ res, scheduleDays u rand sorted maxPerDay ds remaining draws = Except.ok res := by
  induction ds generalizing remaining draws with
  | nil => exact ⟨_, rfl⟩
  | cons d rest ih =>
    obtain ⟨st, hst⟩ := scheduleDay_ok u rand sorted maxPerDay d remaining draws hne
    obtain ⟨res, hres⟩ := ih st.remaining st.draws
    unfold scheduleDays
    rw [hst]
    simp only
    rw [hres]
    exact ⟨_, rfl⟩

/-- When the boosted priorities are not all zero and `totalSessions` is at least
the number of courses, `optimizeSchedule` returns a result for some fuel. -/
theorem optimizeSchedule_returns (u : UserData) (rand : Nat → Rand) (hne : u.courses ≠ [])
    (hT : 0 < totalPriorityPoints (sortedCourses u))
    (hfit : (u.courses.length : Int) ≤ maxSessionsPerDay u * 7) :
    ∃ fuel r, optimizeSchedule u rand fuel = some (Except.ok r) := by
  cases hmax : maxSessionsPerDay u with
  | negSucc n =>
    rw [hmax] at hfit
    have : (0 : Int) ≤ (u.courses.length : Int) := Int.natCast_nonneg _
    have hneg : Int.negSucc n < 0 := Int.negSucc_lt_zero n
    omega
  | ofNat maxPerDay =>
    rw [hmax] at hfit
    have hlen : (sortedCourses u).length = u.courses.length := by
      rw [sortedCourses_eq]
      unfold sortByPriority
      rw [List.length_insertionSort, List.length_map, List.length_insertionSort]
    have hfit' : (sortedCourses u).length ≤ maxPerDay * days.length := by
      rw [hlen]
      have : days.length = 7 := rfl
      rw [this]
      have h2 : (u.courses.length : Int) ≤ (maxPerDay : Int) * 7 := hfit
      exact_mod_cast h2
    obtain ⟨fuel, cs, hcs⟩ :=
      courseSessions_terminates (sortedCourses u) (maxPerDay * days.length) hT hfit'
    obtain ⟨⟨schedule, rem', draws'⟩, hsd⟩ :=
      scheduleDays_ok u rand (sortedCourses u) maxPerDay hne days cs 0
    have hne' : coursesAfter u ≠ [] := by
      rw [coursesAfter_eq]
      intro h
      exact hne (List.map_eq_nil_iff.1 h)
    obtain ⟨a, ha⟩ :=
      calculateAnalytics_ok schedule (coursesAfter u) u.examDates (rand draws') hne'
    refine ⟨fuel, { schedule := schedule, analytics := a }, ?_⟩
    unfold optimizeSchedule
    rw [hmax]
    simp only [hcs, hsd, ha]


/-! ## Working priorities and the sorted order -/

theorem sortByPriority_sorted (l : List Course) :
    (sortByPriority l).Sorted (fun a b => b.priority ≤ a.priority) :=
  List.sorted_insertionSort _ l

theorem find?_range' (p : Nat → Bool) (n : Nat) :
    ∀ s : Nat,
      (∀ h, (List.range' s n).find? p = some h →
        s ≤ h ∧ h < s + n ∧ p h = true ∧ ∀ h', s ≤ h' → h' < h → p h' = false) ∧
      ((List.range' s n).find? p = none → ∀ h', s ≤ h' → h' < s + n → p h' = false) := by
  induction n with
  | zero =>
    intro s
    refine ⟨fun h hh => by simp at hh, fun _ h' h1 h2 => by omega⟩
  | succ n ih =>
    intro s
    rw [List.range'_succ, List.find?_cons]
    cases hp : p s with
    | true =>
      refine ⟨fun h hh => ?_, fun hh => by simp at hh⟩
      simp only [Option.some.injEq] at hh
      subst hh
      exact ⟨le_refl _, by omega, hp, fun h' h1 h2 => by omega⟩
    | false =>
      obtain ⟨ih1, ih2⟩ := ih (s + 1)
      refine ⟨fun h hh => ?_, fun hh h' h1 h2 => ?_⟩
      · obtain ⟨a, b, c, d⟩ := ih1 h hh
        refine ⟨by omega, by omega, c, fun h' h1 h2 => ?_⟩
        by_cases hs : h' = s
        · rw [hs]; exact hp
        · exact d h' (by omega) h2
      · by_cases hs : h' = s
        · rw [hs]; exact hp
        · exact ih2 hh h' (by omega) (by omega)

theorem objSet_objSet {α : Type} (m : List (String × α)) (k : String) (a b : α) :
    objSet (objSet m k a) k b = objSet m k b := by
  induction m with
  | nil => simp [objSet]
  | cons kv rest ih =>
    obtain ⟨k', v'⟩ := kv
    by_cases hk : k' = k
    · simp [objSet, hk]
    · simp [objSet, hk, ih]

theorem objSet_self {α : Type} (m : List (String × α)) (k : String) (v : α)
    (h : objGet m k = some v) : objSet m k v = m := by
  induction m with
  | nil => simp [objGet] at h
  | cons kv rest ih =>
    obtain ⟨k', v'⟩ := kv
    by_cases hk : k' = k
    · simp only [objGet, hk, if_true, Option.some.injEq] at h
      simp [objSet, hk, h]
    · simp only [objGet, hk, if_false] at h
      simp [objSet, hk, ih h]

theorem getNum_objSet (m : List (String × JSNum)) (k x : String) (v : JSNum) :
    getNum (objSet m k v) x = if k = x then v else getNum m x := by
  unfold getNum
  rw [objGet_objSet]
  by_cases hk : k = x
  · rw [if_pos hk, if_pos hk]
  · rw [if_neg hk, if_neg hk]

/-- The statement `obj[k]++` after `obj[k]--` restores a quota that was selected. -/
theorem incAt_decAt (m : List (String × JSNum)) (k : String)
    (hgt : (getNum m k).gt 0 = true) : incAt (decAt m k) k = m := by
  obtain ⟨v, hget, _⟩ := getNum_of_gt hgt
  have hnum : getNum m k = JSNum.int v := by simp [getNum, hget]
  unfold incAt decAt
  rw [getNum_objSet, if_pos rfl, objSet_objSet, hnum]
  have : (JSNum.int v).dec.inc = JSNum.int v := by simp [JSNum.dec, JSNum.inc]
  rw [this]
  exact objSet_self m k _ hget

theorem selectCourse_some {sorted : List Course} {remaining : List (String × JSNum)}
    {sel : Course} (h : selectCourse sorted remaining = some sel) :
    sel ∈ sorted ∧ (getNum remaining sel.name).gt 0 = true := by
  unfold selectCourse at h
  have h2 : (fun course : Course => (getNum remaining course.name).gt 0) sel = true :=
    @List.find?_some Course (fun course : Course => (getNum remaining course.name).gt 0) sel
      sorted h
  exact ⟨List.mem_of_find?_eq_some h, h2⟩

/-! ## Invariants of the slot loop -/

theorem placeSlot_inv (u : UserData) (rand : Nat → Rand) (sorted : List Course)
    (K : List (String × JSNum) → List Session → Prop) (hK : SlotInvariant u sorted K)
    (ranges : List (Nat × Nat)) (st : PlaceState) (slot : Nat)
    (h : K st.remaining st.sessions) :
    K (placeSlot u rand sorted ranges st slot).remaining
      (placeSlot u rand sorted ranges st slot).sessions := by
  unfold placeSlot
  cases hsel : selectCourse sorted st.remaining with
  | none => exact h
  | some sel =>
    obtain ⟨hmem, hgt⟩ := selectCourse_some hsel
    obtain ⟨hdec, hpush⟩ := hK.2 st.remaining st.sessions sel hmem hgt h
    simp only
    split
    · exact hdec
    · split
      · exact hpush _ _
      · split
        · exact hpush _ _
        · simp only
          rw [incAt_decAt st.remaining sel.name hgt]
          exact h

theorem slots_inv (u : UserData) (rand : Nat → Rand) (sorted : List Course)
    (K : List (String × JSNum) → List Session → Prop) (hK : SlotInvariant u sorted K)
    (ranges : List (Nat × Nat)) (n : Nat) (st0 : PlaceState)
    (h : K st0.remaining st0.sessions) :
    K ((List.range n).foldl (placeSlot u rand sorted ranges) st0).remaining
      ((List.range n).foldl (placeSlot u rand sorted ranges) st0).sessions := by
  induction n with
  | zero => exact h
  | succ n ih =>
    rw [List.range_succ, List.foldl_append, List.foldl_cons, List.foldl_nil]
    exact placeSlot_inv u rand sorted K hK ranges _ n ih

theorem startDay_cases (u : UserData) (rand : Nat → Rand) (day : Day)
    (remaining : List (String × JSNum)) (draws : Nat) (st0 : PlaceState)
    (h : startDay u rand day remaining draws = Except.ok st0) :
    (day = Day.Sunday ∧ ∃ c ∈ u.courses,
      st0 = { remaining := decAt remaining c.name, sessions := [reviewSession],
              draws := draws + 1 }) ∨
    (day ≠ Day.Sunday ∧ st0 = { remaining := remaining, sessions := [], draws := draws }) := by
  unfold startDay at h
  by_cases hday : day = Day.Sunday
  · rw [if_pos hday] at h
    cases hc : u.courses[(rand draws).index u.courses.length]? with
    | none => rw [hc] at h; cases h
    | some c =>
      rw [hc] at h
      simp only [Except.ok.injEq] at h
      exact Or.inl ⟨hday, c, List.mem_iff_getElem?.2 ⟨_, hc⟩, h.symm⟩
  · rw [if_neg hday] at h
    simp only [Except.ok.injEq] at h
    exact Or.inr ⟨hday, h.symm⟩

theorem scheduleDay_inv (u : UserData) (rand : Nat → Rand) (sorted : List Course)
    (K : List (String × JSNum) → List Session → Prop) (hK : SlotInvariant u sorted K)
    (maxPerDay : Nat) (day : Day) (remaining : List (String × JSNum)) (draws : Nat)
    (st : PlaceState)
    (hstart : ∀ st0, startDay u rand day remaining draws = Except.ok st0 →
      K st0.remaining st0.sessions)
    (h : scheduleDay u rand sorted maxPerDay day remaining draws = Except.ok st) :
    K st.remaining st.sessions := by
  unfold scheduleDay at h
  cases hst0 : startDay u rand day remaining draws with
  | error e => rw [hst0] at h; cases h
  | ok st0 =>
    rw [hst0] at h
    simp only [Except.ok.injEq] at h
    have hfold := slots_inv u rand sorted K hK (unavailableTimesByDay u day)
      (availableSlots maxPerDay day) st0 (hstart st0 hst0)
    rw [← h]
    exact hK.1 _ _ _ (sortSessions_perm _).symm hfold

theorem slotInvariant_append (u : UserData) (sorted : List Course)
    (K : List (String × JSNum) → List Session → Prop) (hK : SlotInvariant u sorted K)
    (before : List Session) : SlotInvariant u sorted (fun rem l => K rem (before ++ l)) := by
  refine ⟨fun rem l l' hperm h => hK.1 rem _ _ (hperm.append_left before) h, ?_⟩
  intro rem l sel hmem hgt h
  obtain ⟨hdec, hpush⟩ := hK.2 rem (before ++ l) sel hmem hgt h
  refine ⟨hdec, fun r start => ?_⟩
  have := hpush r start
  rw [List.append_assoc] at this
  exact this

theorem scheduleDays_inv (u : UserData) (rand : Nat → Rand) (sorted : List Course)
    (K : List (String × JSNum) → List Session → Prop) (hK : SlotInvariant u sorted K)
    (hrev : ReviewInvariant u K) (maxPerDay : Nat) (ds : List Day) :
    ∀ (before : List Session) (remaining : List (String × JSNum)) (draws : Nat)
      (schedule : List (Day × List Session)) (remaining' : List (String × JSNum)) (draws' : Nat),
      K remaining before →
      scheduleDays u rand sorted maxPerDay ds remaining draws =
        Except.ok (schedule, remaining', draws') →
      K remaining' (before ++ allSessions schedule) := by
  induction ds with
  | nil =>
    intro before remaining draws schedule remaining' draws' h0 h
    simp only [scheduleDays, Except.ok.injEq, Prod.mk.injEq] at h
    obtain ⟨rfl, rfl, _⟩ := h
    simpa [allSessions] using h0
  | cons d rest ih =>
    intro before remaining draws schedule remaining' draws' h0 h
    unfold scheduleDays at h
    cases hd : scheduleDay u rand sorted maxPerDay d remaining draws with
    | error e => rw [hd] at h; cases h
    | ok st =>
      rw [hd] at h
      simp only at h
      cases hr : scheduleDays u rand sorted maxPerDay rest st.remaining st.draws with
      | error e => rw [hr] at h; cases h
      | ok res =>
        obtain ⟨sched, rem2, draws2⟩ := res
        rw [hr] at h
        simp only [Except.ok.injEq, Prod.mk.injEq] at h
        obtain ⟨rfl, rfl, _⟩ := h
        have hday : K st.remaining (before ++ st.sessions) := by
          apply scheduleDay_inv u rand sorted (fun rem l => K rem (before ++ l))
            (slotInvariant_append u sorted K hK before) maxPerDay d remaining draws st _ hd
          intro st0 hst0
          rcases startDay_cases u rand d remaining draws st0 hst0 with
            ⟨_, c, hc, rfl⟩ | ⟨_, rfl⟩
          · exact hrev remaining before c hc h0
          · simpa using h0
        have := ih (before ++ st.sessions) st.remaining st.draws sched rem2 draws2 hday hr
        simpa [allSessions, List.append_assoc] using this

theorem optimizeSchedule_parts (u : UserData) (rand : Nat → Rand) (fuel : Nat) (r : Result)
    (h : optimizeSchedule u rand fuel = some (Except.ok r)) :
    ∃ (maxPerDay : Nat) (cs remaining : List (String × JSNum)) (draws : Nat),
      maxSessionsPerDay u = (maxPerDay : Int) ∧
      courseSessions (sortedCourses u) (maxPerDay * days.length) fuel = some (Except.ok cs) ∧
      scheduleDays u rand (sortedCourses u) maxPerDay days cs 0 =
        Except.ok (r.schedule, remaining, draws) ∧
      calculateAnalytics r.schedule (coursesAfter u) u.examDates (rand draws) =
        Except.ok r.analytics := by
  unfold optimizeSchedule at h
  cases hmax : maxSessionsPerDay u with
  | negSucc n => rw [hmax] at h; simp at h
  | ofNat maxPerDay =>
    rw [hmax] at h
    simp only at h
    cases hcs : courseSessions (sortedCourses u) (maxPerDay * days.length) fuel with
    | none => rw [hcs] at h; cases h
    | some res =>
      cases res with
      | error e => rw [hcs] at h; simp at h
      | ok cs =>
        rw [hcs] at h
        simp only at h
        cases hsd : scheduleDays u rand (sortedCourses u) maxPerDay days cs 0 with
        | error e => rw [hsd] at h; simp at h
        | ok res2 =>
          obtain ⟨schedule, rem', draws'⟩ := res2
          rw [hsd] at h
          simp only at h
          cases han : calculateAnalytics schedule (coursesAfter u) u.examDates (rand draws') with
          | error e => rw [han] at h; simp at h
          | ok analytics =>
            rw [han] at h
            simp only [Option.some.injEq, Except.ok.injEq] at h
            subst h
            exact ⟨maxPerDay, cs, rem', draws', rfl, hcs, hsd, han⟩

/-! ## The sessions of a day -/

theorem sortedCourses_name_mem (u : UserData) (c : Course) (hc : c ∈ sortedCourses u) :
    ∃ c0 ∈ u.courses, c.name = c0.name := by
  rw [sortedCourses_eq] at hc
  have h1 := (sortByPriority_perm _).mem_iff.1 hc
  obtain ⟨c0, hc0, heq⟩ := List.mem_map.1 h1
  have h2 := (sortByPriority_perm _).mem_iff.1 hc0
  refine ⟨c0, h2, ?_⟩
  rw [← heq, applyBoost_eq]

theorem mem_sortedCourses_of_mem (u : UserData) (c0 : Course) (hc : c0 ∈ u.courses) :
    ∃ c ∈ sortedCourses u, c.name = c0.name := by
  rw [sortedCourses_eq]
  refine ⟨applyBoost (examPriorities u.examDates) c0, ?_, by rw [applyBoost_eq]⟩
  apply (sortByPriority_perm _).mem_iff.2
  exact List.mem_map_of_mem _ ((sortByPriority_perm _).mem_iff.2 hc)

theorem dayKind_invariant (u : UserData) (sorted : List Course) (day : Day) :
    SlotInvariant u sorted
      (fun _ l => ∀ s ∈ l, s ∈ dayPrefix day ∨ IsStudyBlock u.learningStyle sorted s) := by
  refine ⟨fun rem l l' hperm h s hs => h s (hperm.mem_iff.2 hs), ?_⟩
  intro rem l sel hmem _ h
  refine ⟨h, fun r start s hs => ?_⟩
  rcases List.mem_append.1 hs with hs | hs
  · exact h s hs
  · rw [List.mem_singleton] at hs
    exact Or.inr ⟨sel, hmem, r, start, hs⟩

theorem day_sessions_kind (u : UserData) (rand : Nat → Rand) (fuel : Nat) (r : Result)
    (h : optimizeSchedule u rand fuel = some (Except.ok r)) (day : Day) (l : List Session)
    (hl : (day, l) ∈ r.schedule) :
    ∀ s ∈ l, s ∈ dayPrefix day ∨ IsStudyBlock u.learningStyle (sortedCourses u) s := by
  obtain ⟨maxPerDay, _, _, hdays⟩ := optimizeSchedule_days u rand fuel r h
  obtain ⟨rem0, draws0, st, hrun, hst⟩ := hdays day l hl
  rw [← hst]
  apply scheduleDay_inv u rand (sortedCourses u) _ (dayKind_invariant u (sortedCourses u) day)
    maxPerDay day rem0 draws0 st _ hrun
  intro st0 hst0
  rcases startDay_cases u rand day rem0 draws0 st0 hst0 with ⟨hday, c, _, rfl⟩ | ⟨_, rfl⟩
  · intro s hs
    left
    unfold dayPrefix
    rw [if_pos hday]
    exact hs
  · intro s hs
    cases hs

theorem day_sessions_blocks (u : UserData) (rand : Nat → Rand) (fuel : Nat) (r : Result)
    (h : optimizeSchedule u rand fuel = some (Except.ok r)) :
    ∃ maxPerDay : Nat, maxSessionsPerDay u = (maxPerDay : Int) ∧
      ∀ day l, (day, l) ∈ r.schedule →
        ∃ blocks, l.Perm (dayPrefix day ++ blocks) ∧
          (∀ s ∈ blocks, IsCourseBlock u day s) ∧
          blocks.length ≤ availableSlots maxPerDay day := by
  obtain ⟨maxPerDay, hmax, _, hdays⟩ := optimizeSchedule_days u rand fuel r h
  refine ⟨maxPerDay, hmax, fun day l hl => ?_⟩
  obtain ⟨rem0, draws0, st, hrun, hst⟩ := hdays day l hl
  obtain ⟨blocks, hb, hall, hlen, _⟩ :=
    scheduleDay_spec u rand (sortedCourses u) maxPerDay day rem0 draws0 st hrun
  refine ⟨blocks, ?_, hall, hlen⟩
  rw [← hst, hb]
  exact sortSessions_perm _

theorem courseSessionsOf_length_le (day : Day) (l blocks : List Session)
    (hperm : l.Perm (dayPrefix day ++ blocks)) :
    (courseSessionsOf l).length ≤ blocks.length := by
  unfold courseSessionsOf
  rw [(hperm.filter _).length_eq, List.filter_append]
  have hpre : (dayPrefix day).filter (fun s => decide (s.subject ≠ "General Review")) = [] := by
    unfold dayPrefix
    split <;> decide
  rw [hpre, List.nil_append]
  exact List.length_filter_le _ _

theorem decAt_values (remaining : List (String × JSNum)) (k : String) :
    getNum (decAt remaining k) k = (getNum remaining k).dec ∧
    ∀ x, x ≠ k → getNum (decAt remaining k) x = getNum remaining x := by
  unfold decAt
  refine ⟨by rw [getNum_objSet, if_pos rfl], fun x hx => ?_⟩
  rw [getNum_objSet, if_neg (fun h => hx h.symm)]

theorem zeroBudgetInput_run :
    optimizeSchedule zeroBudgetInput zeroRands 1 = some (Except.ok zeroBudgetResult) := by
  decide!

theorem withinQuota_slot (u : UserData) (sorted : List Course) (k : String) (q : Int) :
    SlotInvariant u sorted (WithinQuota k q) := by
  refine ⟨?_, ?_⟩
  · rintro rem l l' hperm ⟨v, hv, hle⟩
    refine ⟨v, hv, ?_⟩
    rw [← (hperm.filter _).length_eq]
    exact hle
  · rintro rem l sel _ hgt ⟨v, hv, hle⟩
    obtain ⟨w, hget, hw⟩ := getNum_of_gt hgt
    have hnum : getNum rem sel.name = JSNum.int w := by simp [getNum, hget]
    have hdec := decAt_values rem sel.name
    by_cases hk : sel.name = k
    · have hvw : v = w := by
        rw [hk, hv] at hnum
        exact JSNum.int.inj hnum
      subst hvw
      have hnew : getNum (decAt rem sel.name) k = JSNum.int (v - 1) := by
        rw [← hk, hdec.1, hnum]
        rfl
      refine ⟨⟨v - 1, hnew, ?_⟩, fun r start => ⟨v - 1, hnew, ?_⟩⟩
      · have h1 : max (v - 1) 0 ≤ max v 0 := max_le_max (by omega) (le_refl 0)
        omega
      · rw [List.filter_append, List.length_append]
        have hone : ([studyBlock u.learningStyle r start sel.name].filter
            (fun s => decide (s.subject = k))).length = 1 := by
          rw [List.filter_cons_of_pos]
          · rfl
          · exact decide_eq_true hk
        rw [hone]
        have h1 : max (v - 1) 0 = v - 1 := max_eq_left (by omega)
        have h2 : max v 0 = v := max_eq_left (by omega)
        rw [h1]
        rw [h2] at hle
        push_cast
        omega
    · have hnew : getNum (decAt rem sel.name) k = JSNum.int v := by
        rw [hdec.2 k (fun h => hk h.symm), hv]
      refine ⟨⟨v, hnew, hle⟩, fun r start => ⟨v, hnew, ?_⟩⟩
      rw [List.filter_append, List.length_append]
      have hzero : ([studyBlock u.learningStyle r start sel.name].filter
          (fun s => decide (s.subject = k))).length = 0 := by
        rw [List.filter_cons_of_neg]
        · rfl
        · simpa using hk
      rw [hzero]
      simpa using hle

theorem withinQuota_review (u : UserData) (k : String) (q : Int)
    (hk : k ≠ "General Review") : ReviewInvariant u (WithinQuota k q) := by
  rintro rem l c _ ⟨v, hv, hle⟩
  have hdec := decAt_values rem c.name
  have hcount : ((l ++ [reviewSession]).filter (fun s => decide (s.subject = k))).length =
      (l.filter (fun s => decide (s.subject = k))).length := by
    rw [List.filter_append, List.length_append]
    have hzero : ([reviewSession].filter (fun s => decide (s.subject = k))).length = 0 := by
      rw [List.filter_cons_of_neg]
      · rfl
      · have : reviewSession.subject ≠ k := fun h => hk h.symm
        simpa using this
    rw [hzero]
    rfl
  by_cases hc : c.name = k
  · refine ⟨v - 1, ?_, ?_⟩
    · rw [← hc, hdec.1, hc, hv]
      rfl
    · rw [hcount]
      have h1 : max (v - 1) 0 ≤ max v 0 := max_le_max (by omega) (le_refl 0)
      omega
  · refine ⟨v, ?_, ?_⟩
    · rw [hdec.2 k (fun h => hc h.symm), hv]
    · rw [hcount]
      exact hle

theorem count_within_quota (u : UserData) (rand : Nat → Rand) (sorted : List Course)
    (maxPerDay : Nat) (cs remaining : List (String × JSNum)) (draws : Nat)
    (schedule : List (Day × List Session))
    (h : scheduleDays u rand sorted maxPerDay days cs 0 = Except.ok (schedule, remaining, draws))
    (k : String) (q : Int) (hk : k ≠ "General Review") (hq : getNum cs k = JSNum.int q)
    (hpos : 0 ≤ q) : (sessionCount schedule k : Int) ≤ q := by
  have hinit : WithinQuota k q cs [] := ⟨q, hq, by simp [hpos]⟩
  obtain ⟨v, _, hle⟩ := scheduleDays_inv u rand sorted (WithinQuota k q)
    (withinQuota_slot u sorted k q) (withinQuota_review u k q hk) maxPerDay days [] cs 0
    schedule remaining draws hinit h
  rw [List.nil_append] at hle
  unfold sessionCount
  have : (0 : Int) ≤ max v 0 := le_max_right v 0
  omega

theorem courseSessions_le_sum (courses : List Course) (l : List Session)
    (hsub : ∀ s ∈ l, s.subject ≠ "General Review" → ∃ c ∈ courses, s.subject = c.name) :
    (courseSessionsOf l).length ≤
      (courses.map
        (fun c => (l.filter (fun s => decide (s.subject = c.name))).length)).sum := by
  induction l with
  | nil => simp [courseSessionsOf]
  | cons s rest ih =>
    have ih2 := ih (fun x hx => hsub x (List.mem_cons_of_mem _ hx))
    have hsplit : (courses.map
        (fun c => ((s :: rest).filter (fun s => decide (s.subject = c.name))).length)).sum =
        (courses.map (fun c => if s.subject = c.name then 1 else 0)).sum +
        (courses.map
          (fun c => (rest.filter (fun s => decide (s.subject = c.name))).length)).sum := by
      rw [← List.sum_map_add]
      congr 1
      apply List.map_congr_left
      intro c _
      by_cases hc : s.subject = c.name
      · rw [if_pos hc]
        have hd : decide (s.subject = c.name) = true := decide_eq_true hc
        simp only [List.filter_cons, hd, if_true, List.length_cons]
        omega
      · rw [if_neg hc]
        have hd : decide (s.subject = c.name) = false := decide_eq_false hc
        simp only [List.filter_cons, hd]
        simp
    rw [hsplit]
    unfold courseSessionsOf at ih2 ⊢
    by_cases hs : s.subject ≠ "General Review"
    · have hlen : ((s :: rest).filter (fun s => decide (s.subject ≠ "General Review"))).length =
          (rest.filter (fun s => decide (s.subject ≠ "General Review"))).length + 1 := by
        simp [List.filter_cons, hs]
      rw [hlen]
      obtain ⟨c, hc, hname⟩ := hsub s (List.mem_cons_self _ _) hs
      have hone : 1 ≤ (courses.map (fun c => if s.subject = c.name then 1 else 0)).sum := by
        have hmem : (1 : Nat) ∈ courses.map (fun c => if s.subject = c.name then 1 else 0) :=
          List.mem_map.2 ⟨c, hc, if_pos hname⟩
        exact List.single_le_sum (fun _ _ => Nat.zero_le _) 1 hmem
      omega
    · have hlen : ((s :: rest).filter (fun s => decide (s.subject ≠ "General Review"))).length =
          (rest.filter (fun s => decide (s.subject ≠ "General Review"))).length := by
        simp only [not_not] at hs
        simp [List.filter_cons, hs]
      rw [hlen]
      omega

/-! ## Sessions per day -/

theorem calculateAnalytics_totals (schedule : List (Day × List Session)) (courses : List Course)
    (examDates : List ExamDate) (r : Rand) (a : Analytics)
    (h : calculateAnalytics schedule courses examDates r = Except.ok a) :
    a.totalStudyHours = 3 / 2 * ((allSessions schedule).length : ℚ) := by
  unfold calculateAnalytics at h
  simp only at h
  cases hh : highestPriorityCourse (coursePriorities courses) with
  | error e => rw [hh] at h; cases h
  | ok name =>
    rw [hh] at h
    simp only [Except.ok.injEq] at h
    subst h
    exact (tally_spec schedule courses).1

theorem budget_le_hours (u : UserData) (maxPerDay : Nat)
    (hmax : maxSessionsPerDay u = (maxPerDay : Int)) :
    (3 / 2 : ℚ) * (maxPerDay : ℚ) ≤ (u.studyHoursPerDay : ℚ) := by
  have h1 : (maxPerDay : Int) ≤ u.studyHoursPerDay * 60 / 90 := by
    rw [← hmax]
    exact min_le_left _ _
  have h2 : u.studyHoursPerDay * 60 / 90 * 90 ≤ u.studyHoursPerDay * 60 :=
    Int.ediv_mul_le _ (by decide)
  have h3 : (maxPerDay : Int) * 90 ≤ u.studyHoursPerDay * 60 := by omega
  have h4 : ((maxPerDay : Int) : ℚ) * 90 ≤ (u.studyHoursPerDay : ℚ) * 60 := by
    exact_mod_cast h3
  have h5 : ((maxPerDay : Int) : ℚ) = (maxPerDay : ℚ) := by norm_cast
  rw [h5] at h4
  linarith

theorem day_length_le (u : UserData) (rand : Nat → Rand) (fuel : Nat) (r : Result)
    (h : optimizeSchedule u rand fuel = some (Except.ok r)) (maxPerDay : Nat)
    (hmax : maxSessionsPerDay u = (maxPerDay : Int)) (hpos : 1 ≤ maxPerDay)
    (day : Day) (l : List Session) (hl : (day, l) ∈ r.schedule) : l.length ≤ maxPerDay := by
  obtain ⟨maxPerDay', hmax', hblocks⟩ := day_sessions_blocks u rand fuel r h
  have hm : maxPerDay' = maxPerDay := by
    rw [hmax] at hmax'
    exact (Int.ofNat.inj hmax').symm
  subst hm
  obtain ⟨blocks, hperm, _, hlen⟩ := hblocks day l hl
  rw [hperm.length_eq, List.length_append]
  unfold availableSlots at hlen
  unfold dayPrefix
  by_cases hday : day = Day.Sunday
  · rw [if_pos hday] at hlen ⊢
    simp only [List.length_singleton]
    omega
  · rw [if_neg hday] at hlen ⊢
    simp only [List.length_nil]
    omega

theorem allSessions_length_le (schedule : List (Day × List Session)) (n : Nat)
    (hday : ∀ day l, (day, l) ∈ schedule → l.length ≤ n) :
    (allSessions schedule).length ≤ schedule.length * n := by
  induction schedule with
  | nil => simp [allSessions]
  | cons d rest ih =>
    have h1 := hday d.1 d.2 (List.mem_cons_self _ _)
    have h2 := ih (fun day l hl => hday day l (List.mem_cons_of_mem _ hl))
    unfold allSessions at h2 ⊢
    rw [List.map_cons, List.flatten_cons, List.length_append, List.length_cons, Nat.succ_mul]
    omega

/-! ## Quotas along the sorted order -/

theorem foldl_pointwise (step : List (String × JSNum) → Course → List (String × JSNum))
    (F : Course → JSNum → JSNum)
    (hstep : ∀ m c, getNum (step m c) c.name = F c (getNum m c.name) ∧
      ∀ k, k ≠ c.name → getNum (step m c) k = getNum m k)
    (l : List Course) (hnodup : (l.map (fun c => c.name)).Nodup) :
    ∀ acc, (∀ c ∈ l, getNum (l.foldl step acc) c.name = F c (getNum acc c.name)) ∧
      ∀ k, k ∉ l.map (fun c => c.name) → getNum (l.foldl step acc) k = getNum acc k := by
  induction l with
  | nil => intro acc; exact ⟨fun c hc => absurd hc (List.not_mem_nil c), fun k _ => rfl⟩
  | cons d rest ih =>
    intro acc
    rw [List.map_cons, List.nodup_cons] at hnodup
    obtain ⟨ih1, ih2⟩ := ih hnodup.2 (step acc d)
    obtain ⟨hs1, hs2⟩ := hstep acc d
    rw [List.foldl_cons]
    constructor
    · intro c hc
      rcases List.mem_cons.1 hc with hcd | hcr
      · subst hcd
        rw [ih2 c.name hnodup.1, hs1]
      · have hne : c.name ≠ d.name := by
          intro heq
          apply hnodup.1
          rw [← heq]
          exact List.mem_map_of_mem _ hcr
        rw [ih1 c hcr, hs2 c.name hne]
    · intro k hk
      simp only [List.map_cons, List.mem_cons, not_or] at hk
      rw [ih2 k hk.2, hs2 k hk.1]

theorem distributeSessions_get (sorted : List Course) (S : Nat)
    (hnodup : (sorted.map (fun c => c.name)).Nodup) (c : Course) (hc : c ∈ sorted) :
    getNum (distributeSessions sorted S) c.name =
      sessionShare c.priority (totalPriorityPoints sorted) S := by
  unfold distributeSessions
  refine (foldl_pointwise
    (fun cs course =>
      objSet cs course.name (sessionShare course.priority (totalPriorityPoints sorted) S))
    (fun course _ => sessionShare course.priority (totalPriorityPoints sorted) S)
    (fun m d => ⟨?_, fun k hk => ?_⟩) sorted hnodup []).1 c hc
  · rw [getNum_objSet, if_pos rfl]
  · rw [getNum_objSet, if_neg (fun h => hk h.symm)]

theorem ensureMinimum_get (sorted : List Course) (cs : List (String × JSNum))
    (hnodup : (sorted.map (fun c => c.name)).Nodup) (c : Course) (hc : c ∈ sorted) :
    getNum (ensureMinimum sorted cs) c.name =
      if (getNum cs c.name).isZero then JSNum.int 1 else getNum cs c.name := by
  unfold ensureMinimum
  refine (foldl_pointwise
    (fun cs course =>
      if (getNum cs course.name).isZero then objSet cs course.name (JSNum.int 1) else cs)
    (fun _ x => if x.isZero then JSNum.int 1 else x)
    (fun m d => ⟨?_, fun k hk => ?_⟩) sorted hnodup cs).1 c hc
  · simp only
    split
    · rw [getNum_objSet, if_pos rfl]
    · rfl
  · simp only
    split
    · rw [getNum_objSet, if_neg (fun h => hk h.symm)]
    · rfl

theorem getNum_map_values (g : JSNum → JSNum) (hg : g JSNum.nan = JSNum.nan)
    (cs : List (String × JSNum)) (k : String) :
    getNum (cs.map (fun kv => (kv.1, g kv.2))) k = g (getNum cs k) := by
  unfold getNum
  induction cs with
  | nil => simp [objGet, hg]
  | cons kv rest ih =>
    obtain ⟨k', v'⟩ := kv
    by_cases hk : k' = k
    · simp [objGet, hk]
    · simp only [List.map_cons, objGet, hk, if_false]
      exact ih

theorem innerPass_get (S : Nat) (cl : List Course)
    (hnodup : (cl.map (fun c => c.name)).Nodup) :
    ∀ (cs : List (String × JSNum)) (allocated : JSNum),
      ∃ touched untouched, cl = touched ++ untouched ∧
        (∀ c ∈ touched,
          getNum (innerPass S (cl.map (fun c => c.name)) (cs, allocated)).1 c.name =
            decrementAboveOne (getNum cs c.name)) ∧
        ∀ k, k ∉ touched.map (fun c => c.name) →
          getNum (innerPass S (cl.map (fun c => c.name)) (cs, allocated)).1 k = getNum cs k := by
  induction cl with
  | nil =>
    intro cs allocated
    exact ⟨[], [], rfl, fun c hc => absurd hc (List.not_mem_nil c), fun k _ => rfl⟩
  | cons d rest ih =>
    intro cs allocated
    rw [List.map_cons, List.nodup_cons] at hnodup
    rw [List.map_cons]
    unfold innerPass
    by_cases ha : allocated.gt S = true
    · rw [if_pos ha]
      by_cases hd : (getNum cs d.name).gt 1 = true
      · rw [if_pos hd]
        obtain ⟨touched, untouched, hsplit, h1, h2⟩ := ih hnodup.2 (decAt cs d.name) allocated.dec
        have hsub : ∀ c ∈ touched, c ∈ rest := fun c hc => by
          rw [hsplit]
          exact List.mem_append_left _ hc
        have hdn : d.name ∉ touched.map (fun c => c.name) := by
          intro hmem
          obtain ⟨c, hc, hcn⟩ := List.mem_map.1 hmem
          apply hnodup.1
          rw [← hcn]
          exact List.mem_map_of_mem _ (hsub c hc)
        refine ⟨d :: touched, untouched, by rw [hsplit, List.cons_append], ?_, ?_⟩
        · intro c hc
          rcases List.mem_cons.1 hc with hcd | hct
          · subst hcd
            rw [h2 c.name hdn, (decAt_values cs c.name).1]
            unfold decrementAboveOne
            rw [if_pos hd]
          · have hne : c.name ≠ d.name := by
              intro heq
              apply hnodup.1
              rw [← heq]
              exact List.mem_map_of_mem _ (hsub c hct)
            rw [h1 c hct, (decAt_values cs d.name).2 c.name hne]
        · intro k hk
          simp only [List.map_cons, List.mem_cons, not_or] at hk
          rw [h2 k hk.2, (decAt_values cs d.name).2 k hk.1]
      · rw [if_neg hd]
        obtain ⟨touched, untouched, hsplit, h1, h2⟩ := ih hnodup.2 cs allocated
        have hsub : ∀ c ∈ touched, c ∈ rest := fun c hc => by
          rw [hsplit]
          exact List.mem_append_left _ hc
        have hdn : d.name ∉ touched.map (fun c => c.name) := by
          intro hmem
          obtain ⟨c, hc, hcn⟩ := List.mem_map.1 hmem
          apply hnodup.1
          rw [← hcn]
          exact List.mem_map_of_mem _ (hsub c hc)
        refine ⟨d :: touched, untouched, by rw [hsplit, List.cons_append], ?_, ?_⟩
        · intro c hc
          rcases List.mem_cons.1 hc with hcd | hct
          · subst hcd
            rw [h2 c.name hdn]
            unfold decrementAboveOne
            rw [if_neg hd]
          · exact h1 c hct
        · intro k hk
          simp only [List.map_cons, List.mem_cons, not_or] at hk
          exact h2 k hk.2
    · rw [if_neg ha]
      exact ⟨[], d :: rest, rfl, fun c hc => absurd hc (List.not_mem_nil c), fun k _ => rfl⟩

theorem goodQuotas_pointwise (sorted : List Course) (cs cs' : List (String × JSNum))
    (g : Int → Int) (hg1 : ∀ v, 1 ≤ v → 1 ≤ g v)
    (hmono : ∀ v w, 1 ≤ v → v ≤ w → g v ≤ g w)
    (hget : ∀ c ∈ sorted, ∀ v, getNum cs c.name = JSNum.int v →
      getNum cs' c.name = JSNum.int (g v))
    (h : GoodQuotas sorted cs) : GoodQuotas sorted cs' := by
  obtain ⟨hval, hpair⟩ := h
  refine ⟨fun c hc => ?_, ?_⟩
  · obtain ⟨v, hv, h1⟩ := hval c hc
    exact ⟨g v, hget c hc v hv, hg1 v h1⟩
  · unfold QuotasMonotone at hpair ⊢
    refine hpair.imp_of_mem ?_
    intro x y hx hy hxy
    obtain ⟨v, hv, h1⟩ := hval x hx
    obtain ⟨w, hw, h2⟩ := hval y hy
    unfold quotaOf at hxy ⊢
    rw [hget x hx v hv, hget y hy w hw]
    rw [hv, hw] at hxy
    exact hmono w v h2 hxy

theorem goodQuotas_suffix (front back : List Course) (cs cs' : List (String × JSNum))
    (hfront : ∀ c ∈ front, getNum cs' c.name = getNum cs c.name)
    (hback : ∀ c ∈ back, getNum cs' c.name = decrementAboveOne (getNum cs c.name))
    (h : GoodQuotas (front ++ back) cs) : GoodQuotas (front ++ back) cs' := by
  obtain ⟨hval, hpair⟩ := h
  have hdec : ∀ v : Int, 1 ≤ v →
      decrementAboveOne (JSNum.int v) = JSNum.int (if 1 < v then v - 1 else v) := by
    intro v _
    unfold decrementAboveOne JSNum.gt JSNum.dec
    by_cases hv : 1 < v
    · simp [hv]
    · simp [hv]
  have hbackv : ∀ c ∈ back, ∀ v, getNum cs c.name = JSNum.int v → 1 ≤ v →
      getNum cs' c.name = JSNum.int (if 1 < v then v - 1 else v) := by
    intro c hc v hv h1
    rw [hback c hc, hv, hdec v h1]
  refine ⟨fun c hc => ?_, ?_⟩
  · obtain ⟨v, hv, h1⟩ := hval c hc
    rcases List.mem_append.1 hc with hf | hb
    · exact ⟨v, by rw [hfront c hf, hv], h1⟩
    · refine ⟨_, hbackv c hb v hv h1, ?_⟩
      split <;> omega
  · unfold QuotasMonotone at hpair ⊢
    rw [List.pairwise_append] at hpair ⊢
    obtain ⟨hpf, hpb, hcross⟩ := hpair
    refine ⟨?_, ?_, ?_⟩
    · refine hpf.imp_of_mem ?_
      intro x y hx hy hxy
      unfold quotaOf at hxy ⊢
      rw [hfront x hx, hfront y hy]
      exact hxy
    · refine hpb.imp_of_mem ?_
      intro x y hx hy hxy
      obtain ⟨v, hv, h1⟩ := hval x (List.mem_append_right _ hx)
      obtain ⟨w, hw, h2⟩ := hval y (List.mem_append_right _ hy)
      unfold quotaOf at hxy ⊢
      rw [hbackv x hx v hv h1, hbackv y hy w hw h2]
      rw [hv, hw] at hxy
      simp only [JSNum.toInt] at hxy ⊢
      split <;> split <;> omega
    · intro x hx y hy
      have hxy := hcross x hx y hy
      obtain ⟨v, hv, h1⟩ := hval x (List.mem_append_left _ hx)
      obtain ⟨w, hw, h2⟩ := hval y (List.mem_append_right _ hy)
      unfold quotaOf at hxy ⊢
      rw [hfront x hx, hbackv y hy w hw h2, hv]
      rw [hv, hw] at hxy
      simp only [JSNum.toInt] at hxy ⊢
      split <;> omega

theorem correctionLoop_good (sorted : List Course) (S : Nat)
    (hnodup : (sorted.map (fun c => c.name)).Nodup) :
    ∀ (fuel : Nat) (cs : List (String × JSNum)) (allocated : JSNum) (q : List (String × JSNum)),
      GoodQuotas sorted cs →
      correctionLoop sorted S fuel (cs, allocated) = some (Except.ok q) →
      GoodQuotas sorted q := by
  intro fuel
  induction fuel with
  | zero =>
    intro cs allocated q _ h
    simp [correctionLoop] at h
  | succ fuel ih =>
    intro cs allocated q hgood h
    unfold correctionLoop at h
    by_cases ha : allocated.gt S = true
    · rw [if_pos ha] at h
      cases hlast : sorted.getLast? with
      | none => rw [hlast] at h; simp at h
      | some lowest =>
        rw [hlast] at h
        simp only at h
        have hsplit : sorted = sorted.dropLast ++ [lowest] := by
          have hne : sorted ≠ [] := by
            intro hnil
            rw [hnil] at hlast
            cases hlast
          have hl : sorted.getLast hne = lowest := by
            rw [List.getLast?_eq_getLast sorted hne] at hlast
            exact Option.some.inj hlast
          rw [← hl]
          exact (List.dropLast_append_getLast hne).symm
        have hnd : ((sorted.dropLast ++ [lowest]).map (fun c => c.name)).Nodup := by
          rw [← hsplit]
          exact hnodup
        rw [List.map_append, List.nodup_append] at hnd
        obtain ⟨hndinit, _, hdisj⟩ := hnd
        have hlow : ∀ c ∈ sorted.dropLast, c.name ≠ lowest.name := by
          intro c hc heq
          exact hdisj (List.mem_map_of_mem _ hc) (by rw [heq]; simp)
        by_cases hgt : (getNum cs lowest.name).gt 1 = true
        · rw [if_pos hgt] at h
          apply ih (decAt cs lowest.name) allocated.dec q _ h
          have hg : GoodQuotas (sorted.dropLast ++ [lowest]) cs := by
            rw [← hsplit]
            exact hgood
          have hnew := goodQuotas_suffix sorted.dropLast [lowest] cs (decAt cs lowest.name)
            (fun c hc => (decAt_values cs lowest.name).2 c.name (hlow c hc))
            (fun c hc => by
              rw [List.mem_singleton.1 hc, (decAt_values cs lowest.name).1]
              unfold decrementAboveOne
              rw [if_pos hgt])
            hg
          rw [← hsplit] at hnew
          exact hnew
        · rw [if_neg hgt] at h
          have hrev : (sorted.dropLast.map (fun c => c.name)).reverse =
              sorted.dropLast.reverse.map (fun c => c.name) := (List.map_reverse _ _).symm
          rw [hrev] at h
          have hndrev : (sorted.dropLast.reverse.map (fun c => c.name)).Nodup := by
            rw [List.map_reverse]
            exact List.nodup_reverse.2 hndinit
          obtain ⟨touched, untouched, hcl, h1, h2⟩ :=
            innerPass_get S sorted.dropLast.reverse hndrev cs allocated
          have hinit : sorted.dropLast = untouched.reverse ++ touched.reverse := by
            have := congrArg List.reverse hcl
            rw [List.reverse_reverse, List.reverse_append] at this
            exact this
          have hpass : GoodQuotas sorted
              (innerPass S (sorted.dropLast.reverse.map (fun c => c.name)) (cs, allocated)).1 := by
            have hs2 : sorted = untouched.reverse ++ (touched.reverse ++ [lowest]) := by
              rw [← List.append_assoc, ← hinit]
              exact hsplit
            have hmemt : ∀ c ∈ touched, c ∈ sorted.dropLast := fun c hc => by
              rw [hinit]
              exact List.mem_append_right _ (List.mem_reverse.2 hc)
            have hnotin : ∀ c ∈ untouched, c.name ∉ touched.map (fun c => c.name) := by
              intro c hc hmem
              have hnd2 := hndrev
              rw [hcl, List.map_append, List.nodup_append] at hnd2
              exact hnd2.2.2 hmem (List.mem_map_of_mem _ hc)
            have hg : GoodQuotas (untouched.reverse ++ (touched.reverse ++ [lowest])) cs := by
              rw [← hs2]
              exact hgood
            have hnew := goodQuotas_suffix untouched.reverse (touched.reverse ++ [lowest]) cs
              (innerPass S (sorted.dropLast.reverse.map (fun c => c.name)) (cs, allocated)).1
              (fun c hc => h2 c.name (hnotin c (List.mem_reverse.1 hc)))
              (fun c hc => by
                rcases List.mem_append.1 hc with hct | hcl'
                · exact h1 c (List.mem_reverse.1 hct)
                · rw [List.mem_singleton.1 hcl']
                  have hnot : lowest.name ∉ touched.map (fun c => c.name) := by
                    intro hmem
                    obtain ⟨c', hc', hn⟩ := List.mem_map.1 hmem
                    exact hlow c' (hmemt c' hc') hn
                  rw [h2 lowest.name hnot]
                  unfold decrementAboveOne
                  rw [if_neg hgt])
              hg
            rw [← hs2] at hnew
            exact hnew
          cases hres : innerPass S (sorted.dropLast.reverse.map (fun c => c.name))
              (cs, allocated) with
          | mk cs2 a2 =>
            rw [hres] at h hpass
            exact ih cs2 a2 q hpass h
    · rw [if_neg ha] at h
      simp only [Option.some.injEq, Except.ok.injEq] at h
      rw [← h]
      exact hgood

theorem bump_int (n : Nat) :
    (if (JSNum.int (n : Int)).isZero then JSNum.int 1 else JSNum.int (n : Int)) =
      JSNum.int (if n = 0 then 1 else (n : Int)) := by
  by_cases hn : n = 0
  · subst hn
    rfl
  · have hn' : (n : Int) ≠ 0 := by exact_mod_cast hn
    simp [JSNum.isZero, hn, hn']

theorem minimum_good (sorted : List Course) (S : Nat)
    (hnodup : (sorted.map (fun c => c.name)).Nodup)
    (hsorted : sorted.Pairwise (fun x y => y.priority ≤ x.priority))
    (hT : 0 < totalPriorityPoints sorted) :
    GoodQuotas sorted (ensureMinimum sorted (distributeSessions sorted S)) := by
  have hget : ∀ c ∈ sorted,
      getNum (ensureMinimum sorted (distributeSessions sorted S)) c.name =
        JSNum.int (if c.priority * S / totalPriorityPoints sorted = 0 then 1
          else ((c.priority * S / totalPriorityPoints sorted : Nat) : Int)) := by
    intro c hc
    rw [ensureMinimum_get sorted _ hnodup c hc, distributeSessions_get sorted S hnodup c hc]
    unfold sessionShare
    rw [if_neg (Nat.pos_iff_ne_zero.1 hT)]
    exact bump_int _
  refine ⟨fun c hc => ⟨_, hget c hc, ?_⟩, ?_⟩
  · split
    · exact le_refl 1
    · rename_i hz
      have : 1 ≤ c.priority * S / totalPriorityPoints sorted := Nat.one_le_iff_ne_zero.2 hz
      exact_mod_cast this
  · unfold QuotasMonotone
    refine hsorted.imp_of_mem ?_
    intro x y hx hy hxy
    unfold quotaOf
    rw [hget x hx, hget y hy]
    simp only [JSNum.toInt]
    have hdiv : y.priority * S / totalPriorityPoints sorted ≤
        x.priority * S / totalPriorityPoints sorted :=
      Nat.div_le_div_right (Nat.mul_le_mul_right S hxy)
    split <;> split <;> omega

theorem courseSessions_good (sorted : List Course) (S fuel : Nat)
    (hnodup : (sorted.map (fun c => c.name)).Nodup)
    (hsorted : sorted.Pairwise (fun x y => y.priority ≤ x.priority))
    (hT : 0 < totalPriorityPoints sorted) (q : List (String × JSNum))
    (h : courseSessions sorted S fuel = some (Except.ok q)) : GoodQuotas sorted q := by
  have hmin := minimum_good sorted S hnodup hsorted hT
  unfold courseSessions correctOverflow at h
  cases hsum : sumValues (ensureMinimum sorted (distributeSessions sorted S)) with
  | nan =>
    rw [hsum] at h
    simp only [Option.some.injEq, Except.ok.injEq] at h
    rw [← h]
    exact hmin
  | int allocated =>
    rw [hsum] at h
    simp only at h
    by_cases hover : (S : Int) < allocated
    · rw [if_pos hover] at h
      refine correctionLoop_good sorted S hnodup fuel _ _ q ?_ h
      have hpos : 0 < allocated := lt_of_le_of_lt (Int.natCast_nonneg S) hover
      apply goodQuotas_pointwise sorted _ _
        (fun v => if v * (S : Int) / allocated = 0 then 1 else v * (S : Int) / allocated)
        _ _ _ hmin
      · intro v hv
        have h0 : 0 ≤ v * (S : Int) / allocated :=
          Int.ediv_nonneg (mul_nonneg (by omega) (Int.natCast_nonneg S)) (le_of_lt hpos)
        simp only
        split <;> omega
      · intro v w hv hvw
        have hle : v * (S : Int) / allocated ≤ w * (S : Int) / allocated :=
          Int.ediv_le_ediv hpos (mul_le_mul_of_nonneg_right hvw (Int.natCast_nonneg S))
        have h0 : 0 ≤ v * (S : Int) / allocated :=
          Int.ediv_nonneg (mul_nonneg (by omega) (Int.natCast_nonneg S)) (le_of_lt hpos)
        simp only
        split <;> split <;> omega
      · intro c _ v hv
        rw [getNum_map_values (scaleDown S allocated) rfl, hv]
        unfold scaleDown
        simp only
        split <;> rfl
    · rw [if_neg hover] at h
      simp only [Option.some.injEq, Except.ok.injEq] at h
      rw [← h]
      exact hmin

theorem sortedCourses_names_nodup (u : UserData)
    (hnodup : (u.courses.map (fun c => c.name)).Nodup) :
    ((sortedCourses u).map (fun c => c.name)).Nodup := by
  rw [sortedCourses_eq]
  have h1 : ((sortByPriority ((sortByPriority u.courses).map
      (applyBoost (examPriorities u.examDates)))).map (fun c => c.name)).Perm
      (((sortByPriority u.courses).map (applyBoost (examPriorities u.examDates))).map
        (fun c => c.name)) := (sortByPriority_perm _).map _
  have h2 : ((sortByPriority u.courses).map (applyBoost (examPriorities u.examDates))).map
      (fun c => c.name) = (sortByPriority u.courses).map (fun c => c.name) := by
    rw [List.map_map]
    apply List.map_congr_left
    intro c _
    simp only [Function.comp_apply]
    rw [applyBoost_eq]
  have h3 : ((sortByPriority u.courses).map (fun c => c.name)).Perm
      (u.courses.map (fun c => c.name)) := (sortByPriority_perm _).map _
  rw [h2] at h1
  exact (h1.trans h3).nodup_iff.2 hnodup
/-! ## C1: termination -/

/-- The state `courseSessions = { A: 1 }`, `allocatedSessions = 1` with
`totalSessions = 0` is a fixed point of the correction loop: no amount of fuel ends it. -/
theorem correctionLoop_stuck (fuel : Nat) :
    correctionLoop [{ name := "A", priority := 5 }] 0 fuel ([("A", JSNum.int 1)], JSNum.int 1)
      = none := by
  induction fuel with
  | zero => rfl
  | succ n ih =>
    have hstep : correctionLoop [{ name := "A", priority := 5 }] 0 (n + 1)
        ([("A", JSNum.int 1)], JSNum.int 1) =
        correctionLoop [{ name := "A", priority := 5 }] 0 n
          ([("A", JSNum.int 1)], JSNum.int 1) := by
      rfl
    rw [hstep, ih]

/-- C1 fails on the code: for one course and `studyHoursPerDay = 1` (so
`maxSessionsPerDay = 0` and `totalSessions = 0`) the overflow correction loop never
exits, whatever the fuel and the random source. -/
theorem optimizeSchedule_diverges (rand : Nat → Rand) (fuel : Nat) :
    optimizeSchedule singleCourseInput rand fuel = none := by
  have hmax : maxSessionsPerDay singleCourseInput = Int.ofNat 0 := by decide
  have hsorted : sortedCourses singleCourseInput = [{ name := "A", priority := 5 }] := by decide
  have hcs : courseSessions [{ name := "A", priority := 5 }] (0 * days.length) fuel =
      correctionLoop [{ name := "A", priority := 5 }] 0 fuel
        ([("A", JSNum.int 1)], JSNum.int 1) := by
    rfl
  unfold optimizeSchedule
  rw [hmax]
  simp only [hsorted, hcs, correctionLoop_stuck]

/-! ## C2: overlap of sessions -/

/-- C2, as stated, fails: on `overlapInput` the Monday block of slot 0 is moved by
probing to 16:00 - 17:30 and overlaps the block of slot 1 at 17:00 - 18:30, and on
Sunday the block at 14:00 - 15:30 overlaps the fixed review at 15:00 - 16:30. -/
theorem sessions_overlap :
    optimizeSchedule overlapInput zeroRands 1 = some (Except.ok overlapResult) ∧
      (∃ l, (Day.Monday, l) ∈ overlapResult.schedule ∧ ¬ l.Pairwise NoOverlap) ∧
      (∃ l, (Day.Sunday, l) ∈ overlapResult.schedule ∧ ¬ l.Pairwise NoOverlap) := by
  refine ⟨by decide!, ⟨[visualBlock 960 "A", visualBlock 1020 "A"], by decide, by decide⟩,
    ⟨[visualBlock 840 "A", reviewSession], by decide, by decide⟩⟩

/-- C2 (amended): on a day on which no slot position is blocked by an unavailable
range (so no block is moved by probing; in particular on a day without unavailable
ranges), the sessions of the day other than the fixed Sunday review do not overlap one
another; from Monday to Saturday these are all the sessions of the day. -/
theorem slot_sessions_disjoint (u : UserData) (rand : Nat → Rand) (fuel : Nat) (r : Result)
    (h : optimizeSchedule u rand fuel = some (Except.ok r)) (day : Day) (l : List Session)
    (hmem : (day, l) ∈ r.schedule) (hfree : SlotsFree u day) :
    (l.filter (fun s => decide (s ≠ reviewSession))).Pairwise NoOverlap ∧
      (day ≠ Day.Sunday → l.Pairwise NoOverlap) := by
  obtain ⟨blocks, hperm, _, _, hpair⟩ := mem_day_cases u rand fuel r h day l hmem
  have hblocks : blocks.Pairwise NoOverlap :=
    (hpair hfree).imp (fun hab => Or.inl hab)
  constructor
  · have hp := hperm.filter (fun s => decide (s ≠ reviewSession))
    rw [hp.pairwise_iff (fun hab => noOverlap_symm hab), List.filter_append]
    have hnil : (dayPrefix day).filter (fun s => decide (s ≠ reviewSession)) = [] := by
      rw [List.filter_eq_nil_iff]
      intro s hs
      simp [(mem_dayPrefix hs).1]
    rw [hnil, List.nil_append]
    exact hblocks.sublist (List.filter_sublist _)
  · intro hday
    have hpre : dayPrefix day = [] := by simp [dayPrefix, hday]
    rw [hpre, List.nil_append] at hperm
    exact (hperm.pairwise_iff (fun hab => noOverlap_symm hab)).2 hblocks

/-- Witness for C2 (amended): Tuesday of `overlapInput`, whose unavailable range is on
Monday. -/
theorem slot_sessions_disjoint_witness :
    ([visualBlock 840 "A", visualBlock 1020 "A"].filter
        (fun s => decide (s ≠ reviewSession))).Pairwise NoOverlap ∧
      (Day.Tuesday ≠ Day.Sunday → [visualBlock 840 "A", visualBlock 1020 "A"].Pairwise NoOverlap) :=
  slot_sessions_disjoint overlapInput zeroRands 1 overlapResult overlapInput_run
    Day.Tuesday [visualBlock 840 "A", visualBlock 1020 "A"] (by decide) (fun _ _ => rfl)

/-! ## C3: unavailable ranges -/

/-- C3, as stated, fails: on `busySundayInput` the review session 15:00 - 16:30 is in the
Sunday list although Sunday 15:00 - 16:00 is unavailable. -/
theorem review_ignores_unavailable :
    optimizeSchedule busySundayInput zeroRands 1 = some (Except.ok busySundayResult) ∧
      ∃ l, (Day.Sunday, l) ∈ busySundayResult.schedule ∧ ∃ s ∈ l,
        ∃ t ∈ busySundayInput.unavailableTimes, t.day = Day.Sunday ∧
          s.start < parseTime t.end_ ∧ s.end_ > parseTime t.start := by
  refine ⟨by decide!, [visualBlock 540 "A", reviewSession], by decide, reviewSession, by decide,
    { day := Day.Sunday, start := { hours := 15, minutes := 0 },
      end_ := { hours := 16, minutes := 0 } }, by decide, by decide, by decide, by decide⟩

/-- C3 (amended): every session of a day other than the fixed Sunday review overlaps
no unavailable range given for that day. -/
theorem course_sessions_available (u : UserData) (rand : Nat → Rand) (fuel : Nat) (r : Result)
    (h : optimizeSchedule u rand fuel = some (Except.ok r)) (day : Day) (l : List Session)
    (hmem : (day, l) ∈ r.schedule) (s : Session) (hs : s ∈ l) (hrev : s ≠ reviewSession) :
    ∀ t ∈ u.unavailableTimes, t.day = day →
      ¬ (s.start < parseTime t.end_ ∧ s.end_ > parseTime t.start) := by
  obtain ⟨blocks, hperm, _, hall, _⟩ := mem_day_cases u rand fuel r h day l hmem
  rcases List.mem_append.1 (hperm.mem_iff.1 hs) with hpre | hblock
  · exact absurd (mem_dayPrefix hpre).1 hrev
  · obtain ⟨hour, _, _, hst, hen, hav⟩ := hall s hblock
    rw [hst, hen]
    exact available_spec u day _ _ hav

/-- Witness for C3 (amended): the Monday block at 16:00 - 17:30 of `overlapInput` does not
overlap the unavailable range Monday 14:00 - 16:00. -/
theorem course_sessions_available_witness :
    ¬ ((visualBlock 960 "A").start < parseTime { hours := 16, minutes := 0 } ∧
      (visualBlock 960 "A").end_ > parseTime { hours := 14, minutes := 0 }) :=
  course_sessions_available overlapInput zeroRands 1 overlapResult overlapInput_run
    Day.Monday [visualBlock 960 "A", visualBlock 1020 "A"] (by decide)
    (visualBlock 960 "A") (by decide) (by decide)
    { day := Day.Monday, start := { hours := 14, minutes := 0 },
      end_ := { hours := 16, minutes := 0 } } (by decide) (by decide)

/-! ## C4: the availability window -/

/-- C4, as stated, fails: on `halfHourInput` (window 10:30 to 14:00) Monday holds a
block starting at 10:00, before `startTime`, and a block ending at 14:30, after
`endTime`; the Sunday review 15:00 - 16:30 lies outside the window altogether. -/
theorem sessions_leave_window :
    optimizeSchedule halfHourInput zeroRands 1 = some (Except.ok halfHourResult) ∧
      (∃ l, (Day.Monday, l) ∈ halfHourResult.schedule ∧
        (∃ s ∈ l, s.start < parseTime halfHourInput.startTime) ∧
        (∃ s ∈ l, parseTime halfHourInput.endTime < s.end_)) ∧
      (∃ l, (Day.Sunday, l) ∈ halfHourResult.schedule ∧
        ∃ s ∈ l, parseTime halfHourInput.endTime < s.start) := by
  refine ⟨by decide!, ⟨[visualBlock 600 "A", visualBlock 780 "A"], by decide,
    ⟨visualBlock 600 "A", by decide, by decide⟩, ⟨visualBlock 780 "A", by decide, by decide⟩⟩,
    ⟨[visualBlock 600 "A", reviewSession], by decide, reviewSession, by decide, by decide⟩⟩

/-- C4 (amended): every session other than the fixed Sunday review starts on a full
hour `h` with `startTime.hours <= h < endTime.hours` and ends 90 minutes later. So it
starts before `endTime` and no earlier than `startTime` with its minutes dropped. The
Sunday list always holds the review session, 15:00 - 16:30 whatever the window. -/
theorem course_sessions_hours (u : UserData) (rand : Nat → Rand) (fuel : Nat) (r : Result)
    (h : optimizeSchedule u rand fuel = some (Except.ok r)) (day : Day) (l : List Session)
    (hmem : (day, l) ∈ r.schedule) :
    (∀ s ∈ l, s ≠ reviewSession →
      (∃ hour, u.startTime.hours.val ≤ hour ∧ hour < u.endTime.hours.val ∧
        s.start = hour * 60) ∧
      s.end_ = s.start + 90 ∧ s.start < parseTime u.endTime ∧
      parseTime u.startTime ≤ s.start + u.startTime.minutes.val) ∧
    (day = Day.Sunday → reviewSession ∈ l) := by
  obtain ⟨blocks, hperm, _, hall, _⟩ := mem_day_cases u rand fuel r h day l hmem
  constructor
  · intro s hs hrev
    rcases List.mem_append.1 (hperm.mem_iff.1 hs) with hpre | hblock
    · exact absurd (mem_dayPrefix hpre).1 hrev
    · obtain ⟨hour, h1, h2, hst, hen, _⟩ := hall s hblock
      rw [getHours_parseTime] at h1 h2
      refine ⟨⟨hour, h1, h2, hst⟩, by omega, ?_, ?_⟩ <;>
      · unfold parseTime
        omega
  · intro hday
    apply hperm.mem_iff.2
    apply List.mem_append_left
    simp [dayPrefix, hday]

/-- Witness for C4 (amended): Sunday of `halfHourInput`. -/
theorem course_sessions_hours_witness :
    (∀ s ∈ [visualBlock 600 "A", reviewSession], s ≠ reviewSession →
      (∃ hour, halfHourInput.startTime.hours.val ≤ hour ∧
        hour < halfHourInput.endTime.hours.val ∧ s.start = hour * 60) ∧
      s.end_ = s.start + 90 ∧ s.start < parseTime halfHourInput.endTime ∧
      parseTime halfHourInput.startTime ≤ s.start + halfHourInput.startTime.minutes.val) ∧
    (Day.Sunday = Day.Sunday → reviewSession ∈ [visualBlock 600 "A", reviewSession]) :=
  course_sessions_hours halfHourInput zeroRands 1 halfHourResult halfHourInput_run
    Day.Sunday [visualBlock 600 "A", reviewSession] (by decide)

/-! ## C5: the order within a day -/

/-- C6: whenever `calculateAnalytics` returns, `totalStudyHours` is 1.5 times the
number of sessions of the schedule, the values of `subjectDistribution` add up to
`totalStudyHours`, every entry `subjectDistribution[x]` is 1.5 times the number of
sessions whose subject is `x`, and there is an entry for every course name and for
`General Review`; and it returns for every non-empty course list. -/
theorem analytics_hours (schedule : List (Day × List Session)) (courses : List Course)
    (examDates : List ExamDate) (r : Rand) :
    (∀ a, calculateAnalytics schedule courses examDates r = Except.ok a →
      a.totalStudyHours = 3 / 2 * ((allSessions schedule).length : ℚ) ∧
      (a.subjectDistribution.map Prod.snd).sum = a.totalStudyHours ∧
      (∀ x, x ∈ a.subjectDistribution.map Prod.fst →
        objGet a.subjectDistribution x = some (3 / 2 * (sessionCount schedule x : ℚ))) ∧
      (∀ c ∈ courses, c.name ∈ a.subjectDistribution.map Prod.fst) ∧
      "General Review" ∈ a.subjectDistribution.map Prod.fst) ∧
    (courses ≠ [] → ∃ a, calculateAnalytics schedule courses examDates r = Except.ok a) := by
  constructor
  · intro a ha
    unfold calculateAnalytics at ha
    simp only at ha
    cases hh : highestPriorityCourse (coursePriorities courses) with
    | error e => rw [hh] at ha; cases ha
    | ok name =>
      rw [hh] at ha
      simp only [Except.ok.injEq] at ha
      subst ha
      exact tally_spec schedule courses
  · exact calculateAnalytics_ok schedule courses examDates r

/-- Witness for C6: one session of course A on Monday. -/
theorem analytics_hours_witness :
    oneSessionAnalytics.totalStudyHours = 3 / 2 * ((allSessions oneSessionSchedule).length : ℚ) ∧
      (oneSessionAnalytics.subjectDistribution.map Prod.snd).sum =
        oneSessionAnalytics.totalStudyHours ∧
      (∀ x, x ∈ oneSessionAnalytics.subjectDistribution.map Prod.fst →
        objGet oneSessionAnalytics.subjectDistribution x =
          some (3 / 2 * (sessionCount oneSessionSchedule x : ℚ))) ∧
      (∀ c ∈ [({ name := "A", priority := 5 } : Course)],
        c.name ∈ oneSessionAnalytics.subjectDistribution.map Prod.fst) ∧
      "General Review" ∈ oneSessionAnalytics.subjectDistribution.map Prod.fst :=
  (analytics_hours oneSessionSchedule [{ name := "A", priority := 5 }] [] zeroRand).1
    oneSessionAnalytics (by decide!)

/-! ## C7: the quotas fit the week -/

/-- C8, as stated, fails: with `startTime = 17:00` and `endTime = 09:00` the value of
`maxSessionsPerDay` is `min 2 (floor (-480 / 100)) = -5`; nothing clamps it to `0`. -/
theorem maxSessionsPerDay_negative :
    maxSessionsPerDay reversedWindowInput = -5 ∧
      ¬ (0 ≤ maxSessionsPerDay reversedWindowInput) := by
  decide

/-- C8 (amended): `maxSessionsPerDay` is the minimum of
`floor (studyHoursPerDay * 60 / 90)` and
`floor ((endTime - startTime) / (90 + breakLength))`, with no clamp: it is
non-negative exactly when `studyHoursPerDay` is non-negative and `endTime` is not
before `startTime`. -/
theorem maxSessionsPerDay_spec (u : UserData) :
    maxSessionsPerDay u =
        min ⌊((u.studyHoursPerDay : ℚ) * 60) / 90⌋
          ⌊(((parseTime u.endTime : ℤ) : ℚ) - ((parseTime u.startTime : ℤ) : ℚ)) /
              (90 + (u.breakLength : ℚ))⌋ ∧
      (0 ≤ maxSessionsPerDay u ↔
        0 ≤ u.studyHoursPerDay ∧ parseTime u.startTime ≤ parseTime u.endTime) := by
  constructor
  · have h1 : ⌊((u.studyHoursPerDay : ℚ) * 60) / 90⌋ = u.studyHoursPerDay * 60 / 90 := by
      have := Rat.floor_intCast_div_natCast (u.studyHoursPerDay * 60) 90
      push_cast at this
      exact this
    have h2 : ⌊(((parseTime u.endTime : ℤ) : ℚ) - ((parseTime u.startTime : ℤ) : ℚ)) /
        (90 + (u.breakLength : ℚ))⌋ =
        ((parseTime u.endTime : ℤ) - (parseTime u.startTime : ℤ)) / (90 + (u.breakLength : ℤ)) := by
      have := Rat.floor_intCast_div_natCast
        ((parseTime u.endTime : ℤ) - (parseTime u.startTime : ℤ)) (90 + u.breakLength)
      push_cast at this
      exact this
    rw [h1, h2]
    rfl
  · unfold maxSessionsPerDay availableMinutesPerDay sessionLengthMinutes
    have hb : (0 : ℤ) < ((90 : ℕ) : ℤ) + (u.breakLength : ℤ) := by positivity
    rw [le_min_iff, Int.le_ediv_iff_mul_le (by norm_num), Int.le_ediv_iff_mul_le hb]
    constructor
    · rintro ⟨h1, h2⟩
      constructor
      · linarith
      · have : (0 : ℤ) ≤ (parseTime u.endTime : ℤ) - (parseTime u.startTime : ℤ) := by
          simpa using h2
        omega
    · rintro ⟨h1, h2⟩
      constructor
      · linarith
      · have : (parseTime u.startTime : ℤ) ≤ (parseTime u.endTime : ℤ) := by exact_mod_cast h2
        simp only [zero_mul]
        omega

/-! ## C9: equal priorities -/

/-- C12, the code at the failing input: with courses A and B of priority 0 and
totalSessions = 14 both quotas are NaN (0/0), the minimum-one step leaves them, and
the week holds no course session, only the Sunday review. -/
theorem zero_priorities_nan :
    maxSessionsPerDay zeroPriorityInput = 2 ∧
    totalPriorityPoints (sortedCourses zeroPriorityInput) = 0 ∧
    courseSessions (sortedCourses zeroPriorityInput) 14 1 =
      some (Except.ok [("A", JSNum.nan), ("B", JSNum.nan)]) ∧
    optimizeSchedule zeroPriorityInput zeroRands 1 = some (Except.ok zeroPriorityResult) := by
  refine ⟨by decide, by decide, by decide, by decide!⟩

/-! ## C13: exam recommendations -/

/-- C15, counterexample: on `lateSlotInput`, Monday. With no quota left, slot 0
(09:00, unavailable; 10:00 is free) places nothing. In the run, the quota of A is 35 and
after the slots 0, 1, 2 of Monday (three sessions placed) the remaining quota is 32; slot
3 has the candidate start 18:00, which lies in an unavailable range and has no later
hour up to 16:00: no session is added, and the remaining quota is 31 afterwards. -/
theorem late_slot_loses_unit :
    isTimeSlotAvailable (unavailableTimesByDay lateSlotInput Day.Monday) (9 * 60) (9 * 60 + 90) =
      false ∧
    isTimeSlotAvailable (unavailableTimesByDay lateSlotInput Day.Monday) (10 * 60)
      (10 * 60 + 90) = true ∧
    (placeSlot lateSlotInput zeroRands (sortedCourses lateSlotInput)
      (unavailableTimesByDay lateSlotInput Day.Monday)
      { remaining := [("A", JSNum.int 0)], sessions := [], draws := 0 } 0).sessions = [] ∧
    courseSessions (sortedCourses lateSlotInput) 35 1 = some (Except.ok [("A", JSNum.int 35)]) ∧
    (List.range 3).foldl
      (placeSlot lateSlotInput zeroRands (sortedCourses lateSlotInput)
        (unavailableTimesByDay lateSlotInput Day.Monday))
      { remaining := [("A", JSNum.int 35)], sessions := [], draws := 0 } =
      { remaining := [("A", JSNum.int 32)]
        sessions := [visualBlock 600 "A", visualBlock 720 "A", visualBlock 900 "A"]
        draws := 3 } ∧
    getHours (parseTime lateSlotInput.startTime) + 3 * 3 = 18 ∧
    isTimeSlotAvailable (unavailableTimesByDay lateSlotInput Day.Monday) (18 * 60)
      (18 * 60 + 90) = false ∧
    placeSlot lateSlotInput zeroRands (sortedCourses lateSlotInput)
      (unavailableTimesByDay lateSlotInput Day.Monday)
      { remaining := [("A", JSNum.int 32)]
        sessions := [visualBlock 600 "A", visualBlock 720 "A", visualBlock 900 "A"]
        draws := 3 } 3 =
      { remaining := [("A", JSNum.int 31)]
        sessions := [visualBlock 600 "A", visualBlock 720 "A", visualBlock 900 "A"]
        draws := 3 } := by
  decide

/-- C15, amended: for a slot for which a course is selected and whose candidate hour
(startTime.hour + 3*slot) is before endTime.hour and conflicts with an unavailable range
of the day: if some hour h with candidate hour < h < endTime.hour gives a free
90-minute block, one session of the selected course is placed at the smallest such h
(and the course's remaining quota goes down by one); if there is none, no session is
added and the remaining quotas are the same after the slot as before. -/
theorem probing_places_first_free (u : UserData) (rand : Nat → Rand) (sorted : List Course)
    (ranges : List (Nat × Nat)) (st : PlaceState) (slot : Nat) (sel : Course)
    (hsel : selectCourse sorted st.remaining = some sel)
    (hin : getHours (parseTime u.startTime) + slot * 3 < getHours (parseTime u.endTime))
    (hconf : isTimeSlotAvailable ranges ((getHours (parseTime u.startTime) + slot * 3) * 60)
      ((getHours (parseTime u.startTime) + slot * 3) * 60 + 90) = false) :
    ((∃ h, getHours (parseTime u.startTime) + slot * 3 < h ∧ h < getHours (parseTime u.endTime) ∧
        isTimeSlotAvailable ranges (h * 60) (h * 60 + 90) = true) →
      ∃ h, getHours (parseTime u.startTime) + slot * 3 < h ∧ h < getHours (parseTime u.endTime) ∧
        isTimeSlotAvailable ranges (h * 60) (h * 60 + 90) = true ∧
        (∀ h', getHours (parseTime u.startTime) + slot * 3 < h' → h' < h →
          isTimeSlotAvailable ranges (h' * 60) (h' * 60 + 90) = false) ∧
        (placeSlot u rand sorted ranges st slot).sessions =
          st.sessions ++ [studyBlock u.learningStyle (rand st.draws) (h * 60) sel.name] ∧
        (placeSlot u rand sorted ranges st slot).remaining = decAt st.remaining sel.name) ∧
    ((∀ h, getHours (parseTime u.startTime) + slot * 3 < h → h < getHours (parseTime u.endTime) →
        isTimeSlotAvailable ranges (h * 60) (h * 60 + 90) = false) →
      (placeSlot u rand sorted ranges st slot).sessions = st.sessions ∧
      (placeSlot u rand sorted ranges st slot).remaining = st.remaining) := by
  have hlate : ¬ getHours (parseTime u.endTime) ≤ getHours (parseTime u.startTime) + slot * 3 := by
    omega
  have hav : ¬ isTimeSlotAvailable ranges ((getHours (parseTime u.startTime) + slot * 3) * 60)
      ((getHours (parseTime u.startTime) + slot * 3) * 60 + sessionLengthMinutes) = true := by
    intro h
    have h2 : isTimeSlotAvailable ranges ((getHours (parseTime u.startTime) + slot * 3) * 60)
      ((getHours (parseTime u.startTime) + slot * 3) * 60 + 90) = true := h
    rw [hconf] at h2
    cases h2
  obtain ⟨hfound, hnone⟩ := find?_range'
    (fun hour => isTimeSlotAvailable ranges (hour * 60) (hour * 60 + sessionLengthMinutes))
    (getHours (parseTime u.endTime) - (getHours (parseTime u.startTime) + slot * 3 + 1))
    (getHours (parseTime u.startTime) + slot * 3 + 1)
  have hplace : placeSlot u rand sorted ranges st slot =
      match findAlternative ranges (getHours (parseTime u.startTime) + slot * 3)
        (getHours (parseTime u.endTime)) with
      | some hour =>
        { remaining := decAt st.remaining sel.name
          sessions := st.sessions ++
            [studyBlock u.learningStyle (rand st.draws) (hour * 60) sel.name]
          draws := st.draws + 1 }
      | none => { st with remaining := incAt (decAt st.remaining sel.name) sel.name } := by
    unfold placeSlot
    rw [hsel]
    simp only
    rw [if_neg hlate, if_neg hav]
  cases halt : findAlternative ranges (getHours (parseTime u.startTime) + slot * 3)
      (getHours (parseTime u.endTime)) with
  | some hour =>
    rw [halt] at hplace
    obtain ⟨h1, h2, h3, h4⟩ := hfound hour halt
    constructor
    · intro _
      refine ⟨hour, by omega, by omega, h3, fun h' hlo hhi => h4 h' (by omega) hhi, ?_, ?_⟩
      · rw [hplace]
      · rw [hplace]
    · intro hall
      have := hall hour (by omega) (by omega)
      have h3' : isTimeSlotAvailable ranges (hour * 60) (hour * 60 + 90) = true := h3
      rw [this] at h3'
      cases h3'
  | none =>
    rw [halt] at hplace
    have hfree := hnone halt
    constructor
    · rintro ⟨h, hlo, hhi, hfr⟩
      have := hfree h (by omega) (by omega)
      have h3' : isTimeSlotAvailable ranges (h * 60) (h * 60 + 90) = false := this
      rw [hfr] at h3'
      cases h3'
    · intro _
      rw [hplace]
      exact ⟨rfl, incAt_decAt st.remaining sel.name (selectCourse_some hsel).2⟩

/-- Witness for C15 (amended): on `lateSlotInput`, Monday, slot 0 (09:00 is
unavailable) with quota 35 places the session of A at 10:00. -/
theorem probing_places_first_free_witness :
    ∃ h, getHours (parseTime lateSlotInput.startTime) + 0 * 3 < h ∧
      h < getHours (parseTime lateSlotInput.endTime) ∧
      isTimeSlotAvailable (unavailableTimesByDay lateSlotInput Day.Monday) (h * 60)
        (h * 60 + 90) = true ∧
      (∀ h', getHours (parseTime lateSlotInput.startTime) + 0 * 3 < h' → h' < h →
        isTimeSlotAvailable (unavailableTimesByDay lateSlotInput Day.Monday) (h' * 60)
          (h' * 60 + 90) = false) ∧
      (placeSlot lateSlotInput zeroRands (sortedCourses lateSlotInput)
        (unavailableTimesByDay lateSlotInput Day.Monday)
        { remaining := [("A", JSNum.int 35)], sessions := [], draws := 0 } 0).sessions =
        [] ++ [studyBlock lateSlotInput.learningStyle (zeroRands 0) (h * 60) "A"] ∧
      (placeSlot lateSlotInput zeroRands (sortedCourses lateSlotInput)
        (unavailableTimesByDay lateSlotInput Day.Monday)
        { remaining := [("A", JSNum.int 35)], sessions := [], draws := 0 } 0).remaining =
        decAt [("A", JSNum.int 35)] "A" :=
  (probing_places_first_free lateSlotInput zeroRands (sortedCourses lateSlotInput)
    (unavailableTimesByDay lateSlotInput Day.Monday)
    { remaining := [("A", JSNum.int 35)], sessions := [], draws := 0 } 0
    { name := "A", priority := 5 } (by decide) (by decide) (by decide)).1
    ⟨10, by decide, by decide, by decide⟩

/-! ## C16: the shape of the week -/

/-- C16, counterexample: on `zeroBudgetInput` maxSessionsPerDay is 0 and the run
returns; Sunday holds 0 course sessions, which is more than maxSessionsPerDay - 1 = -1. -/
theorem sunday_exceeds_negative_budget :
    maxSessionsPerDay zeroBudgetInput = 0 ∧
    optimizeSchedule zeroBudgetInput zeroRands 1 = some (Except.ok zeroBudgetResult) ∧
    (Day.Sunday, [reviewSession]) ∈ zeroBudgetResult.schedule ∧
    ¬ (((courseSessionsOf [reviewSession]).length : Int) ≤
      maxSessionsPerDay zeroBudgetInput - 1) :=
  ⟨by decide, zeroBudgetInput_run, by decide, by decide⟩

/-- C16, amended: when `optimizeSchedule` returns, the schedule has the seven keys
Monday..Sunday in this order; the Sunday list contains the General Review session
(15:00 - 16:30, Weekly Summary) and at most max (maxSessionsPerDay - 1, 0) course
sessions; no other day contains a session with subject General Review, given no course
has that name; and the Sunday prologue lowers the remaining quota of one course of the
input by exactly one and leaves every other remaining quota as it was. -/
theorem week_shape (u : UserData) (rand : Nat → Rand) (fuel : Nat) (r : Result)
    (h : optimizeSchedule u rand fuel = some (Except.ok r))
    (hname : ∀ c ∈ u.courses, c.name ≠ "General Review") :
    r.schedule.map Prod.fst = days ∧
    (∃ l, (Day.Sunday, l) ∈ r.schedule) ∧
    (∀ l, (Day.Sunday, l) ∈ r.schedule →
      reviewSession ∈ l ∧
      ((courseSessionsOf l).length : Int) ≤ max (maxSessionsPerDay u - 1) 0) ∧
    (∀ day l, (day, l) ∈ r.schedule → day ≠ Day.Sunday →
      ∀ s ∈ l, s.subject ≠ "General Review") ∧
    (∀ remaining draws st0, startDay u rand Day.Sunday remaining draws = Except.ok st0 →
      st0.sessions = [reviewSession] ∧
      ∃ c ∈ u.courses,
        (∀ v : Int, getNum remaining c.name = JSNum.int v →
          getNum st0.remaining c.name = JSNum.int (v - 1)) ∧
        ∀ x, x ≠ c.name → getNum st0.remaining x = getNum remaining x) := by
  obtain ⟨maxPerDay, hmax, hblocks⟩ := day_sessions_blocks u rand fuel r h
  obtain ⟨_, _, hkeys, _⟩ := optimizeSchedule_days u rand fuel r h
  refine ⟨hkeys, ?_, ?_, ?_, ?_⟩
  · have hmem : Day.Sunday ∈ r.schedule.map Prod.fst := by
      rw [hkeys]
      decide
    obtain ⟨⟨d, l⟩, hdl, hd⟩ := List.mem_map.1 hmem
    simp only at hd
    subst hd
    exact ⟨l, hdl⟩
  · intro l hl
    obtain ⟨blocks, hperm, _, hlen⟩ := hblocks Day.Sunday l hl
    constructor
    · apply hperm.mem_iff.2
      apply List.mem_append_left
      unfold dayPrefix
      rw [if_pos rfl]
      exact List.mem_singleton.2 rfl
    · have h1 := courseSessionsOf_length_le Day.Sunday l blocks hperm
      have h2 : availableSlots maxPerDay Day.Sunday = maxPerDay - 1 := by
        unfold availableSlots
        rw [if_pos rfl]
      rw [h2] at hlen
      rw [hmax]
      have h3 : (courseSessionsOf l).length ≤ maxPerDay - 1 := le_trans h1 hlen
      have h4 : (((courseSessionsOf l).length : Nat) : Int) ≤ ((maxPerDay - 1 : Nat) : Int) :=
        Int.ofNat_le.2 h3
      have h5 : ((maxPerDay - 1 : Nat) : Int) ≤ max ((maxPerDay : Int) - 1) 0 := by
        rw [le_max_iff]
        omega
      exact le_trans h4 h5
  · intro day l hl hday s hs
    rcases day_sessions_kind u rand fuel r h day l hl s hs with hpre | ⟨c, hc, rd, start, hs⟩
    · unfold dayPrefix at hpre
      rw [if_neg hday] at hpre
      cases hpre
    · obtain ⟨c0, hc0, hn⟩ := sortedCourses_name_mem u c hc
      rw [hs]
      show c.name ≠ "General Review"
      rw [hn]
      exact hname c0 hc0
  · intro remaining draws st0 hst0
    rcases startDay_cases u rand Day.Sunday remaining draws st0 hst0 with
      ⟨_, c, hc, rfl⟩ | ⟨hne, _⟩
    · refine ⟨rfl, c, hc, ?_, ?_⟩
      · intro v hv
        show getNum (decAt remaining c.name) c.name = JSNum.int (v - 1)
        rw [(decAt_values remaining c.name).1, hv]
        rfl
      · intro x hx
        exact (decAt_values remaining c.name).2 x hx
    · exact absurd rfl hne

/-- Witness for C16 (amended): the run on `specExampleInput`. -/
theorem week_shape_witness :
    specExampleResult.schedule.map Prod.fst = days ∧
    (∃ l, (Day.Sunday, l) ∈ specExampleResult.schedule) ∧
    (∀ l, (Day.Sunday, l) ∈ specExampleResult.schedule →
      reviewSession ∈ l ∧
      ((courseSessionsOf l).length : Int) ≤ max (maxSessionsPerDay specExampleInput - 1) 0) ∧
    (∀ day l, (day, l) ∈ specExampleResult.schedule → day ≠ Day.Sunday →
      ∀ s ∈ l, s.subject ≠ "General Review") ∧
    (∀ remaining draws st0,
      startDay specExampleInput zeroRands Day.Sunday remaining draws = Except.ok st0 →
      st0.sessions = [reviewSession] ∧
      ∃ c ∈ specExampleInput.courses,
        (∀ v : Int, getNum remaining c.name = JSNum.int v →
          getNum st0.remaining c.name = JSNum.int (v - 1)) ∧
        ∀ x, x ≠ c.name → getNum st0.remaining x = getNum remaining x) :=
  week_shape specExampleInput zeroRands 1 specExampleResult specExampleInput_run (by decide)

/-! ## C17: focus labels -/

/-- C18: when `optimizeSchedule` returns, no course is named General Review and every
course's final quota `courseSessions[name]` is a non-negative number, the sessions of
the week whose subject is a given course are at most that course's quota, and the
course sessions of the week are at most the sum of the courses' quotas. (Unique names
are not needed for the bound.) -/
theorem sessions_within_quota (u : UserData) (rand : Nat → Rand) (fuel : Nat) (r : Result)
    (maxPerDay : Nat) (cs : List (String × JSNum))
    (h : optimizeSchedule u rand fuel = some (Except.ok r))
    (hmax : maxSessionsPerDay u = (maxPerDay : Int))
    (hcs : courseSessions (sortedCourses u) (maxPerDay * days.length) fuel = some (Except.ok cs))
    (hname : ∀ c ∈ u.courses, c.name ≠ "General Review")
    (hquota : ∀ c ∈ u.courses, ∃ q : Int, getNum cs c.name = JSNum.int q ∧ 0 ≤ q) :
    (∀ c ∈ u.courses, (sessionCount r.schedule c.name : Int) ≤ (getNum cs c.name).toInt) ∧
    ((courseSessionsOf (allSessions r.schedule)).length : Int) ≤
      (u.courses.map (fun c => (getNum cs c.name).toInt)).sum := by
  obtain ⟨maxPerDay', cs', remaining, draws, hmax', hcs', hsd, _⟩ :=
    optimizeSchedule_parts u rand fuel r h
  have hm : maxPerDay' = maxPerDay := by
    rw [hmax] at hmax'
    exact (Int.ofNat.inj hmax').symm
  subst hm
  have hc : cs' = cs := by
    rw [hcs] at hcs'
    simp only [Option.some.injEq, Except.ok.injEq] at hcs'
    exact hcs'.symm
  subst hc
  have hper : ∀ c ∈ u.courses,
      (sessionCount r.schedule c.name : Int) ≤ (getNum cs' c.name).toInt := by
    intro c hc
    obtain ⟨q, hq, hpos⟩ := hquota c hc
    rw [hq]
    exact count_within_quota u rand (sortedCourses u) maxPerDay' cs' remaining draws r.schedule
      hsd c.name q (hname c hc) hq hpos
  refine ⟨hper, ?_⟩
  have hsub : ∀ s ∈ allSessions r.schedule, s.subject ≠ "General Review" →
      ∃ c ∈ u.courses, s.subject = c.name := by
    intro s hs hne
    unfold allSessions at hs
    obtain ⟨l, hl, hsl⟩ := List.mem_flatten.1 hs
    obtain ⟨⟨day, l'⟩, hdl, hl'⟩ := List.mem_map.1 hl
    simp only at hl'
    subst hl'
    rcases day_sessions_kind u rand fuel r h day l' hdl s hsl with hpre | ⟨c, hc, rd, start, hsb⟩
    · exfalso
      unfold dayPrefix at hpre
      split at hpre
      · rw [List.mem_singleton.1 hpre] at hne
        exact hne rfl
      · cases hpre
    · obtain ⟨c0, hc0, hn⟩ := sortedCourses_name_mem u c hc
      exact ⟨c0, hc0, by rw [hsb, ← hn]; rfl⟩
  have h1 := courseSessions_le_sum u.courses (allSessions r.schedule) hsub
  have h2 : ((u.courses.map (fun c =>
      ((allSessions r.schedule).filter (fun s => decide (s.subject = c.name))).length)).sum : Int) ≤
      (u.courses.map (fun c => (getNum cs' c.name).toInt)).sum := by
    have hcast : (((u.courses.map (fun c =>
        ((allSessions r.schedule).filter (fun s => decide (s.subject = c.name))).length)).sum :
        Nat) : Int) =
        (u.courses.map (fun c => (sessionCount r.schedule c.name : Int))).sum := by
      rw [Nat.cast_list_sum, List.map_map]
      rfl
    rw [hcast]
    exact List.sum_le_sum hper
  exact le_trans (Int.ofNat_le.2 h1) h2

/-- Witness for C18: on `specExampleInput` both quotas are 7. -/
theorem sessions_within_quota_witness :
    (∀ c ∈ specExampleInput.courses,
      (sessionCount specExampleResult.schedule c.name : Int) ≤
        (getNum [("A", JSNum.int 7), ("B", JSNum.int 7)] c.name).toInt) ∧
    ((courseSessionsOf (allSessions specExampleResult.schedule)).length : Int) ≤
      (specExampleInput.courses.map
        (fun c => (getNum [("A", JSNum.int 7), ("B", JSNum.int 7)] c.name).toInt)).sum :=
  sessions_within_quota specExampleInput zeroRands 1 specExampleResult 2
    [("A", JSNum.int 7), ("B", JSNum.int 7)] specExampleInput_run (by decide) (by decide)
    (by decide)
    (fun c hc => by
      simp only [specExampleInput, List.mem_cons, List.mem_singleton, List.not_mem_nil,
        or_false] at hc
      rcases hc with rfl | rfl
      · exact ⟨7, by decide, by decide⟩
      · exact ⟨7, by decide, by decide⟩)

/-! ## C19: sessions per day and hours -/

/-- C19: when `optimizeSchedule` returns and maxSessionsPerDay >= 1, every day list
(the Sunday list with its General Review session) holds at most maxSessionsPerDay
sessions, 1.5 hours times its length is at most studyHoursPerDay, and
`analytics.totalStudyHours` is at most 7 * studyHoursPerDay. -/
theorem day_within_budget (u : UserData) (rand : Nat → Rand) (fuel : Nat) (r : Result)
    (h : optimizeSchedule u rand fuel = some (Except.ok r))
    (hpos : 1 ≤ maxSessionsPerDay u) :
    (∀ day l, (day, l) ∈ r.schedule →
      (l.length : Int) ≤ maxSessionsPerDay u ∧
      (3 / 2 : ℚ) * (l.length : ℚ) ≤ (u.studyHoursPerDay : ℚ)) ∧
    r.analytics.totalStudyHours ≤ 7 * (u.studyHoursPerDay : ℚ) := by
  obtain ⟨maxPerDay, _, _, draws, hmax, _, _, han⟩ := optimizeSchedule_parts u rand fuel r h
  obtain ⟨_, _, hkeys, _⟩ := optimizeSchedule_days u rand fuel r h
  have hpos' : 1 ≤ maxPerDay := by
    rw [hmax] at hpos
    exact Int.ofNat_le.1 hpos
  have hbudget := budget_le_hours u maxPerDay hmax
  have hday := day_length_le u rand fuel r h maxPerDay hmax hpos'
  constructor
  · intro day l hl
    have hlen := hday day l hl
    constructor
    · rw [hmax]
      exact Int.ofNat_le.2 hlen
    · have hq : (l.length : ℚ) ≤ (maxPerDay : ℚ) := by exact_mod_cast hlen
      linarith
  · rw [calculateAnalytics_totals r.schedule (coursesAfter u) u.examDates (rand draws)
      r.analytics han]
    have hlen := allSessions_length_le r.schedule maxPerDay hday
    have h7 : r.schedule.length = 7 := by
      have := congrArg List.length hkeys
      rw [List.length_map] at this
      exact this
    rw [h7] at hlen
    have hq : ((allSessions r.schedule).length : ℚ) ≤ 7 * (maxPerDay : ℚ) := by
      exact_mod_cast hlen
    linarith

/-- Witness for C19: the run on `specExampleInput`, where maxSessionsPerDay = 2 and
studyHoursPerDay = 3. -/
theorem day_within_budget_witness :
    (∀ day l, (day, l) ∈ specExampleResult.schedule →
      (l.length : Int) ≤ maxSessionsPerDay specExampleInput ∧
      (3 / 2 : ℚ) * (l.length : ℚ) ≤ (specExampleInput.studyHoursPerDay : ℚ)) ∧
    specExampleResult.analytics.totalStudyHours ≤
      7 * (specExampleInput.studyHoursPerDay : ℚ) :=
  day_within_budget specExampleInput zeroRands 1 specExampleResult specExampleInput_run
    (by decide)

/-! ## C20: quotas along the priority order -/

/-- C20: for a course list with unique names whose working priorities are not all
zero, the quotas before the overflow correction do not increase along the
priority-sorted order, and whenever the quota computation returns, the final quotas
are numbers >= 1 and do not increase along that order either: a course that comes
before another (so has at least its working priority) has at least its quota. -/
theorem quota_monotone (u : UserData) (totalSessions fuel : Nat) (q : List (String × JSNum))
    (hnodup : (u.courses.map (fun c => c.name)).Nodup)
    (hT : 0 < totalPriorityPoints (sortedCourses u))
    (hq : courseSessions (sortedCourses u) totalSessions fuel = some (Except.ok q)) :
    (sortedCourses u).Pairwise (fun x y => y.priority ≤ x.priority) ∧
    QuotasMonotone (sortedCourses u)
      (ensureMinimum (sortedCourses u) (distributeSessions (sortedCourses u) totalSessions)) ∧
    (∀ c ∈ sortedCourses u, ∃ v : Int, getNum q c.name = JSNum.int v ∧ 1 ≤ v) ∧
    (sortedCourses u).Pairwise (fun x y => quotaOf q y ≤ quotaOf q x) := by
  have hsorted : (sortedCourses u).Pairwise (fun x y => y.priority ≤ x.priority) := by
    rw [sortedCourses_eq]
    exact sortByPriority_sorted _
  have hnd := sortedCourses_names_nodup u hnodup
  have hmin := minimum_good (sortedCourses u) totalSessions hnd hsorted hT
  have hfin := courseSessions_good (sortedCourses u) totalSessions fuel hnd hsorted hT q hq
  exact ⟨hsorted, hmin.2, hfin.1, hfin.2⟩

/-- Witness for C20: on `crowdedInput` (totalSessions = 7) the scale-down and the
correction loop both run, and the final quotas are 2, 1, 1, 1, 1, 1. -/
theorem quota_monotone_witness :
    (sortedCourses crowdedInput).Pairwise (fun x y => y.priority ≤ x.priority) ∧
    QuotasMonotone (sortedCourses crowdedInput)
      (ensureMinimum (sortedCourses crowdedInput)
        (distributeSessions (sortedCourses crowdedInput) 7)) ∧
    (∀ c ∈ sortedCourses crowdedInput,
      ∃ v : Int, getNum crowdedQuotas c.name = JSNum.int v ∧ 1 ≤ v) ∧
    (sortedCourses crowdedInput).Pairwise
      (fun x y => quotaOf crowdedQuotas y ≤ quotaOf crowdedQuotas x) :=
  quota_monotone crowdedInput 7 2 crowdedQuotas (by decide) (by decide) (by decide)
end StudyScheduler
